import Mathlib

/-!
Upload lifecycle of the video horizontal-flip service.

A shallow embedding of the upload, validate, transform, cleanup pipeline
(`src/src/utils/fileUtils.js`, `src/src/utils/errorHandler.js`,
`src/src/middleware/uploadMiddleware.js`, `src/src/services/videoProcessor.js`,
`src/src/controllers/videoController.js`, `src/src/routes/videoRoutes.js`).

Effects (filesystem, clock, external tool, HTTP response) are recorded in a
trace of events; the behaviour of the outside world is an oracle `World` whose
answers may depend on everything that happened before. Asynchronous code is
sequentialised at its `await` points; `throw` and rejected promises are the
`Except.error` results.
-/

namespace FlipApi

/-! ## JavaScript values used by the service -/

/-- An error object. `name`, `message`, `statusCode`, `field`, `code`,
`originalError`, `ffmpegError` are the properties the service reads or writes;
`none` stands for an absent (`undefined`) or `null` property. -/
inductive JsError where
  | mk (name : String) (message : String) (statusCode : Option Nat) (field : Option String)
      (code : Option String) (originalError : Option JsError) (ffmpegError : Option JsError)

namespace JsError

def name : JsError → String
  | mk n _ _ _ _ _ _ => n

def message : JsError → String
  | mk _ m _ _ _ _ _ => m

def statusCode : JsError → Option Nat
  | mk _ _ s _ _ _ _ => s

def field : JsError → Option String
  | mk _ _ _ f _ _ _ => f

def code : JsError → Option String
  | mk _ _ _ _ c _ _ => c

def originalError : JsError → Option JsError
  | mk _ _ _ _ _ o _ => o

def ffmpegError : JsError → Option JsError
  | mk _ _ _ _ _ _ g => g

/-- The built-in `new Error(message)`. -/
def error (message : String) : JsError :=
  mk "Error" message none none none none none

/-- An error raised by a library with an error `code` (`ENOENT`, `LIMIT_FILE_SIZE`, ...). -/
def withCode (message code : String) : JsError :=
  mk "Error" message none none (some code) none none

end JsError

/-- `String.prototype.includes`: does `sub` occur in `s`. -/
def includesChars (sub : List Char) : List Char → Bool
  | [] => sub.isEmpty
  | c :: cs => sub.isPrefixOf (c :: cs) || includesChars sub cs

def includes (s sub : String) : Bool := includesChars sub.data s.data

/-- `String.prototype.toLowerCase` on the ASCII letters (the only ones that can
produce an entry of the extension allow-list). -/
def toLowerCase (s : String) : String := String.mk (s.data.map Char.toLower)

/-! ## `src/src/utils/errorHandler.js`: the error classes -/

/-- `class ValidationError`: `constructor(message, field = null)`. -/
def ValidationError (message : String) (field : Option String) : JsError :=
  JsError.mk "ValidationError" message (some 400) field none none none

/-- `class FileProcessingError`: `constructor(message, originalError = null)`. -/
def FileProcessingError (message : String) (originalError : Option JsError) : JsError :=
  JsError.mk "FileProcessingError" message (some 500) none none originalError none

/-- `class FileSizeError`: `constructor(message)`; the class has no `field`. -/
def FileSizeError (message : String) : JsError :=
  JsError.mk "FileSizeError" message (some 413) none none none none

/-- `class FFmpegError`: `constructor(message, ffmpegError = null)`. -/
def FFmpegError (message : String) (ffmpegError : Option JsError) : JsError :=
  JsError.mk "FFmpegError" message (some 500) none none none ffmpegError

namespace ErrorHandler

def createValidationError (message : String) (field : Option String) : JsError :=
  ValidationError message field

def createFileProcessingError (message : String) (originalError : Option JsError) : JsError :=
  FileProcessingError message originalError

def createFileSizeError (message : String) : JsError :=
  FileSizeError message

def createFFmpegError (message : String) (ffmpegError : Option JsError) : JsError :=
  FFmpegError message ffmpegError

end ErrorHandler

/-! ## `src/src/config/index.js` -/

/-- The `upload` and `video` sections of the configuration object. `maxFileSize`,
`processingTimeout` and `tempDir` are read from the environment, with the
defaults below. -/
structure Config where
  maxFileSize : Nat := 52428800
  processingTimeout : Nat := 60000
  tempDir : String := "./temp"
  allowedMimeTypes : List String :=
    ["video/mp4", "video/quicktime", "video/x-msvideo", "video/avi"]
  allowedExtensions : List String := [".mp4", ".mov", ".avi"]
  maxDuration : ℚ := 10
  targetWidth : Int := 720
  targetHeight : Int := 1280

/-- The configuration when no environment variable is set. -/
def defaultConfig : Config := {}

/-! ## Node's `path` module (POSIX flavour) -/

namespace Path

/-- Loop state of `path.extname`. `startDot` and `stop` are `none` for `-1`
(`stop` is the variable `end` of the library code). -/
structure ExtState where
  startDot : Option Nat := none
  startPart : Nat := 0
  stop : Option Nat := none
  matchedSlash : Bool := true
  preDotState : Int := 0
  broke : Bool := false

/-- One iteration of the backwards scan of `path.extname` at index `i`. -/
def extStep (chars : List Char) (i : Nat) (s : ExtState) : ExtState :=
  if s.broke then s
  else
    let code := chars.getD i ' '
    if code = '/' then
      if !s.matchedSlash then { s with startPart := i + 1, broke := true } else s
    else
      let s1 : ExtState :=
        if s.stop = none then { s with matchedSlash := false, stop := some (i + 1) } else s
      if code = '.' then
        if s1.startDot = none then { s1 with startDot := some i }
        else if s1.preDotState ≠ 1 then { s1 with preDotState := 1 }
        else s1
      else if s1.startDot ≠ none then { s1 with preDotState := -1 }
      else s1

/-- The scan `for (i = path.length - 1; i >= 0; --i)`: `extScan chars n s` visits
indices `n-1, ..., 0`. -/
def extScan (chars : List Char) : Nat → ExtState → ExtState
  | 0, s => s
  | i + 1, s => extScan chars i (extStep chars i s)

/-- `path.extname` on a list of characters. -/
def extnameChars (chars : List Char) : List Char :=
  let s := extScan chars chars.length {}
  match s.startDot, s.stop with
  | some startDot, some stop =>
    if s.preDotState = 0 ∨
        (s.preDotState = 1 ∧ startDot = stop - 1 ∧ startDot = s.startPart + 1) then []
    else (chars.take stop).drop startDot
  | _, _ => []

/-- `path.extname(p)`. -/
def extname (p : String) : String := String.mk (extnameChars p.data)

/-- Splits a character list at every `/`. -/
def splitSlash : List Char → List (List Char)
  | [] => [[]]
  | c :: cs =>
    match splitSlash cs with
    | [] => [[]]
    | seg :: rest => if c = '/' then [] :: seg :: rest else (c :: seg) :: rest

/-- The segment stack of `normalizeString`: `acc` holds the segments kept so
far, innermost first. Empty and `.` segments are dropped, `..` removes the
previous segment unless that is itself `..` (or there is none, where it is kept
only when `allowAboveRoot`). -/
def normalizeSegments (allowAboveRoot : Bool) : List (List Char) → List (List Char) → List (List Char)
  | acc, [] => acc
  | acc, seg :: rest =>
    if seg = [] ∨ seg = ['.'] then normalizeSegments allowAboveRoot acc rest
    else if seg = ['.', '.'] then
      match acc with
      | top :: below =>
        if top = ['.', '.'] then
          normalizeSegments allowAboveRoot (if allowAboveRoot then seg :: acc else acc) rest
        else normalizeSegments allowAboveRoot below rest
      | [] => normalizeSegments allowAboveRoot (if allowAboveRoot then [seg] else []) rest
    else normalizeSegments allowAboveRoot (seg :: acc) rest

/-- Joins segments with `/`. -/
def joinSlash : List (List Char) → List Char
  | [] => []
  | [seg] => seg
  | seg :: rest => seg ++ '/' :: joinSlash rest

/-- `path.normalize` on a list of characters. -/
def normalizeChars (p : List Char) : List Char :=
  if p = [] then ['.']
  else
    let isAbsolute := p.head? = some '/'
    let trailingSeparator := p.getLast? = some '/'
    let body := joinSlash (normalizeSegments (!isAbsolute) [] (splitSlash p)).reverse
    if body = [] then
      if isAbsolute then ['/'] else if trailingSeparator then ['.', '/'] else ['.']
    else
      let body1 := if trailingSeparator then body ++ ['/'] else body
      if isAbsolute then '/' :: body1 else body1

/-- `path.join(a, b)`: the non-empty arguments joined by `/`, then normalised. -/
def join (a b : String) : String :=
  let parts := [a.data, b.data].filter (fun s => s ≠ [])
  if parts = [] then "." else String.mk (normalizeChars (joinSlash parts))

end Path

/-! ## `src/src/utils/fileUtils.js`: the pure predicates -/

namespace FileUtils

def isValidFileExtension (config : Config) (filename : String) : Bool :=
  let extension := toLowerCase (Path.extname filename)
  config.allowedExtensions.contains extension

def isValidMimeType (config : Config) (mimetype : String) : Bool :=
  config.allowedMimeTypes.contains mimetype

def isValidFileSize (config : Config) (size : Nat) : Bool :=
  decide (size ≤ config.maxFileSize)

/-- The body of `generateTempFilename` once `Date.now()` and the token
`Math.random().toString(36).substring(2, 15)` are known. -/
def tempFilename (timestamp : Int) (random : String) (originalName : String) : String :=
  "temp_" ++ toString timestamp ++ "_" ++ random ++ Path.extname originalName

def getTempFilePath (config : Config) (filename : String) : String :=
  Path.join config.tempDir filename

end FileUtils

/-! ## Effects: events, the outside world, and the effect monad -/

/-- The fields of `fs.Stats` the service reads (times in milliseconds). -/
structure Stats where
  size : Nat
  birthtime : Int
  mtime : Int
  isFile : Bool

/-- The object returned by `getFileInfo`. -/
structure FileInfo where
  size : Nat
  created : Int
  modified : Int
  isFile : Bool

/-- A stream descriptor of the probe result. -/
structure StreamInfo where
  codec_type : String
  width : Option Int
  height : Option Int

/-- The probe result of `ffprobe`: `format.duration` (`none` when it is not a
number) and the stream list. -/
structure Metadata where
  duration : Option ℚ
  streams : List StreamInfo

/-- What the `fluent-ffmpeg` command emits: the events `end` and `error`. -/
inductive FfmpegSignal where
  | finished
  | failed (err : JsError)

/-- How `res.sendFile(path, cb)` behaves: it throws synchronously, or calls the
callback with or without an error. -/
inductive SendOutcome where
  | threw (err : JsError)
  | callback (err : Option JsError)

/-- The `error` object of the JSON error body built by `formatErrorResponse`. -/
structure ErrorBody where
  message : String
  statusCode : Nat
  timestamp : Int
  path : String
  method : String
  stack : Option String
  originalError : Option String
  ffmpegError : Option JsError

/-- The object returned by `process.memoryUsage()` (bytes). -/
structure MemoryUsage where
  rss : Nat := 0
  heapTotal : Nat := 0
  heapUsed : Nat := 0
  external : Nat := 0
  arrayBuffers : Nat := 0

/-- The JSON body of the health endpoint. `timestamp` is the instant that
`new Date().toISOString()` renders, `uptime` is in seconds. -/
structure HealthBody where
  status : String
  timestamp : Int
  ffmpeg : String
  uptime : ℚ
  memory : MemoryUsage

/-- A JSON response body. -/
inductive ResponseBody where
  | error (body : ErrorBody)
  | health (body : HealthBody)
  | healthError (status : String) (timestamp : Int) (error : String)

/-- One observable effect, with the answer the outside world gave. Console
output is not recorded, except the resolution warning of `processVideo`. -/
inductive Event where
  | access (path : String) (err : Option JsError)
  | mkdir (path : String) (recursive : Bool) (err : Option JsError)
  | unlink (path : String) (err : Option JsError)
  | readdir (path : String) (result : Except JsError (List String))
  | dateNow (value : Int)
  | random (token : String)
  | stat (path : String) (result : Except JsError Stats)
  | getAvailableCodecs (err : Option JsError)
  | ffprobe (path : String) (result : Except JsError Metadata)
  | ffmpegCommand (input output : String)
  | ffmpegKill (signal : String)
  | warn (message : String)
  | setHeader (name value : String) (err : Option JsError)
  | sendFile (path : String)
  | status (code : Nat)
  | json (body : ResponseBody)

abbrev Trace := List Event

/-- The outside world. Every answer may depend on the whole history.
`ffmpegEvents t input output deadline` lists the `end` / `error` events that the
command built for `input` and `output` emits before `deadline` milliseconds
have passed; `now` is `Date.now()`; `randomToken` is the string
`Math.random().toString(36).substring(2, 15)`; `ffmpegPath` is the value of the
property `ffmpeg.path`; `nodeEnv` is `process.env.NODE_ENV`; `stackOf` is the
property `stack` of an error. -/
structure World where
  access : Trace → String → Option JsError
  mkdir : Trace → String → Option JsError
  unlink : Trace → String → Option JsError
  readdir : Trace → String → Except JsError (List String)
  stat : Trace → String → Except JsError Stats
  now : Trace → Int
  randomToken : Trace → String
  availableCodecs : Trace → Option JsError
  ffmpegPath : Option String
  ffprobe : Trace → String → Except JsError Metadata
  ffmpegEvents : Trace → String → String → Nat → List FfmpegSignal
  setHeader : Trace → String → String → Option JsError
  sendFile : Trace → String → SendOutcome
  nodeEnv : Option String
  stackOf : JsError → String
  uptime : Trace → ℚ
  memoryUsage : Trace → MemoryUsage

/-- A computation that extends the trace and either returns or throws. -/
def Eff (α : Type) : Type := Trace → Except JsError α × Trace

namespace Eff

def pure {α : Type} (a : α) : Eff α := fun t => (.ok a, t)

def bind {α β : Type} (m : Eff α) (f : α → Eff β) : Eff β := fun t =>
  match m t with
  | (.ok a, t1) => f a t1
  | (.error e, t1) => (.error e, t1)

/-- The statement `throw e`. -/
def throw {α : Type} (e : JsError) : Eff α := fun t => (.error e, t)

/-- The statement `try body catch (e) handler`. -/
def tryCatch {α : Type} (body : Eff α) (handler : JsError → Eff α) : Eff α := fun t =>
  match body t with
  | (.ok a, t1) => (.ok a, t1)
  | (.error e, t1) => handler e t1

/-- Records `ev`. -/
def emit (ev : Event) : Eff Unit := fun t => (.ok (), t ++ [ev])

/-- A call whose only answer is success or an error. -/
def attempt (answer : Trace → Option JsError) (ev : Option JsError → Event) : Eff Unit := fun t =>
  match answer t with
  | none => (.ok (), t ++ [ev none])
  | some e => (.error e, t ++ [ev (some e)])

/-- A call that returns a value or fails. -/
def request {α : Type} (answer : Trace → Except JsError α) (ev : Except JsError α → Event) :
    Eff α := fun t => (answer t, t ++ [ev (answer t)])

/-- A call that cannot fail. -/
def observe {α : Type} (value : Trace → α) (ev : α → Event) : Eff α := fun t =>
  (.ok (value t), t ++ [ev (value t)])

instance : Monad Eff where
  pure := Eff.pure
  bind := Eff.bind

end Eff

namespace FileUtils

/-- `generateTempFilename`: `Date.now()` and the random token come from the world. -/
def generateTempFilename (w : World) (originalName : String) : Eff String := do
  let timestamp ← Eff.observe w.now Event.dateNow
  let random ← Eff.observe w.randomToken Event.random
  return tempFilename timestamp random originalName

def ensureTempDir (w : World) (config : Config) : Eff Unit :=
  Eff.tryCatch
    (Eff.attempt (fun t => w.access t config.tempDir) (Event.access config.tempDir))
    (fun _ => Eff.attempt (fun t => w.mkdir t config.tempDir) (Event.mkdir config.tempDir true))

def safeDeleteFile (w : World) (filePath : String) : Eff Unit :=
  Eff.tryCatch
    (do
      Eff.attempt (fun t => w.access t filePath) (Event.access filePath)
      Eff.attempt (fun t => w.unlink t filePath) (Event.unlink filePath))
    (fun _ => return ())

/-- The body of the loop `for (const file of files)` of `cleanupOldTempFiles`. -/
def sweepEntry (w : World) (config : Config) (now maxAgeMs : Int) (file : String) : Eff Unit :=
  let filePath := Path.join config.tempDir file
  Eff.tryCatch
    (do
      let stats ← Eff.request (fun t => w.stat t filePath) (Event.stat filePath)
      if now - stats.mtime > maxAgeMs then safeDeleteFile w filePath else return ())
    (fun _ => return ())

/-- The loop `for (const file of files)` of `cleanupOldTempFiles`. -/
def sweepEntries (w : World) (config : Config) (now maxAgeMs : Int) : List String → Eff Unit
  | [] => return ()
  | file :: files => do
    sweepEntry w config now maxAgeMs file
    sweepEntries w config now maxAgeMs files

def cleanupOldTempFiles (w : World) (config : Config) (maxAgeMs : Int) : Eff Unit :=
  Eff.tryCatch
    (do
      let files ← Eff.request (fun t => w.readdir t config.tempDir) (Event.readdir config.tempDir)
      let now ← Eff.observe w.now Event.dateNow
      sweepEntries w config now maxAgeMs files)
    (fun _ => return ())

def getFileInfo (w : World) (filePath : String) : Eff FileInfo := do
  let stats ← Eff.request (fun t => w.stat t filePath) (Event.stat filePath)
  return { size := stats.size, created := stats.birthtime, modified := stats.mtime,
           isFile := stats.isFile }

end FileUtils

/-! ## `src/src/services/videoProcessor.js` -/

/-- JavaScript truthiness of a string-or-null value. -/
def truthy : Option String → Bool
  | some s => decide (s ≠ "")
  | none => false

/-- The object returned by `processVideo`. -/
structure ProcessResult where
  success : Bool
  inputMetadata : Metadata
  outputFileInfo : FileInfo
  processingTime : Int

/-- The object returned by `processVideoFile`. -/
structure FileResult where
  result : ProcessResult
  outputPath : String
  outputFilename : String

namespace VideoProcessor

/-- `getFFmpegPath`: rejects when the codec query fails, else resolves with `ffmpeg.path`. -/
def getFFmpegPath (w : World) : Eff (Option String) := do
  Eff.attempt w.availableCodecs Event.getAvailableCodecs
  return w.ffmpegPath

def checkFFmpegAvailability (w : World) : Eff Bool :=
  Eff.tryCatch
    (do
      let ffmpegPath ← getFFmpegPath w
      return truthy ffmpegPath)
    (fun _ => return false)

def getVideoMetadata (w : World) (inputPath : String) : Eff Metadata :=
  Eff.tryCatch
    (Eff.request (fun t => w.ffprobe t inputPath) (Event.ffprobe inputPath))
    (fun err => Eff.throw (FFmpegError "Failed to get video metadata" (some err)))

def validateVideoDuration (config : Config) (metadata : Metadata) : Bool :=
  match metadata.duration with
  | some duration => decide (duration ≤ config.maxDuration)
  | none => false

def validateVideoResolution (config : Config) (metadata : Metadata) : Bool :=
  match metadata.streams.find? (fun stream => stream.codec_type == "video") with
  | none => false
  | some videoStream =>
    match videoStream.width, videoStream.height with
    | some width, some height =>
      decide (height > width) && decide (|width - config.targetWidth| ≤ 100) &&
        decide (|height - config.targetHeight| ≤ 100)
    | _, _ => false

/-- The promise of `flipVideoHorizontally`: the command for `inputPath` and
`outputPath` is built with its handlers, and the timer is set. Which events
the command then emits is the world's answer. The first `end` or `error` event
emitted before the deadline settles the promise; when there is none the timer
fires, kills the command with `SIGKILL` and rejects. (A timer that fires after
the promise is settled acts on a finished command and a settled promise, and
is not recorded.) -/
def flipVideoHorizontally (w : World) (config : Config) (inputPath outputPath : String) :
    Eff Unit := fun t =>
  let t1 := t ++ [Event.ffmpegCommand inputPath outputPath]
  match w.ffmpegEvents t inputPath outputPath config.processingTimeout with
  | FfmpegSignal.finished :: _ => (.ok (), t1)
  | FfmpegSignal.failed err :: _ => (.error (FFmpegError "Video processing failed" (some err)), t1)
  | [] => (.error (FFmpegError "Video processing timeout" none), t1 ++ [Event.ffmpegKill "SIGKILL"])

/-- `processVideo`; `startTime` is the instance field `this.startTime`. -/
def processVideo (w : World) (config : Config) (startTime : Int) (inputPath outputPath : String) :
    Eff ProcessResult :=
  Eff.tryCatch
    (do
      let metadata ← getVideoMetadata w inputPath
      if !validateVideoDuration config metadata then
        Eff.throw (JsError.error ("Video duration exceeds maximum limit of " ++
          toString config.maxDuration ++ " seconds"))
      if !validateVideoResolution config metadata then
        Eff.emit (Event.warn "Video resolution may not be optimal for TikTok format (720×1280 portrait)")
      flipVideoHorizontally w config inputPath outputPath
      let outputFileInfo ← FileUtils.getFileInfo w outputPath
      let finished ← Eff.observe w.now Event.dateNow
      return { success := true, inputMetadata := metadata, outputFileInfo := outputFileInfo,
               processingTime := finished - startTime })
    (fun error => do
      FileUtils.safeDeleteFile w outputPath
      Eff.throw error)

def processVideoFile (w : World) (config : Config) (inputPath originalFilename : String) :
    Eff FileResult := do
  let startTime ← Eff.observe w.now Event.dateNow
  let outputFilename ← FileUtils.generateTempFilename w originalFilename
  let outputPath := FileUtils.getTempFilePath config outputFilename
  Eff.tryCatch
    (do
      FileUtils.ensureTempDir w config
      let result ← processVideo w config startTime inputPath outputPath
      return { result := result, outputPath := outputPath, outputFilename := outputFilename })
    (fun error => do
      FileUtils.safeDeleteFile w outputPath
      Eff.throw error)

end VideoProcessor

/-! ## Requests and responses -/

/-- The file part of the multipart body, as the upload middleware receives it. -/
structure IncomingFile where
  fieldname : String
  originalname : String
  mimetype : String
  size : Nat

/-- The object `req.file` that the upload middleware's disk storage produces. -/
structure UploadedFile where
  fieldname : String
  originalname : String
  mimetype : String
  destination : String
  filename : String
  size : Nat

/-- The property `file.path`: disk storage sets it to `path.join(destination, filename)`. -/
def UploadedFile.path (file : UploadedFile) : String := Path.join file.destination file.filename

structure Req where
  method : String
  path : String
  upload : Option IncomingFile
  file : Option UploadedFile

/-- The response object: its status code and whether `cleanupOnError` has
replaced `res.send`. -/
structure Res where
  statusCode : Nat := 200
  cleanupHook : Bool := false

/-- How a handler hands over: it calls `next()` / `next(err)`, it ends the
response, or it does neither. -/
inductive Flow where
  | next (err : Option JsError)
  | responded
  | pending

/-! ## `src/src/controllers/videoController.js` -/

namespace VideoController

def cleanupFiles (w : World) (inputPath outputPath : Option String) : Eff Unit :=
  Eff.tryCatch
    (do
      if truthy inputPath then FileUtils.safeDeleteFile w (inputPath.getD "")
      if truthy outputPath then FileUtils.safeDeleteFile w (outputPath.getD ""))
    (fun _ => return ())

/-- `res.sendFile(path, callback)`. -/
def sendFile (w : World) (path : String) (callback : Option JsError → Eff Unit) : Eff Unit :=
  fun t =>
    match w.sendFile t path with
    | SendOutcome.threw err => (.error err, t ++ [Event.sendFile path])
    | SendOutcome.callback err => (.ok (), (callback err (t ++ [Event.sendFile path])).2)

def setHeader (w : World) (name value : String) : Eff Unit :=
  Eff.attempt (fun t => w.setHeader t name value) (Event.setHeader name value)

/-- The `catch` block of `flipVideo`; `outputPath` is the value of the local
variable when the error was thrown. -/
def flipVideoCatch (w : World) (file : UploadedFile) (outputPath : Option String)
    (error : JsError) : Eff Flow := do
  cleanupFiles w (some file.path) outputPath
  if includes error.message "duration exceeds" then
    return Flow.next (some (ErrorHandler.createValidationError error.message (some "video")))
  if error.name = "FFmpegError" then
    return Flow.next (some (ErrorHandler.createFileProcessingError "Video processing failed"
      (some error)))
  return Flow.next (some (ErrorHandler.createFileProcessingError "Failed to process video"
    (some error)))

/-- The `try` block of `flipVideo` up to the assignment of `outputPath`. -/
def flipVideoProcess (w : World) (config : Config) (file : UploadedFile) : Eff FileResult := do
  let ffmpegAvailable ← VideoProcessor.checkFFmpegAvailability w
  if !ffmpegAvailable then
    Eff.throw (JsError.error "FFmpeg is not available on the system")
  VideoProcessor.processVideoFile w config file.path file.originalname

/-- The `try` block of `flipVideo` after the assignment of `outputPath`. -/
def flipVideoSend (w : World) (file : UploadedFile) (result : FileResult) : Eff Flow := do
  setHeader w "Content-Type" "video/mp4"
  setHeader w "Content-Disposition" ("attachment; filename=\"flipped_" ++ file.originalname ++ "\"")
  setHeader w "Content-Length" (toString result.result.outputFileInfo.size)
  sendFile w result.outputPath (fun _ => cleanupFiles w (some file.path) (some result.outputPath))
  return Flow.responded

/-- `flipVideo`. The local `outputPath` is `null` in the `catch` block exactly
when the error was thrown before its assignment. -/
def flipVideo (w : World) (config : Config) (file : UploadedFile) : Eff Flow := fun t =>
  match flipVideoProcess w config file t with
  | (.error error, t1) => flipVideoCatch w file none error t1
  | (.ok result, t1) =>
    Eff.tryCatch (flipVideoSend w file result)
      (flipVideoCatch w file (some result.outputPath)) t1

end VideoController

/-! ## `src/src/utils/errorHandler.js`: the responders -/

namespace ErrorHandler

def formatErrorResponse (w : World) (error : JsError) (req : Req) : Eff ErrorBody := do
  let isDevelopment := decide (w.nodeEnv = some "development")
  let timestamp ← Eff.observe w.now Event.dateNow
  return {
    message := if error.message ≠ "" then error.message else "An unexpected error occurred"
    statusCode := match error.statusCode with
      | some code => if code ≠ 0 then code else 500
      | none => 500
    timestamp := timestamp
    path := req.path
    method := req.method
    stack := if isDevelopment then some (w.stackOf error) else none
    originalError := if isDevelopment then error.originalError.map JsError.message else none
    ffmpegError := if isDevelopment then error.ffmpegError else none }

/-- `res.json(body)`, which ends in `res.send`: when `cleanupOnError` has
replaced `res.send`, an error status triggers the deletion of the uploaded
file before the original `send` runs. -/
def resJson (w : World) (req : Req) (res : Res) (body : ResponseBody) : Eff Unit := do
  match req.file with
  | some file =>
    if res.cleanupHook && decide (res.statusCode ≥ 400) then
      Eff.tryCatch (FileUtils.safeDeleteFile w file.path) (fun _ => return ())
  | none => pure ()
  Eff.emit (Event.json body)

def globalErrorHandler (w : World) (error : JsError) (req : Req) (res : Res) :
    Eff (Flow × Req × Res) := do
  let errorResponse ← formatErrorResponse w error req
  let statusCode := match error.statusCode with
    | some code => if code ≠ 0 then code else 500
    | none => 500
  Eff.emit (Event.status statusCode)
  let res1 := { res with statusCode := statusCode }
  resJson w req res1 (ResponseBody.error errorResponse)
  return (Flow.responded, req, res1)

def multerErrorHandler (w : World) (error : JsError) (req : Req) (res : Res) :
    Eff (Flow × Req × Res) :=
  if error.code = some "LIMIT_FILE_SIZE" then
    globalErrorHandler w (createFileSizeError "File size exceeds the maximum limit of 50MB") req res
  else if error.code = some "LIMIT_UNEXPECTED_FILE" then
    globalErrorHandler w (createValidationError "Unexpected file field" (some "video")) req res
  else
    globalErrorHandler w (createFileProcessingError "File upload failed" (some error)) req res

end ErrorHandler

/-! ## `src/src/middleware/uploadMiddleware.js` -/

namespace UploadMiddleware

/-- The `fileFilter` callback: `cb(new Error(..), false)` is `.error`, `cb(null, true)` is `.ok true`. -/
def fileFilter (config : Config) (file : IncomingFile) : Except JsError Bool :=
  if file.fieldname ≠ "video" then
    .error (JsError.error "Only \"video\" field is allowed")
  else if !FileUtils.isValidFileExtension config file.originalname then
    .error (JsError.error "Invalid file format. Only MP4, MOV, and AVI files are allowed")
  else if !FileUtils.isValidMimeType config file.mimetype then
    .error (JsError.error "Invalid MIME type. Only video files are allowed")
  else .ok true

/-- The argument `validateUploadedFile` passes to `next`: `none` is `next()`. -/
def validateUploadedFile (config : Config) (req : Req) : Option JsError :=
  match req.file with
  | none => some (ErrorHandler.createValidationError "No video file uploaded" (some "video"))
  | some file =>
    if !FileUtils.isValidFileSize config file.size then
      some (ErrorHandler.createFileSizeError "File size exceeds the maximum limit of 50MB")
    else if !FileUtils.isValidFileExtension config file.originalname then
      some (ErrorHandler.createValidationError "Invalid file format" (some "video"))
    else if !FileUtils.isValidMimeType config file.mimetype then
      some (ErrorHandler.createValidationError "Invalid file type" (some "video"))
    else none

/-- `cleanupOnError`: replaces `res.send` by the cleaning wrapper and calls `next()`. -/
def cleanupOnError (req : Req) (res : Res) : Flow × Req × Res :=
  (Flow.next none, req, { res with cleanupHook := true })

/-- The error a multer limit raises. -/
def multerError (message code : String) (field : Option String) : JsError :=
  JsError.mk "MulterError" message none field (some code) none none

/-- The middleware `upload.single("video")` of the multer library with the
disk storage, `fileFilter` and `limits.fileSize` configured in this module:
a part in another field is refused with `LIMIT_UNEXPECTED_FILE`, then
`fileFilter` decides, then the storage callbacks `destination` and `filename`
run, and a file longer than the limit is refused with `LIMIT_FILE_SIZE`. Every
error goes to `next(err)`; otherwise `req.file` is set. (The library's own
writing and removal of the stored file is not recorded.) -/
def upload (w : World) (config : Config) (req : Req) (res : Res) : Eff (Flow × Req × Res) :=
  match req.upload with
  | none => return (Flow.next none, req, res)
  | some part =>
    if part.fieldname ≠ "video" then
      return (Flow.next (some (multerError "Unexpected field" "LIMIT_UNEXPECTED_FILE"
        (some part.fieldname))), req, res)
    else
      match fileFilter config part with
      | .error err => return (Flow.next (some err), req, res)
      | .ok false => return (Flow.next none, req, res)
      | .ok true =>
        Eff.tryCatch
          (do
            FileUtils.ensureTempDir w config
            let tempFilename ← FileUtils.generateTempFilename w part.originalname
            if part.size > config.maxFileSize then
              return (Flow.next (some (multerError "File too large" "LIMIT_FILE_SIZE"
                (some part.fieldname))), req, res)
            else
              let file : UploadedFile :=
                { fieldname := part.fieldname, originalname := part.originalname,
                  mimetype := part.mimetype, destination := config.tempDir,
                  filename := tempFilename, size := part.size }
              return (Flow.next none, { req with file := some file }, res))
          (fun err => return (Flow.next (some err), req, res))

end UploadMiddleware

/-! ## `src/src/routes/videoRoutes.js` and the application's error handling -/

/-- A layer of an Express route: a handler `(req, res, next)` or an error
handler `(err, req, res, next)`. -/
inductive Layer where
  | handler (run : Req → Res → Eff (Flow × Req × Res))
  | errorHandler (run : JsError → Req → Res → Eff (Flow × Req × Res))

/-- Express dispatch along a stack: without a pending error the handlers run in
order and error handlers are skipped; once `next(err)` was called the handlers
are skipped up to the next error handler. -/
def dispatch : List Layer → Option JsError → Req → Res → Eff (Flow × Req × Res)
  | [], err, req, res => return (Flow.next err, req, res)
  | Layer.handler run :: rest, none, req, res => fun t =>
    match run req res t with
    | (.ok (Flow.next err, req1, res1), t1) => dispatch rest err req1 res1 t1
    | (.ok out, t1) => (.ok out, t1)
    | (.error thrown, t1) => dispatch rest (some thrown) req res t1
  | Layer.handler _ :: rest, some err, req, res => dispatch rest (some err) req res
  | Layer.errorHandler _ :: rest, none, req, res => dispatch rest none req res
  | Layer.errorHandler run :: rest, some err, req, res => fun t =>
    match run err req res t with
    | (.ok (Flow.next err1, req1, res1), t1) => dispatch rest err1 req1 res1 t1
    | (.ok out, t1) => (.ok out, t1)
    | (.error thrown, t1) => dispatch rest (some thrown) req res t1

namespace VideoRoutes

/-- The controller as the last layer of the route. -/
def flipVideoLayer (w : World) (config : Config) (req : Req) (res : Res) :
    Eff (Flow × Req × Res) :=
  match req.file with
  | some file => do
    let flow ← VideoController.flipVideo w config file
    return (flow, req, res)
  | none => return (Flow.pending, req, res)

/-- The layers of `router.post("/flip-video", ...)` that follow `upload` and
`handleMulterErrors`. -/
def afterUpload (w : World) (config : Config) : List Layer :=
  [ Layer.handler (fun req res =>
      return (Flow.next (UploadMiddleware.validateUploadedFile config req), req, res)),
    Layer.handler (fun req res => return UploadMiddleware.cleanupOnError req res),
    Layer.handler (flipVideoLayer w config) ]

/-- The stack of `router.post("/flip-video", upload, handleMulterErrors,
validateUploadedFile, cleanupOnError, flipVideo)`. -/
def flipVideoRoute (w : World) (config : Config) : List Layer :=
  Layer.handler (UploadMiddleware.upload w config) ::
  Layer.errorHandler (ErrorHandler.multerErrorHandler w) ::
  afterUpload w config

/-- A route stack followed by the application's last layer, the global error
handler, which answers every error that leaves the route. -/
def serve (w : World) (stack : List Layer) (req : Req) (res : Res) : Eff (Flow × Req × Res) :=
  dispatch (stack ++ [Layer.errorHandler (ErrorHandler.globalErrorHandler w)]) none req res

/-- The handling of `POST /flip-video`. -/
def postFlipVideo (w : World) (config : Config) (req : Req) : Eff (Flow × Req × Res) :=
  serve w (flipVideoRoute w config) req {}

end VideoRoutes

/-! ## Reading a trace -/

/-- Is `seg` what one run of `safeDeleteFile` on `p` leaves in the trace: a
failed access check on `p`, or a passed check on `p` followed by `unlink` of `p`. -/
def isDeletionRun (p : String) : Trace → Bool
  | [Event.access q (some _)] => q == p
  | [Event.access q none, Event.unlink q2 _] => q == p && q2 == p
  | _ => false

/-- Is `seg` what the sweep leaves for one directory entry with path `p`: a
`stat` of `p` that fails, or one that succeeds, followed by a deletion run on
`p` exactly when the modification time is older than `now - maxAgeMs`. -/
def isSweptEntry (now maxAgeMs : Int) (p : String) : Trace → Bool
  | Event.stat q (.error _) :: rest => q == p && rest.isEmpty
  | Event.stat q (.ok stats) :: rest =>
    q == p && if stats.mtime < now - maxAgeMs then isDeletionRun p rest else rest.isEmpty
  | _ => false

/-- Does the trace contain a deletion run on `p`. -/
def DeletionAttempted (p : String) (t : Trace) : Prop :=
  ∃ before run after, t = before ++ run ++ after ∧ isDeletionRun p run = true

/-! ## Sample worlds -/

/-- The error of a missing file or directory. -/
def enoent : JsError := JsError.withCode "no such file or directory" "ENOENT"

/-- A world in which every call succeeds: the directory is empty, the tool is
installed, a probe reports a 3 second portrait video and the transform ends in time. -/
def calmWorld : World where
  access := fun _ _ => none
  mkdir := fun _ _ => none
  unlink := fun _ _ => none
  readdir := fun _ _ => .ok []
  stat := fun _ _ => .ok { size := 2048, birthtime := 0, mtime := 0, isFile := true }
  now := fun _ => 1000
  randomToken := fun _ => "k3j9x0q1z7a2b"
  availableCodecs := fun _ => none
  ffmpegPath := some "/usr/bin/ffmpeg"
  ffprobe := fun _ _ => .ok { duration := some 3, streams := [⟨"video", some 720, some 1280⟩] }
  ffmpegEvents := fun _ _ _ _ => [FfmpegSignal.finished]
  setHeader := fun _ _ _ => none
  sendFile := fun _ _ => SendOutcome.callback none
  nodeEnv := some "production"
  stackOf := fun _ => ""
  uptime := fun _ => 42
  memoryUsage := fun _ => { rss := 50000000, heapTotal := 20000000, heapUsed := 10000000 }

/-- Has a directory `p` been created in `t`. -/
def created (p : String) : Trace → Bool
  | [] => false
  | Event.mkdir q _ none :: rest => q == p || created p rest
  | _ :: rest => created p rest

/-- A world whose disk starts empty: a path is accessible once `mkdir` created it. -/
def freshDisk : World :=
  { calmWorld with access := fun t p => if created p t then none else some enoent }

/-- A world at shutdown: the temp directory holds `clip.mp4`, written in the
very millisecond (1000) of the sweep. -/
def shutdownWorld : World :=
  { calmWorld with
    readdir := fun _ _ => .ok ["clip.mp4"]
    stat := fun _ _ => .ok { size := 2048, birthtime := 1000, mtime := 1000, isFile := true } }

/-- A world for the janitor at time 10000: `gone.mp4`, whose `stat` fails,
`old.mp4` (modified at 0) and `new.mp4` (modified at 9000). -/
def janitorWorld : World :=
  { calmWorld with
    now := fun _ => 10000
    readdir := fun _ _ => .ok ["gone.mp4", "old.mp4", "new.mp4"]
    stat := fun _ p =>
      if p = "temp/old.mp4" then .ok { size := 1, birthtime := 0, mtime := 0, isFile := true }
      else if p = "temp/new.mp4" then
        .ok { size := 1, birthtime := 9000, mtime := 9000, isFile := true }
      else .error enoent }

/-- Does the trace build no transform command. -/
def noCommand (t : Trace) : Bool :=
  t.all fun ev =>
    match ev with
    | Event.ffmpegCommand _ _ => false
    | _ => true

/-- Does every transform command built in the trace write to `output`. -/
def commandsWriteTo (output : String) (t : Trace) : Bool :=
  t.all fun ev =>
    match ev with
    | Event.ffmpegCommand _ out => out == output
    | _ => true

/-- Does the trace hold no call of `res.sendFile`. -/
def noSend (t : Trace) : Bool :=
  t.all fun ev =>
    match ev with
    | Event.sendFile _ => false
    | _ => true

/-- A segment without transform command and without send. -/
def quiet (t : Trace) : Bool := noCommand t && noSend t

/-- A segment without send whose transform commands all write to `output`. -/
def processingTo (output : String) (t : Trace) : Bool := commandsWriteTo output t && noSend t

/-! ## Sample requests -/

/-- A text file renamed to `notes.mp4`, uploaded in the field `video` with its
true MIME type `text/plain`. -/
def renamedTextRequest : Req :=
  { method := "POST", path := "/flip-video",
    upload := some { fieldname := "video", originalname := "notes.mp4",
                     mimetype := "text/plain", size := 12 },
    file := none }

/-- A stored upload `clip.mp4` of the given size. -/
def storedClip (size : Nat) : UploadedFile :=
  { fieldname := "video", originalname := "clip.mp4", mimetype := "video/mp4",
    destination := "./temp", filename := "temp_900_a1b2c3d4e5f6g.mp4", size := size }

/-- A request past the upload layer whose stored file has the given size. -/
def storedRequest (size : Nat) : Req :=
  { method := "POST", path := "/flip-video", upload := none, file := some (storedClip size) }

/-! ## Trace segments of a computation -/

/-- Every run of `m` extends the trace by events satisfying `P`. -/
def Appends {α : Type} (P : Trace → Prop) (m : Eff α) : Prop :=
  ∀ t, ∃ body, (m t).2 = t ++ body ∧ P body

/-- A property of trace segments that holds of the empty one and of concatenations. -/
structure Additive (P : Trace → Prop) : Prop where
  nil : P []
  append : ∀ a b, P a → P b → P (a ++ b)

/-! ## Decimal numerals -/

/-- The value of a character read as a decimal digit. -/
def digitValue (c : Char) : Nat := c.toNat - 48

/-- The number that a list of decimal digits denotes. -/
def decimalValue (digits : List Char) : Nat :=
  digits.foldl (fun acc c => acc * 10 + digitValue c) 0

/-! ## The error body as the specification words it -/

/-- The status code of the error body in the words of the specification: the
status code of the error, or 500 when the error has none. -/
def statedStatusCode (error : JsError) : Nat :=
  match error.statusCode with
  | some code => code
  | none => 500

/-- An error object whose property `statusCode` is 0. -/
def zeroStatusError : JsError :=
  JsError.mk "Error" "connection closed" (some 0) none none none none

/-! ## The race in `flipVideoHorizontally` -/

/-- What can happen to the promise of `flipVideoHorizontally`: the command
emits `end`, the command emits `error`, or the deadline timer fires. -/
inductive Occurrence where
  | commandEnd
  | commandError (err : JsError)
  | deadline

/-- The promise (`none` while it is pending) and the signals sent to the
command so far. -/
structure Race where
  outcome : Option (Except JsError Unit)
  signals : List String

namespace Race

/-- The calls `resolve()` and `reject(e)`: they settle a pending promise and
have no effect on a settled one. -/
def settle (race : Race) (result : Except JsError Unit) : Race :=
  match race.outcome with
  | none => { race with outcome := some result }
  | some _ => race

/-- The handler that `flipVideoHorizontally` registers for each occurrence:
`on("end")` resolves, `on("error")` rejects with `Video processing failed`,
and the timer callback calls `command.kill("SIGKILL")` and rejects with
`Video processing timeout`. -/
def handle (race : Race) : Occurrence → Race
  | Occurrence.commandEnd => race.settle (.ok ())
  | Occurrence.commandError err =>
    race.settle (.error (FFmpegError "Video processing failed" (some err)))
  | Occurrence.deadline =>
    ({ race with signals := race.signals ++ ["SIGKILL"] } : Race).settle
      (.error (FFmpegError "Video processing timeout" none))

/-- The promise is pending and no signal was sent. -/
def start : Race := { outcome := none, signals := [] }

/-- The handlers run in the order of the occurrences. -/
def run (occurrences : List Occurrence) : Race := occurrences.foldl handle start

end Race

/-- The occurrence an event of the command stands for. -/
def FfmpegSignal.occurrence : FfmpegSignal → Occurrence
  | FfmpegSignal.finished => Occurrence.commandEnd
  | FfmpegSignal.failed err => Occurrence.commandError err

/-- The occurrences of one call: the events the command emits before the
deadline, then the deadline. -/
def timeline (signals : List FfmpegSignal) : List Occurrence :=
  signals.map FfmpegSignal.occurrence ++ [Occurrence.deadline]

/-! ## More sample worlds -/

/-- A world whose probe reports a 15 second video. -/
def longVideoWorld : World :=
  { calmWorld with
    ffprobe := fun _ _ => .ok { duration := some 15, streams := [⟨"video", some 720, some 1280⟩] } }

/-- A world whose probe reports a 3 second landscape video of 1920 by 1080. -/
def landscapeWorld : World :=
  { calmWorld with
    ffprobe := fun _ _ => .ok { duration := some 3, streams := [⟨"video", some 1920, some 1080⟩] } }

/-! ## `processVideo` past its checks -/

/-- The trace of `processVideo` once the probe has answered `metadata` and the
duration check has passed: the probe, then the resolution warning when the
resolution check fails. -/
def tracePastChecks (config : Config) (inputPath : String) (metadata : Metadata) (t : Trace) :
    Trace :=
  t ++ Event.ffprobe inputPath (.ok metadata) ::
    (if VideoProcessor.validateVideoResolution config metadata then []
     else [Event.warn "Video resolution may not be optimal for TikTok format (720×1280 portrait)"])

/-- What the transform, the `stat` of the output file and the clock make of a
call of `processVideo` whose checks are past at trace `t1`: success with the
file information, the error of `stat`, or the failure of the transform. -/
def outcomePastChecks (w : World) (config : Config) (startTime : Int)
    (inputPath outputPath : String) (metadata : Metadata) (t1 : Trace) :
    Except JsError ProcessResult :=
  match w.ffmpegEvents t1 inputPath outputPath config.processingTimeout with
  | FfmpegSignal.finished :: _ =>
    (match w.stat (t1 ++ [Event.ffmpegCommand inputPath outputPath]) outputPath with
      | .ok stats =>
        .ok { success := true, inputMetadata := metadata,
              outputFileInfo := { size := stats.size, created := stats.birthtime,
                                  modified := stats.mtime, isFile := stats.isFile },
              processingTime := w.now (t1 ++ [Event.ffmpegCommand inputPath outputPath,
                Event.stat outputPath (.ok stats)]) - startTime }
      | .error e => .error e)
  | FfmpegSignal.failed err :: _ => .error (FFmpegError "Video processing failed" (some err))
  | [] => .error (FFmpegError "Video processing timeout" none)

/-- The trace without the console warnings. -/
def dropWarnings (t : Trace) : Trace :=
  t.filter fun ev =>
    match ev with
    | Event.warn _ => false
    | _ => true

/-- A world in which the transform, `stat` and the clock do not react to
console warnings. -/
def IgnoresWarnings (w : World) : Prop :=
  ∀ t1 t2 : Trace, dropWarnings t1 = dropWarnings t2 →
    w.ffmpegEvents t1 = w.ffmpegEvents t2 ∧ w.stat t1 = w.stat t2 ∧ w.now t1 = w.now t2

/-! ## Worlds in which the pipeline fails -/

/-- A configuration whose temporary directory is named `duration exceeds`. -/
def oddDirConfig : Config :=
  { defaultConfig with tempDir := "/srv/duration exceeds" }

/-- A stored upload in the directory of `oddDirConfig`. -/
def oddDirClip : UploadedFile :=
  { storedClip 100 with destination := "/srv/duration exceeds" }

/-- A world in which no path is accessible and `mkdir` is refused, with the
message Node gives to the refusal. -/
def lockedWorld : World :=
  { calmWorld with
    access := fun _ _ => some enoent
    mkdir := fun _ p =>
      some (JsError.withCode ("EACCES: permission denied, mkdir '" ++ p ++ "'") "EACCES") }

/-- A world whose probe fails. -/
def probeFailWorld : World :=
  { calmWorld with ffprobe := fun _ _ => .error (JsError.error "ffprobe exited with code 1") }

/-- A world whose transform fails. -/
def transformFailWorld : World :=
  { calmWorld with
    ffmpegEvents := fun _ _ _ _ => [FfmpegSignal.failed (JsError.error "ffmpeg exited with code 1")] }

/-- A world whose transform emits nothing before the deadline. -/
def stalledWorld : World :=
  { calmWorld with ffmpegEvents := fun _ _ _ _ => [] }

/-- A world whose codec query fails: the external tool cannot be reached. -/
def noToolWorld : World :=
  { calmWorld with availableCodecs := fun _ => some (JsError.error "Cannot find ffmpeg") }

/-! ## `src/src/controllers/videoController.js`: the health endpoint -/

/-- A reading of the process that records no event. -/
def Eff.read {α : Type} (f : Trace → α) : Eff α := fun t => (.ok (f t), t)

namespace VideoController

/-- `healthCheck`. `new Date()` reads the clock; `process.uptime()` and
`process.memoryUsage()` are readings of the process. -/
def healthCheck (w : World) (req : Req) (res : Res) : Eff Flow :=
  Eff.tryCatch
    (do
      let ffmpegAvailable ← VideoProcessor.checkFFmpegAvailability w
      let timestamp ← Eff.observe w.now Event.dateNow
      let uptime ← Eff.read w.uptime
      let memory ← Eff.read w.memoryUsage
      let healthStatus : HealthBody :=
        { status := "ok"
          timestamp := timestamp
          ffmpeg := if ffmpegAvailable then "available" else "unavailable"
          uptime := uptime
          memory := memory }
      Eff.emit (Event.status 200)
      ErrorHandler.resJson w req { res with statusCode := 200 } (ResponseBody.health healthStatus)
      return Flow.responded)
    (fun error => do
      Eff.emit (Event.status 500)
      let timestamp ← Eff.observe w.now Event.dateNow
      ErrorHandler.resJson w req { res with statusCode := 500 }
        (ResponseBody.healthError "error" timestamp error.message)
      return Flow.responded)

end VideoController

/-- A world in which the codec query succeeds and the module `fluent-ffmpeg`
has no property `path`. -/
def pathlessWorld : World :=
  { calmWorld with ffmpegPath := none }

/-- A request `GET /health`. -/
def healthRequest : Req :=
  { method := "GET", path := "/health", upload := none, file := none }


/-! ## Generated names as path segments -/

/-- The invariant of the scan of `path.extname` before index `i` is visited:
`stop` is set with the first character that is no slash, and from `stop` down
to the scan position, as between `startDot` and `stop`, there is no slash. -/
def Path.ScanInvariant (chars : List Char) (i : Nat) (s : Path.ExtState) : Prop :=
  (s.stop = none → s.startDot = none ∧ s.matchedSlash = true) ∧
  (∀ e, s.stop = some e → s.matchedSlash = false ∧ e ≤ chars.length ∧
    (s.broke = false → ∀ j, i ≤ j → j < e → chars.getD j ' ' ≠ '/')) ∧
  (∀ d e, s.startDot = some d → s.stop = some e →
    ∀ j, d ≤ j → j < e → chars.getD j ' ' ≠ '/')

/-- A string over the base-36 digits `0-9a-z`. -/
def isBase36 (s : String) : Bool :=
  s.data.all fun c => c.isDigit || c.isLower

/-- The segments of the normalised directory path `dir`, outermost first. -/
def Path.directorySegments (dir : String) : List (List Char) :=
  (Path.normalizeSegments (!decide (dir.data.head? = some '/')) []
    (Path.splitSlash dir.data)).reverse

/-! ## Reading a run of `flipVideo` -/

/-- The error the `catch` block of `flipVideo` passes to `next`, as a function
of the error it caught. -/
def VideoController.forwardedError (error : JsError) : JsError :=
  if includes error.message "duration exceeds" then
    ErrorHandler.createValidationError error.message (some "video")
  else if error.name = "FFmpegError" then
    ErrorHandler.createFileProcessingError "Video processing failed" (some error)
  else ErrorHandler.createFileProcessingError "Failed to process video" (some error)

/-- The trace of `flipVideo` after the availability check, when
`processVideoFile` reads its start time. -/
def checkedTrace (w : World) (t : Trace) : Trace :=
  t ++ [Event.getAvailableCodecs (w.availableCodecs t)]

/-- The start time `processVideoFile` reads in a run of `flipVideo`. -/
def startTimeAt (w : World) (t : Trace) : Int :=
  w.now (checkedTrace w t)

/-- The trace of `flipVideo` when `generateTempFilename` has read the clock. -/
def stampedTrace (w : World) (t : Trace) : Trace :=
  checkedTrace w t ++ [Event.dateNow (startTimeAt w t),
    Event.dateNow (w.now (checkedTrace w t ++ [Event.dateNow (startTimeAt w t)]))]

/-- The output path `processVideoFile` generates in a run of `flipVideo`. -/
def outputPathAt (w : World) (config : Config) (file : UploadedFile) (t : Trace) : String :=
  FileUtils.getTempFilePath config
    (FileUtils.tempFilename (w.now (checkedTrace w t ++ [Event.dateNow (startTimeAt w t)]))
      (w.randomToken (stampedTrace w t)) file.originalname)

/-- The trace of `flipVideo` when `processVideoFile` enters its `try` block. -/
def entryTrace (w : World) (t : Trace) : Trace :=
  stampedTrace w t ++ [Event.random (w.randomToken (stampedTrace w t))]

/-- The upload of `clip.mp4` (2048 bytes, `video/mp4`) in the field `video`,
as it arrives: without `req.file`. -/
def clipUploadRequest : Req :=
  { method := "POST", path := "/flip-video",
    upload := some { fieldname := "video", originalname := "clip.mp4",
                     mimetype := "video/mp4", size := 2048 },
    file := none }

/-! ## Theorems: running the effect monad -/

namespace Eff

@[simp] theorem run_pure {α : Type} (a : α) (t : Trace) :
    (Pure.pure a : Eff α) t = (.ok a, t) := rfl

@[simp] theorem run_bind {α β : Type} (m : Eff α) (f : α → Eff β) (t : Trace) :
    (m >>= f) t = match m t with
      | (.ok a, t1) => f a t1
      | (.error e, t1) => (.error e, t1) := rfl

@[simp] theorem run_throw {α : Type} (e : JsError) (t : Trace) :
    (Eff.throw e : Eff α) t = (.error e, t) := rfl

@[simp] theorem run_emit (ev : Event) (t : Trace) : Eff.emit ev t = (.ok (), t ++ [ev]) := rfl

@[simp] theorem run_observe {α : Type} (value : Trace → α) (ev : α → Event) (t : Trace) :
    Eff.observe value ev t = (.ok (value t), t ++ [ev (value t)]) := rfl

@[simp] theorem run_request {α : Type} (answer : Trace → Except JsError α)
    (ev : Except JsError α → Event) (t : Trace) :
    Eff.request answer ev t = (answer t, t ++ [ev (answer t)]) := rfl

theorem run_tryCatch {α : Type} (body : Eff α) (handler : JsError → Eff α) (t : Trace) :
    Eff.tryCatch body handler t = match body t with
      | (.ok a, t1) => (.ok a, t1)
      | (.error e, t1) => handler e t1 := rfl

end Eff

/-! ## `safeDeleteFile` and `ensureTempDir` -/

theorem safeDeleteFile_run (w : World) (filePath : String) (t : Trace) :
    FileUtils.safeDeleteFile w filePath t =
      (.ok (), match w.access t filePath with
        | some e => t ++ [Event.access filePath (some e)]
        | none => t ++ [Event.access filePath none,
            Event.unlink filePath (w.unlink (t ++ [Event.access filePath none]) filePath)]) := by
  unfold FileUtils.safeDeleteFile Eff.tryCatch
  simp only [Eff.run_bind, Eff.attempt]
  cases h : w.access t filePath with
  | some e => simp
  | none =>
    simp
    cases h2 : w.unlink (t ++ [Event.access filePath none]) filePath <;> simp

/-- One run of `safeDeleteFile` returns normally and appends a deletion run. -/
theorem safeDeleteFile_deletionRun (w : World) (filePath : String) (t : Trace) :
    ∃ run, FileUtils.safeDeleteFile w filePath t = (.ok (), t ++ run) ∧
      isDeletionRun filePath run = true := by
  rw [safeDeleteFile_run]
  cases h : w.access t filePath with
  | some e => exact ⟨[Event.access filePath (some e)], rfl, by simp [isDeletionRun]⟩
  | none =>
    exact ⟨[Event.access filePath none,
      Event.unlink filePath (w.unlink (t ++ [Event.access filePath none]) filePath)], rfl,
      by simp [isDeletionRun]⟩

/-- C9: for every path and every behaviour of the filesystem, `safeDeleteFile`
returns normally; when the access check fails the only call made is that
check (no `unlink`), when it passes `unlink` is called next, on exactly that
path, and whatever `unlink` answers (success or error) the result is a normal
return. -/
theorem safeDeleteFile_never_throws (w : World) (filePath : String) (t : Trace) :
    (FileUtils.safeDeleteFile w filePath t).1 = .ok () ∧
    (FileUtils.safeDeleteFile w filePath t).2 =
      match w.access t filePath with
      | some e => t ++ [Event.access filePath (some e)]
      | none => t ++ [Event.access filePath none,
          Event.unlink filePath (w.unlink (t ++ [Event.access filePath none]) filePath)] := by
  rw [safeDeleteFile_run]
  exact ⟨rfl, rfl⟩

theorem ensureTempDir_run (w : World) (config : Config) (t : Trace) :
    FileUtils.ensureTempDir w config t =
      match w.access t config.tempDir with
      | none => (.ok (), t ++ [Event.access config.tempDir none])
      | some e =>
        ((match w.mkdir (t ++ [Event.access config.tempDir (some e)]) config.tempDir with
          | none => .ok ()
          | some e2 => .error e2),
         t ++ [Event.access config.tempDir (some e),
           Event.mkdir config.tempDir true
             (w.mkdir (t ++ [Event.access config.tempDir (some e)]) config.tempDir)]) := by
  unfold FileUtils.ensureTempDir Eff.tryCatch
  simp only [Eff.attempt]
  cases h : w.access t config.tempDir with
  | none => simp
  | some e =>
    simp
    cases h2 : w.mkdir (t ++ [Event.access config.tempDir (some e)]) config.tempDir <;> simp

/-- C10: `ensureTempDir` calls `mkdir` (recursive, on the configured temp
directory) exactly when the access check on that directory fails, and then
returns what `mkdir` answers, so that a `mkdir` error is thrown to the caller;
and when the first call succeeded and the directory is accessible afterwards, a
second call makes the access check only and creates nothing. -/
theorem ensureTempDir_idempotent (w : World) (config : Config) (t : Trace) :
    (FileUtils.ensureTempDir w config t =
      match w.access t config.tempDir with
      | none => (.ok (), t ++ [Event.access config.tempDir none])
      | some e =>
        ((match w.mkdir (t ++ [Event.access config.tempDir (some e)]) config.tempDir with
          | none => .ok ()
          | some e2 => .error e2),
         t ++ [Event.access config.tempDir (some e),
           Event.mkdir config.tempDir true
             (w.mkdir (t ++ [Event.access config.tempDir (some e)]) config.tempDir)])) ∧
    ((FileUtils.ensureTempDir w config t).1 = .ok () →
      w.access (FileUtils.ensureTempDir w config t).2 config.tempDir = none →
      FileUtils.ensureTempDir w config (FileUtils.ensureTempDir w config t).2 =
        (.ok (), (FileUtils.ensureTempDir w config t).2 ++ [Event.access config.tempDir none])) := by
  refine ⟨ensureTempDir_run w config t, ?_⟩
  intro _ hkeeps
  generalize (FileUtils.ensureTempDir w config t).2 = t1 at hkeeps ⊢
  rw [ensureTempDir_run, hkeeps]

/-- On a disk where the temp directory is missing, the first call creates it
and the second call creates nothing. -/
theorem ensureTempDir_idempotent_witness :
    FileUtils.ensureTempDir freshDisk defaultConfig [] =
      (.ok (), [Event.access "./temp" (some enoent), Event.mkdir "./temp" true none]) ∧
    FileUtils.ensureTempDir freshDisk defaultConfig
        [Event.access "./temp" (some enoent), Event.mkdir "./temp" true none] =
      (.ok (), [Event.access "./temp" (some enoent), Event.mkdir "./temp" true none,
        Event.access "./temp" none]) :=
  ⟨(ensureTempDir_idempotent freshDisk defaultConfig []).1,
   (ensureTempDir_idempotent freshDisk defaultConfig []).2 rfl rfl⟩

/-! ## The janitor: `cleanupOldTempFiles` -/

/-- One iteration of the sweep returns normally and appends a swept-entry segment. -/
theorem sweepEntry_run (w : World) (config : Config) (now maxAgeMs : Int) (file : String)
    (t : Trace) :
    ∃ seg, FileUtils.sweepEntry w config now maxAgeMs file t = (.ok (), t ++ seg) ∧
      isSweptEntry now maxAgeMs (Path.join config.tempDir file) seg = true := by
  unfold FileUtils.sweepEntry
  simp only [Eff.run_tryCatch, Eff.run_bind, Eff.run_request]
  cases h : w.stat t (Path.join config.tempDir file) with
  | error e =>
    exact ⟨[Event.stat (Path.join config.tempDir file) (.error e)], by simp, by simp [isSweptEntry]⟩
  | ok stats =>
    by_cases hold : now - stats.mtime > maxAgeMs
    · obtain ⟨run, hrun, hdel⟩ := safeDeleteFile_deletionRun w (Path.join config.tempDir file)
        (t ++ [Event.stat (Path.join config.tempDir file) (.ok stats)])
      refine ⟨Event.stat (Path.join config.tempDir file) (.ok stats) :: run, ?_, ?_⟩
      · simp [hold, hrun]
      · have : stats.mtime < now - maxAgeMs := by omega
        simp [isSweptEntry, this, hdel]
    · refine ⟨[Event.stat (Path.join config.tempDir file) (.ok stats)], ?_, ?_⟩
      · simp [hold]
      · have : ¬ stats.mtime < now - maxAgeMs := by omega
        simp [isSweptEntry, this]

/-- The loop returns normally and appends one swept-entry segment per listed
entry, in the order of the listing. -/
theorem sweepEntries_run (w : World) (config : Config) (now maxAgeMs : Int) (files : List String) :
    ∀ t : Trace, ∃ segs : List Trace,
      FileUtils.sweepEntries w config now maxAgeMs files t = (.ok (), t ++ segs.flatten) ∧
      List.Forall₂ (fun file seg =>
        isSweptEntry now maxAgeMs (Path.join config.tempDir file) seg = true) files segs := by
  induction files with
  | nil => intro t; exact ⟨[], by simp [FileUtils.sweepEntries], List.Forall₂.nil⟩
  | cons file files ih =>
    intro t
    obtain ⟨seg, hseg, hswept⟩ := sweepEntry_run w config now maxAgeMs file t
    obtain ⟨segs, hsegs, hall⟩ := ih (t ++ seg)
    refine ⟨seg :: segs, ?_, List.Forall₂.cons hswept hall⟩
    simp [FileUtils.sweepEntries, hseg, hsegs]

/-- The loop over a listing `pre ++ post` is the loop over `post`, started
where the loop over `pre` stopped. -/
theorem sweepEntries_append (w : World) (config : Config) (now maxAgeMs : Int)
    (pre post : List String) :
    ∀ t : Trace, FileUtils.sweepEntries w config now maxAgeMs (pre ++ post) t =
      FileUtils.sweepEntries w config now maxAgeMs post
        (FileUtils.sweepEntries w config now maxAgeMs pre t).2 := by
  induction pre with
  | nil => intro t; simp [FileUtils.sweepEntries]
  | cons file pre ih =>
    intro t
    obtain ⟨seg, hseg, _⟩ := sweepEntry_run w config now maxAgeMs file t
    simp [FileUtils.sweepEntries, hseg, ih]

theorem cleanupOldTempFiles_run (w : World) (config : Config) (maxAgeMs : Int) (t : Trace) :
    FileUtils.cleanupOldTempFiles w config maxAgeMs t =
      match w.readdir t config.tempDir with
      | .error e => (.ok (), t ++ [Event.readdir config.tempDir (.error e)])
      | .ok files =>
        FileUtils.sweepEntries w config
          (w.now (t ++ [Event.readdir config.tempDir (.ok files)])) maxAgeMs files
          (t ++ [Event.readdir config.tempDir (.ok files),
            Event.dateNow (w.now (t ++ [Event.readdir config.tempDir (.ok files)]))]) := by
  unfold FileUtils.cleanupOldTempFiles
  simp only [Eff.run_tryCatch, Eff.run_bind, Eff.run_request, Eff.run_observe]
  cases h : w.readdir t config.tempDir with
  | error e => simp
  | ok files =>
    obtain ⟨segs, hsegs, _⟩ := sweepEntries_run w config
      (w.now (t ++ [Event.readdir config.tempDir (.ok files)])) maxAgeMs files
      (t ++ [Event.readdir config.tempDir (.ok files),
        Event.dateNow (w.now (t ++ [Event.readdir config.tempDir (.ok files)]))])
    simp [hsegs]

/-- C7: for every directory listing `files`, clock value and `maxAgeMs`, the
trace of `cleanupOldTempFiles` after the listing and the clock reading `now` is
one segment per listed entry, in order: the entry is examined with `stat`, and
a deletion run on it follows exactly when `stat` succeeded with a modification
time older than `now - maxAgeMs`; an entry modified within `maxAgeMs` (or
whose `stat` fails) gets no other call than the `stat`. -/
theorem cleanupOldTempFiles_deletes_exactly_old (w : World) (config : Config) (maxAgeMs : Int)
    (t : Trace) (files : List String) (hlist : w.readdir t config.tempDir = .ok files) :
    ∃ segs : List Trace,
      FileUtils.cleanupOldTempFiles w config maxAgeMs t =
        (.ok (), t ++ Event.readdir config.tempDir (.ok files) ::
          Event.dateNow (w.now (t ++ [Event.readdir config.tempDir (.ok files)])) ::
          segs.flatten) ∧
      List.Forall₂ (fun file seg =>
        isSweptEntry (w.now (t ++ [Event.readdir config.tempDir (.ok files)])) maxAgeMs
          (Path.join config.tempDir file) seg = true) files segs := by
  obtain ⟨segs, hsegs, hall⟩ := sweepEntries_run w config
    (w.now (t ++ [Event.readdir config.tempDir (.ok files)])) maxAgeMs files
    (t ++ [Event.readdir config.tempDir (.ok files),
      Event.dateNow (w.now (t ++ [Event.readdir config.tempDir (.ok files)]))])
  refine ⟨segs, ?_, hall⟩
  rw [cleanupOldTempFiles_run, hlist]
  simpa using hsegs

/-- The janitor with a 5 second threshold at time 10000 deletes `old.mp4` and
leaves `gone.mp4` (its `stat` fails) and `new.mp4` (modified 1 second ago) alone. -/
theorem cleanupOldTempFiles_deletes_exactly_old_witness :
    ∃ segs : List Trace,
      FileUtils.cleanupOldTempFiles janitorWorld defaultConfig 5000 [] =
        (.ok (), [] ++ Event.readdir "./temp" (.ok ["gone.mp4", "old.mp4", "new.mp4"]) ::
          Event.dateNow 10000 :: segs.flatten) ∧
      List.Forall₂ (fun file seg =>
        isSweptEntry 10000 5000 (Path.join "./temp" file) seg = true)
        ["gone.mp4", "old.mp4", "new.mp4"] segs :=
  cleanupOldTempFiles_deletes_exactly_old janitorWorld defaultConfig 5000 []
    ["gone.mp4", "old.mp4", "new.mp4"] rfl

/-- The whole trace of that sweep: after the failing `stat` of `gone.mp4` the
loop goes on, `old.mp4` is checked and unlinked, `new.mp4` gets its `stat` only. -/
theorem janitorWorld_sweep :
    FileUtils.cleanupOldTempFiles janitorWorld defaultConfig 5000 [] =
      (.ok (), [Event.readdir "./temp" (.ok ["gone.mp4", "old.mp4", "new.mp4"]),
        Event.dateNow 10000,
        Event.stat "temp/gone.mp4" (.error enoent),
        Event.stat "temp/old.mp4" (.ok { size := 1, birthtime := 0, mtime := 0, isFile := true }),
        Event.access "temp/old.mp4" none, Event.unlink "temp/old.mp4" none,
        Event.stat "temp/new.mp4"
          (.ok { size := 1, birthtime := 9000, mtime := 9000, isFile := true })]) := by
  rfl

/-- C8: `cleanupOldTempFiles` returns normally in every world; when listing the
directory fails, the listing is the only call made (nothing is examined or
deleted); and when the listing is `pre ++ file :: post`, then whatever happened
to the entries of `pre` (failing `stat`, failing `unlink`), the loop goes on to
`file`: right after the trace of `pre` comes the segment of `file`, its `stat`
and, when that succeeds with an old enough time, its deletion run. -/
theorem cleanupOldTempFiles_never_throws (w : World) (config : Config) (maxAgeMs : Int)
    (t : Trace) :
    (FileUtils.cleanupOldTempFiles w config maxAgeMs t).1 = .ok () ∧
    match w.readdir t config.tempDir with
    | .error e =>
      (FileUtils.cleanupOldTempFiles w config maxAgeMs t).2 =
        t ++ [Event.readdir config.tempDir (.error e)]
    | .ok files =>
      ∀ pre file post, files = pre ++ file :: post →
        ∃ seg rest,
          (FileUtils.cleanupOldTempFiles w config maxAgeMs t).2 =
            (FileUtils.sweepEntries w config
              (w.now (t ++ [Event.readdir config.tempDir (.ok files)])) maxAgeMs pre
              (t ++ [Event.readdir config.tempDir (.ok files),
                Event.dateNow (w.now (t ++ [Event.readdir config.tempDir (.ok files)]))])).2 ++
              seg ++ rest ∧
          isSweptEntry (w.now (t ++ [Event.readdir config.tempDir (.ok files)])) maxAgeMs
            (Path.join config.tempDir file) seg = true := by
  rw [cleanupOldTempFiles_run]
  cases h : w.readdir t config.tempDir with
  | error e => exact ⟨rfl, rfl⟩
  | ok files =>
    simp only
    generalize w.now (t ++ [Event.readdir config.tempDir (.ok files)]) = now
    generalize t ++ [Event.readdir config.tempDir (.ok files), Event.dateNow now] = t0
    constructor
    · obtain ⟨segs, hsegs, _⟩ := sweepEntries_run w config now maxAgeMs files t0
      rw [hsegs]
    · intro pre file post hsplit
      subst hsplit
      rw [sweepEntries_append]
      generalize (FileUtils.sweepEntries w config now maxAgeMs pre t0).2 = t1
      obtain ⟨seg, hseg, hswept⟩ := sweepEntry_run w config now maxAgeMs file t1
      obtain ⟨segs, hsegs, _⟩ := sweepEntries_run w config now maxAgeMs post (t1 ++ seg)
      refine ⟨seg, segs.flatten, ?_, hswept⟩
      simp [FileUtils.sweepEntries, hseg, hsegs]

/-- C6 (code defect): at shutdown (threshold 0) with `clip.mp4` modified in the
millisecond of the sweep, the sweep examines the file and stops: no access
check and no `unlink` on it. -/
theorem cleanupOldTempFiles_zero_keeps_current :
    FileUtils.cleanupOldTempFiles shutdownWorld defaultConfig 0 [] =
      (.ok (), [Event.readdir "./temp" (.ok ["clip.mp4"]), Event.dateNow 1000,
        Event.stat "temp/clip.mp4"
          (.ok { size := 2048, birthtime := 1000, mtime := 1000, isFile := true })]) := by
  rfl

/-! ## Cleanup in `flipVideo` -/

theorem Path.normalizeChars_ne_nil (p : List Char) : Path.normalizeChars p ≠ [] := by
  unfold Path.normalizeChars
  by_cases hp : p = []
  · simp [hp]
  · simp only [hp, if_false]
    split
    · split
      · simp
      · split <;> simp
    · split <;> split <;> simp_all

theorem Path.join_ne_empty (a b : String) : Path.join a b ≠ "" := by
  unfold Path.join
  simp only
  split
  · decide
  · intro h
    have := congrArg String.data h
    exact Path.normalizeChars_ne_nil _ this

theorem isDeletionRun_quiet (p : String) (run : Trace) (h : isDeletionRun p run = true) :
    quiet run = true := by
  unfold isDeletionRun at h
  split at h <;> simp_all [quiet, noCommand, noSend]

theorem noCommand_commandsWriteTo (output : String) (t : Trace) (h : noCommand t = true) :
    commandsWriteTo output t = true := by
  simp only [noCommand, commandsWriteTo, List.all_eq_true] at h ⊢
  intro ev hev
  have := h ev hev
  split <;> simp_all

theorem quiet_processingTo (output : String) (t : Trace) (h : quiet t = true) :
    processingTo output t = true := by
  simp only [quiet, processingTo, Bool.and_eq_true] at h ⊢
  exact ⟨noCommand_commandsWriteTo _ _ h.1, h.2⟩

@[simp] theorem commandsWriteTo_append (output : String) (a b : Trace) :
    commandsWriteTo output (a ++ b) = (commandsWriteTo output a && commandsWriteTo output b) := by
  simp [commandsWriteTo]

@[simp] theorem noCommand_append (a b : Trace) :
    noCommand (a ++ b) = (noCommand a && noCommand b) := by
  simp [noCommand]

@[simp] theorem noSend_append (a b : Trace) : noSend (a ++ b) = (noSend a && noSend b) := by
  simp [noSend]

theorem quiet_append (a b : Trace) (ha : quiet a = true) (hb : quiet b = true) :
    quiet (a ++ b) = true := by
  simp only [quiet, Bool.and_eq_true] at ha hb ⊢
  simp [ha.1, ha.2, hb.1, hb.2]

theorem processingTo_append (output : String) (a b : Trace) (ha : processingTo output a = true)
    (hb : processingTo output b = true) : processingTo output (a ++ b) = true := by
  simp only [processingTo, Bool.and_eq_true] at ha hb ⊢
  simp [ha.1, ha.2, hb.1, hb.2]

namespace Appends

theorem pure {α : Type} {P : Trace → Prop} (hP : Additive P) (a : α) :
    Appends P (Pure.pure a : Eff α) :=
  fun t => ⟨[], by simp, hP.nil⟩

theorem throw {α : Type} {P : Trace → Prop} (hP : Additive P) (e : JsError) :
    Appends P (Eff.throw e : Eff α) :=
  fun t => ⟨[], by simp, hP.nil⟩

theorem observe {α : Type} {P : Trace → Prop} (value : Trace → α) (ev : α → Event)
    (h : ∀ r, P [ev r]) :
    Appends P (Eff.observe value ev) :=
  fun t => ⟨[ev (value t)], by simp, h _⟩

theorem emit {P : Trace → Prop} (ev : Event) (h : P [ev]) : Appends P (Eff.emit ev) :=
  fun t => ⟨[ev], by simp, h⟩

theorem request {α : Type} {P : Trace → Prop} (answer : Trace → Except JsError α)
    (ev : Except JsError α → Event) (h : ∀ r, P [ev r]) : Appends P (Eff.request answer ev) :=
  fun t => ⟨[ev (answer t)], by simp, h _⟩

theorem attempt {P : Trace → Prop} (answer : Trace → Option JsError)
    (ev : Option JsError → Event) (h : ∀ r, P [ev r]) : Appends P (Eff.attempt answer ev) := by
  intro t
  unfold Eff.attempt
  cases answer t with
  | none => exact ⟨[ev none], rfl, h _⟩
  | some e => exact ⟨[ev (some e)], rfl, h _⟩

theorem bind {α β : Type} {P : Trace → Prop} (hP : Additive P) {m : Eff α} {f : α → Eff β}
    (hm : Appends P m)
    (hf : ∀ a, Appends P (f a)) : Appends P (m >>= f) := by
  intro t
  obtain ⟨b1, h1, p1⟩ := hm t
  rw [Eff.run_bind]
  rcases hmt : m t with ⟨r, t1⟩
  rw [hmt] at h1
  simp only at h1
  subst h1
  cases r with
  | error e => exact ⟨b1, rfl, p1⟩
  | ok a =>
    obtain ⟨b2, h2, p2⟩ := hf a (t ++ b1)
    exact ⟨b1 ++ b2, by simp [h2], hP.append _ _ p1 p2⟩

theorem tryCatch {α : Type} {P : Trace → Prop} (hP : Additive P) {body : Eff α}
    {handler : JsError → Eff α}
    (hm : Appends P body) (hf : ∀ e, Appends P (handler e)) :
    Appends P (Eff.tryCatch body handler) := by
  intro t
  obtain ⟨b1, h1, p1⟩ := hm t
  rw [Eff.run_tryCatch]
  rcases hmt : body t with ⟨r, t1⟩
  rw [hmt] at h1
  simp only at h1
  subst h1
  cases r with
  | ok a => exact ⟨b1, rfl, p1⟩
  | error e =>
    obtain ⟨b2, h2, p2⟩ := hf e (t ++ b1)
    exact ⟨b1 ++ b2, by simp [h2], hP.append _ _ p1 p2⟩

end Appends

theorem additive_quiet : Additive (fun body => quiet body = true) :=
  ⟨rfl, quiet_append⟩

theorem additive_processingTo (output : String) :
    Additive (fun body => processingTo output body = true) :=
  ⟨rfl, processingTo_append output⟩

theorem safeDeleteFile_quiet (w : World) (filePath : String) :
    Appends (fun body => quiet body = true) (FileUtils.safeDeleteFile w filePath) := by
  intro t
  obtain ⟨run, hrun, hdel⟩ := safeDeleteFile_deletionRun w filePath t
  exact ⟨run, by rw [hrun], isDeletionRun_quiet _ _ hdel⟩

theorem ensureTempDir_quiet (w : World) (config : Config) :
    Appends (fun body => quiet body = true) (FileUtils.ensureTempDir w config) := by
  intro t
  rw [ensureTempDir_run]
  split
  · exact ⟨_, rfl, by simp [quiet, noCommand, noSend]⟩
  · exact ⟨_, rfl, by simp [quiet, noCommand, noSend]⟩

theorem Appends.weaken {α : Type} {P Q : Trace → Prop} {m : Eff α} (h : Appends P m)
    (hPQ : ∀ body, P body → Q body) : Appends Q m := by
  intro t
  obtain ⟨b, hb, hp⟩ := h t
  exact ⟨b, hb, hPQ _ hp⟩

theorem flipVideoHorizontally_processing (w : World) (config : Config)
    (inputPath outputPath : String) :
    Appends (fun body => processingTo outputPath body = true)
      (VideoProcessor.flipVideoHorizontally w config inputPath outputPath) := by
  intro t
  unfold VideoProcessor.flipVideoHorizontally
  simp only
  split
  · exact ⟨_, rfl, by simp [processingTo, commandsWriteTo, noSend]⟩
  · exact ⟨_, rfl, by simp [processingTo, commandsWriteTo, noSend]⟩
  · exact ⟨[Event.ffmpegCommand inputPath outputPath, Event.ffmpegKill "SIGKILL"], by simp,
      by simp [processingTo, commandsWriteTo, noSend]⟩

/-- The events of `processVideo`: no send, and every transform command writes
to the given output path. -/
theorem processVideo_processing (w : World) (config : Config) (startTime : Int)
    (inputPath outputPath : String) :
    Appends (fun body => processingTo outputPath body = true)
      (VideoProcessor.processVideo w config startTime inputPath outputPath) := by
  have hP := additive_processingTo outputPath
  have hdel : Appends (fun body => processingTo outputPath body = true)
      (FileUtils.safeDeleteFile w outputPath) :=
    (safeDeleteFile_quiet w outputPath).weaken (fun b hb => quiet_processingTo _ _ hb)
  unfold VideoProcessor.processVideo VideoProcessor.getVideoMetadata FileUtils.getFileInfo
  dsimp only
  repeat' with_reducible first
    | exact hdel
    | exact flipVideoHorizontally_processing w config inputPath outputPath
    | apply Appends.bind hP
    | apply Appends.tryCatch hP
    | apply Appends.pure hP
    | apply Appends.throw hP
    | apply Appends.observe
    | apply Appends.emit
    | apply Appends.request
    | intro _
    | split
    | simp [processingTo, commandsWriteTo, noSend]

theorem DeletionAttempted.of_run (p : String) (run : Trace) (h : isDeletionRun p run = true) :
    DeletionAttempted p run :=
  ⟨[], run, [], by simp, h⟩

theorem DeletionAttempted.append_left (p : String) (a c : Trace) (h : DeletionAttempted p c) :
    DeletionAttempted p (a ++ c) := by
  obtain ⟨before, run, after, hc, hrun⟩ := h
  exact ⟨a ++ before, run, after, by simp [hc], hrun⟩

theorem DeletionAttempted.append_right (p : String) (c b : Trace) (h : DeletionAttempted p c) :
    DeletionAttempted p (c ++ b) := by
  obtain ⟨before, run, after, hc, hrun⟩ := h
  exact ⟨before, run, after ++ b, by simp [hc], hrun⟩

/-- When every transform command of `a` writes to `output`, `c` builds no
command, and `c` holds a deletion run on `output` unless `a` builds no command
at all, then in `a ++ c` every transform command is followed by a deletion run
on its output. -/
theorem deletion_follows_command (output : String) (a c : Trace)
    (ha : commandsWriteTo output a = true) (hc : noCommand c = true)
    (hd : noCommand a = true ∨ DeletionAttempted output c) :
    ∀ before input out after, a ++ c = before ++ Event.ffmpegCommand input out :: after →
      DeletionAttempted out after := by
  intro before input out after hsplit
  rcases List.append_eq_append_iff.mp hsplit with ⟨a1, hbefore, hc1⟩ | ⟨c1, ha1, hrest⟩
  · rw [hc1] at hc
    simp [noCommand] at hc
  · cases c1 with
    | nil =>
      simp at hrest
      rw [← hrest] at hc
      simp [noCommand] at hc
    | cons ev c2 =>
      simp at hrest
      obtain ⟨hev, hafter⟩ := hrest
      subst hev
      subst ha1
      have hout : out = output := by
        simp [commandsWriteTo] at ha
        exact ha.2.1
      subst hout
      rcases hd with hno | hdel
      · simp [noCommand] at hno
      · rw [hafter]
        exact DeletionAttempted.append_left _ _ _ hdel

/-- A trace without send has no send. -/
theorem noSend_no_split (t : Trace) (h : noSend t = true) (before : Trace) (path : String)
    (after : Trace) : t ≠ before ++ Event.sendFile path :: after := by
  intro ht
  rw [ht] at h
  simp [noSend] at h

/-- In `a ++ sendFile p :: c` with no send in `a` and `c`, the only send is the
one shown. -/
theorem send_split_unique (a c : Trace) (p : String) (ha : noSend a = true)
    (hc : noSend c = true) (before : Trace) (path : String) (after : Trace)
    (hsplit : a ++ Event.sendFile p :: c = before ++ Event.sendFile path :: after) :
    path = p ∧ after = c := by
  rcases List.append_eq_append_iff.mp hsplit with ⟨a1, hbefore, hc1⟩ | ⟨c1, ha1, hrest⟩
  · cases a1 with
    | nil =>
      simp at hc1
      exact ⟨hc1.1.symm, hc1.2.symm⟩
    | cons ev a2 =>
      simp at hc1
      obtain ⟨_, hc2⟩ := hc1
      rw [hc2] at hc
      simp [noSend] at hc
  · cases c1 with
    | nil =>
      simp at hrest
      exact ⟨hrest.1, hrest.2⟩
    | cons ev c2 =>
      simp at hrest
      obtain ⟨hev, _⟩ := hrest
      subst hev
      rw [ha1] at ha
      simp [noSend] at ha

/-- The trace of `cleanupFiles`: no transform command, no send, a deletion run
on the input path, and one on the output path when there is one. -/
theorem cleanupFiles_run (w : World) (inputPath : String) (outputPath : Option String)
    (hin : inputPath ≠ "") (t : Trace) :
    ∃ c, VideoController.cleanupFiles w (some inputPath) outputPath t = (.ok (), t ++ c) ∧
      quiet c = true ∧ DeletionAttempted inputPath c ∧
      ∀ out, outputPath = some out → out ≠ "" → DeletionAttempted out c := by
  obtain ⟨r1, hr1, hd1⟩ := safeDeleteFile_deletionRun w inputPath t
  unfold VideoController.cleanupFiles
  simp only [Eff.run_tryCatch, truthy, Option.getD]
  cases outputPath with
  | none =>
    refine ⟨r1, ?_, isDeletionRun_quiet _ _ hd1, DeletionAttempted.of_run _ _ hd1, ?_⟩
    · simp [hin, hr1]
    · intro out h; cases h
  | some out =>
    by_cases hout : out = ""
    · refine ⟨r1, ?_, isDeletionRun_quiet _ _ hd1, DeletionAttempted.of_run _ _ hd1, ?_⟩
      · simp [hin, hr1, hout]
      · intro out2 h hne
        simp at h
        exact absurd (h ▸ hout) hne
    · obtain ⟨r2, hr2, hd2⟩ := safeDeleteFile_deletionRun w out (t ++ r1)
      refine ⟨r1 ++ r2, ?_, ?_, ?_, ?_⟩
      · simp [hin, hr1, hout, hr2]
      · exact quiet_append _ _ (isDeletionRun_quiet _ _ hd1) (isDeletionRun_quiet _ _ hd2)
      · exact DeletionAttempted.append_right _ _ _ (DeletionAttempted.of_run _ _ hd1)
      · intro out2 h _
        simp at h
        subst h
        exact DeletionAttempted.append_left _ _ _ (DeletionAttempted.of_run _ _ hd2)

/-- The trace of the `catch` block of `flipVideo`. -/
theorem flipVideoCatch_run (w : World) (file : UploadedFile) (outputPath : Option String)
    (error : JsError) (t : Trace) :
    ∃ c, (VideoController.flipVideoCatch w file outputPath error t).2 = t ++ c ∧
      quiet c = true ∧ DeletionAttempted file.path c ∧
      ∀ out, outputPath = some out → out ≠ "" → DeletionAttempted out c := by
  obtain ⟨c, hc, hno, hin, hout⟩ :=
    cleanupFiles_run w file.path outputPath (Path.join_ne_empty _ _) t
  refine ⟨c, ?_, hno, hin, hout⟩
  unfold VideoController.flipVideoCatch
  simp only [Eff.run_bind, hc]
  split <;> [skip; split] <;> simp

/-- The trace of `processVideoFile`: no send, every transform command writes to
one non-empty path `out`, which a successful result returns as its output path,
and after a failure the last thing done is a deletion run on that path. -/
theorem processVideoFile_run (w : World) (config : Config) (inputPath originalFilename : String)
    (t : Trace) :
    ∃ out a, out ≠ "" ∧ processingTo out a = true ∧
      match VideoProcessor.processVideoFile w config inputPath originalFilename t with
      | (.ok result, t1) => t1 = t ++ a ∧ result.outputPath = out
      | (.error _, t1) => ∃ run, t1 = t ++ a ++ run ∧ isDeletionRun out run = true := by
  unfold VideoProcessor.processVideoFile FileUtils.generateTempFilename
  simp only [Eff.run_bind, Eff.run_observe, Eff.run_pure, Eff.run_tryCatch]
  generalize w.now t = startTime
  generalize hpre : t ++ [Event.dateNow startTime] ++
    [Event.dateNow (w.now (t ++ [Event.dateNow startTime]))] ++
    [Event.random (w.randomToken (t ++ [Event.dateNow startTime] ++
      [Event.dateNow (w.now (t ++ [Event.dateNow startTime]))]))] = t0
  have hne : FileUtils.getTempFilePath config (FileUtils.tempFilename
      (w.now (t ++ [Event.dateNow startTime]))
      (w.randomToken (t ++ [Event.dateNow startTime] ++
        [Event.dateNow (w.now (t ++ [Event.dateNow startTime]))])) originalFilename) ≠ "" :=
    Path.join_ne_empty _ _
  generalize FileUtils.getTempFilePath config (FileUtils.tempFilename
      (w.now (t ++ [Event.dateNow startTime]))
      (w.randomToken (t ++ [Event.dateNow startTime] ++
        [Event.dateNow (w.now (t ++ [Event.dateNow startTime]))])) originalFilename) = out
    at hne ⊢
  have hP := additive_processingTo out
  have hbody : Appends (fun body => processingTo out body = true)
      (FileUtils.ensureTempDir w config >>= fun _ =>
        VideoProcessor.processVideo w config startTime inputPath out) := by
    refine Appends.bind hP ?_ (fun _ => processVideo_processing w config _ inputPath out)
    exact (ensureTempDir_quiet w config).weaken (fun b hb => quiet_processingTo _ _ hb)
  obtain ⟨a, ha, hcmds⟩ := hbody t0
  have hstart : ∃ p, t0 = t ++ p ∧ processingTo out p = true := by
    refine ⟨[Event.dateNow startTime, Event.dateNow (w.now (t ++ [Event.dateNow startTime])),
      Event.random (w.randomToken (t ++ [Event.dateNow startTime] ++
        [Event.dateNow (w.now (t ++ [Event.dateNow startTime]))]))], ?_,
      by simp [processingTo, commandsWriteTo, noSend]⟩
    rw [← hpre]; simp
  obtain ⟨p, hp, hpcmds⟩ := hstart
  refine ⟨out, p ++ a, hne, processingTo_append _ _ _ hpcmds hcmds, ?_⟩
  simp only [Eff.run_bind] at ha
  rcases hrun : FileUtils.ensureTempDir w config t0 with ⟨r1, t1⟩
  rw [hrun] at ha
  cases r1 with
  | error e =>
    simp only at ha ⊢
    subst ha
    obtain ⟨run, hdel, hisrun⟩ := safeDeleteFile_deletionRun w out (t0 ++ a)
    simp only [hdel, Eff.run_throw]
    exact ⟨run, by simp [hp], hisrun⟩
  | ok u =>
    simp only at ha ⊢
    rcases hpv : VideoProcessor.processVideo w config startTime inputPath out t1 with ⟨r2, t2⟩
    rw [hpv] at ha
    simp only at ha
    subst ha
    cases r2 with
    | error e =>
      obtain ⟨run, hdel, hisrun⟩ := safeDeleteFile_deletionRun w out (t0 ++ a)
      simp only [hdel, Eff.run_throw]
      exact ⟨run, by simp [hp], hisrun⟩
    | ok result => exact ⟨by simp [hp], rfl⟩

theorem checkFFmpegAvailability_run (w : World) (t : Trace) :
    ∃ available, VideoProcessor.checkFFmpegAvailability w t =
      (.ok available, t ++ [Event.getAvailableCodecs (w.availableCodecs t)]) := by
  unfold VideoProcessor.checkFFmpegAvailability VideoProcessor.getFFmpegPath
  simp only [Eff.run_tryCatch, Eff.run_bind, Eff.attempt]
  cases w.availableCodecs t with
  | none => exact ⟨_, rfl⟩
  | some e => exact ⟨false, rfl⟩

/-- The trace of the first part of `flipVideo`: a body `a` without send whose
transform commands all write to `out`, the (non-empty) path a successful result
returns; after a failure the body is followed by a quiet segment `c0` that
holds a deletion run on `out` unless no transform command was built. -/
theorem flipVideoProcess_run (w : World) (config : Config) (file : UploadedFile) (t : Trace) :
    ∃ out a c0, processingTo out a = true ∧ quiet c0 = true ∧
      match VideoController.flipVideoProcess w config file t with
      | (.ok result, t1) => t1 = t ++ a ∧ result.outputPath = out ∧ out ≠ ""
      | (.error _, t1) => t1 = t ++ a ++ c0 ∧ (noCommand a = true ∨ DeletionAttempted out c0) := by
  obtain ⟨available, hcheck⟩ := checkFFmpegAvailability_run w t
  unfold VideoController.flipVideoProcess
  simp only [Eff.run_bind, hcheck]
  cases available with
  | false =>
    exact ⟨"", [Event.getAvailableCodecs (w.availableCodecs t)], [],
      by simp [processingTo, commandsWriteTo, noSend], rfl, by simp [noCommand]⟩
  | true =>
    simp only [Bool.not_true, Bool.false_eq_true, if_false, Eff.run_pure, Eff.run_bind]
    obtain ⟨out, a, hne, hcmds, hpvf⟩ := processVideoFile_run w config file.path file.originalname
      (t ++ [Event.getAvailableCodecs (w.availableCodecs t)])
    have hfirst : processingTo out (Event.getAvailableCodecs (w.availableCodecs t) :: a) = true :=
      processingTo_append out [Event.getAvailableCodecs (w.availableCodecs t)] a
        (by simp [processingTo, commandsWriteTo, noSend]) hcmds
    rcases hrun : VideoProcessor.processVideoFile w config file.path file.originalname
      (t ++ [Event.getAvailableCodecs (w.availableCodecs t)]) with ⟨r, t1⟩
    rw [hrun] at hpvf
    cases r with
    | ok result =>
      simp only at hpvf ⊢
      exact ⟨out, Event.getAvailableCodecs (w.availableCodecs t) :: a, [], hfirst, rfl,
        by simp [hpvf.1], hpvf.2, hne⟩
    | error e =>
      simp only at hpvf ⊢
      obtain ⟨run, ht1, hisrun⟩ := hpvf
      exact ⟨out, Event.getAvailableCodecs (w.availableCodecs t) :: a, run, hfirst,
        isDeletionRun_quiet _ _ hisrun, by simp [ht1],
        Or.inr (DeletionAttempted.of_run _ _ hisrun)⟩

/-- The trace of the second part of `flipVideo`, with its `catch` block: a
segment `h` of headers, which ends with the send unless a header failed, then
the cleanup `c` of both files. -/
theorem flipVideoSend_run (w : World) (file : UploadedFile) (result : FileResult) (t : Trace) :
    ∃ h c, (Eff.tryCatch (VideoController.flipVideoSend w file result)
        (VideoController.flipVideoCatch w file (some result.outputPath)) t).2 = t ++ h ++ c ∧
      (quiet h = true ∨ ∃ h1, quiet h1 = true ∧ h = h1 ++ [Event.sendFile result.outputPath]) ∧
      quiet c = true ∧ DeletionAttempted file.path c ∧
      (result.outputPath ≠ "" → DeletionAttempted result.outputPath c) := by
  have hcatch : ∀ (e : JsError) (t0 h : Trace),
      (quiet h = true ∨ ∃ h1, quiet h1 = true ∧ h = h1 ++ [Event.sendFile result.outputPath]) →
      t0 = t ++ h →
      ∃ h c, (VideoController.flipVideoCatch w file (some result.outputPath) e t0).2 = t ++ h ++ c ∧
        (quiet h = true ∨ ∃ h1, quiet h1 = true ∧ h = h1 ++ [Event.sendFile result.outputPath]) ∧
        quiet c = true ∧ DeletionAttempted file.path c ∧
        (result.outputPath ≠ "" → DeletionAttempted result.outputPath c) := by
    intro e t0 h hh ht0
    obtain ⟨c, hc, hno, hin, hout⟩ := flipVideoCatch_run w file (some result.outputPath) e t0
    exact ⟨h, c, by rw [hc, ht0], hh, hno, hin, fun hne => hout _ rfl hne⟩
  unfold VideoController.flipVideoSend VideoController.setHeader VideoController.sendFile
  simp only [Eff.run_tryCatch, Eff.run_bind, Eff.attempt, Eff.run_pure]
  cases h1 : w.setHeader t "Content-Type" "video/mp4" with
  | some e =>
    exact hcatch e _ [Event.setHeader "Content-Type" "video/mp4" (some e)]
      (Or.inl (by simp [quiet, noCommand, noSend])) rfl
  | none =>
    simp only
    generalize hv2 : "attachment; filename=\"flipped_" ++ file.originalname ++ "\"" = v2
    cases h2 : w.setHeader (t ++ [Event.setHeader "Content-Type" "video/mp4" none])
        "Content-Disposition" v2 with
    | some e =>
      exact hcatch e _ [Event.setHeader "Content-Type" "video/mp4" none,
        Event.setHeader "Content-Disposition" v2 (some e)]
        (Or.inl (by simp [quiet, noCommand, noSend])) (by simp)
    | none =>
      simp only
      generalize hv3 : toString result.result.outputFileInfo.size = v3
      cases h3 : w.setHeader (t ++ [Event.setHeader "Content-Type" "video/mp4" none] ++
          [Event.setHeader "Content-Disposition" v2 none]) "Content-Length" v3 with
      | some e =>
        exact hcatch e _ [Event.setHeader "Content-Type" "video/mp4" none,
          Event.setHeader "Content-Disposition" v2 none,
          Event.setHeader "Content-Length" v3 (some e)]
          (Or.inl (by simp [quiet, noCommand, noSend])) (by simp)
      | none =>
        simp only
        have hheaders : quiet [Event.setHeader "Content-Type" "video/mp4" none,
            Event.setHeader "Content-Disposition" v2 none,
            Event.setHeader "Content-Length" v3 none] = true := by
          simp [quiet, noCommand, noSend]
        cases h4 : w.sendFile (t ++ [Event.setHeader "Content-Type" "video/mp4" none] ++
            [Event.setHeader "Content-Disposition" v2 none] ++
            [Event.setHeader "Content-Length" v3 none]) result.outputPath with
        | threw e =>
          exact hcatch e _ ([Event.setHeader "Content-Type" "video/mp4" none,
            Event.setHeader "Content-Disposition" v2 none,
            Event.setHeader "Content-Length" v3 none] ++ [Event.sendFile result.outputPath])
            (Or.inr ⟨_, hheaders, rfl⟩) (by simp)
        | callback err =>
          simp only
          obtain ⟨c, hc, hno, hin, hout⟩ := cleanupFiles_run w file.path (some result.outputPath)
            (Path.join_ne_empty _ _) (t ++ [Event.setHeader "Content-Type" "video/mp4" none] ++
            [Event.setHeader "Content-Disposition" v2 none] ++
            [Event.setHeader "Content-Length" v3 none] ++ [Event.sendFile result.outputPath])
          refine ⟨[Event.setHeader "Content-Type" "video/mp4" none,
            Event.setHeader "Content-Disposition" v2 none,
            Event.setHeader "Content-Length" v3 none] ++ [Event.sendFile result.outputPath], c,
            ?_, Or.inr ⟨_, hheaders, rfl⟩, hno, hin, fun hne => hout _ rfl hne⟩
          rw [hc]
          simp

/-- C1: in every world and for every uploaded file, whatever the outcome of
`flipVideo` (tool unavailable, probe failure, duration rejection, transform
failure or timeout, failure while sending, send callback with or without
error), the events it adds to the trace contain a deletion run on the input
path `file.path`; every transform command (the only step that can create the
output file) is followed by a deletion run on its output path; and a call of
`res.sendFile` is followed by deletion runs on the input path and on the path
that was sent. -/
theorem flipVideo_cleans_up (w : World) (config : Config) (file : UploadedFile) (t : Trace) :
    ∃ new, (VideoController.flipVideo w config file t).2 = t ++ new ∧
      DeletionAttempted file.path new ∧
      (∀ before input output after, new = before ++ Event.ffmpegCommand input output :: after →
        DeletionAttempted output after) ∧
      (∀ before path after, new = before ++ Event.sendFile path :: after →
        DeletionAttempted file.path after ∧ DeletionAttempted path after) := by
  obtain ⟨out, a, c0, hcmds, hc0, hproc⟩ := flipVideoProcess_run w config file t
  simp only [processingTo, quiet, Bool.and_eq_true] at hcmds hc0
  unfold VideoController.flipVideo
  rcases hrun : VideoController.flipVideoProcess w config file t with ⟨r, t1⟩
  rw [hrun] at hproc
  cases r with
  | error e =>
    simp only at hproc ⊢
    obtain ⟨ht1, hdel⟩ := hproc
    obtain ⟨c, hc, hno, hin, _⟩ := flipVideoCatch_run w file none e t1
    simp only [quiet, Bool.and_eq_true] at hno
    refine ⟨a ++ (c0 ++ c), by rw [hc, ht1]; simp, ?_, ?_, ?_⟩
    · exact DeletionAttempted.append_left _ _ _ (DeletionAttempted.append_left _ _ _ hin)
    · refine deletion_follows_command out a (c0 ++ c) hcmds.1 (by simp [hc0.1, hno.1]) ?_
      rcases hdel with h | h
      · exact Or.inl h
      · exact Or.inr (DeletionAttempted.append_right _ _ _ h)
    · intro before path after hsplit
      exact absurd hsplit (noSend_no_split _ (by simp [hcmds.2, hc0.2, hno.2]) _ _ _)
  | ok result =>
    simp only at hproc ⊢
    obtain ⟨ht1, hout, hne⟩ := hproc
    obtain ⟨h, c, hc, hh, hno, hin, hdel⟩ := flipVideoSend_run w file result t1
    simp only [quiet, Bool.and_eq_true] at hno
    subst hout
    have hhcmd : noCommand h = true := by
      rcases hh with hq | ⟨h1, hq, rfl⟩
      · simp only [quiet, Bool.and_eq_true] at hq
        exact hq.1
      · simp only [quiet, Bool.and_eq_true] at hq
        rw [noCommand_append, hq.1]
        rfl
    refine ⟨(a ++ h) ++ c, by rw [hc, ht1]; simp, ?_, ?_, ?_⟩
    · exact DeletionAttempted.append_left _ _ _ hin
    · refine deletion_follows_command result.outputPath (a ++ h) c ?_ hno.1 (Or.inr (hdel hne))
      simp [hcmds.1, noCommand_commandsWriteTo _ _ hhcmd]
    · intro before path after hsplit
      rcases hh with hq | ⟨h1, hq, rfl⟩
      · simp only [quiet, Bool.and_eq_true] at hq
        exact absurd hsplit (noSend_no_split _ (by simp [hcmds.2, hq.2, hno.2]) _ _ _)
      · simp only [quiet, Bool.and_eq_true] at hq
        have hsplit2 : (a ++ h1) ++ Event.sendFile result.outputPath :: c =
            before ++ Event.sendFile path :: after := by
          rw [← hsplit]; simp
        obtain ⟨hpath, hafter⟩ := send_split_unique (a ++ h1) c result.outputPath
          (by simp [hcmds.2, hq.2]) hno.2 before path after hsplit2
        subst hpath hafter
        exact ⟨hin, hdel hne⟩

/-! ## Validation of the upload -/

/-- C3 (as stated) fails: for a stored file one byte over the default limit,
the error `validateUploadedFile` passes on is not an error with status 413
that carries the field name `video`. -/
theorem validateUploadedFile_oversize_has_no_field :
    ¬ ∃ e, UploadMiddleware.validateUploadedFile defaultConfig (storedRequest 52428801) = some e ∧
      e.statusCode = some 413 ∧ e.field = some "video" := by
  rintro ⟨e, he, _, hfield⟩
  have hval : UploadMiddleware.validateUploadedFile defaultConfig (storedRequest 52428801) =
      some (FileSizeError "File size exceeds the maximum limit of 50MB") := rfl
  rw [hval] at he
  cases he
  simp [FileSizeError, JsError.field] at hfield

/-- C3 (amended): for every configuration and every request whose stored file
is larger than the configured maximum file size, `validateUploadedFile` passes
to `next` the `FileSizeError` with the message below; its status code is 413
and it carries no field name. -/
theorem validateUploadedFile_oversize (config : Config) (req : Req) (file : UploadedFile)
    (hfile : req.file = some file) (hsize : file.size > config.maxFileSize) :
    UploadMiddleware.validateUploadedFile config req =
      some (FileSizeError "File size exceeds the maximum limit of 50MB") ∧
    (FileSizeError "File size exceeds the maximum limit of 50MB").name = "FileSizeError" ∧
    (FileSizeError "File size exceeds the maximum limit of 50MB").statusCode = some 413 ∧
    (FileSizeError "File size exceeds the maximum limit of 50MB").field = none := by
  refine ⟨?_, rfl, rfl, rfl⟩
  have hnot : ¬ file.size ≤ config.maxFileSize := by omega
  simp [UploadMiddleware.validateUploadedFile, hfile, FileUtils.isValidFileSize, hnot,
    ErrorHandler.createFileSizeError]

theorem validateUploadedFile_oversize_witness :
    UploadMiddleware.validateUploadedFile defaultConfig (storedRequest 52428801) =
      some (FileSizeError "File size exceeds the maximum limit of 50MB") ∧
    (FileSizeError "File size exceeds the maximum limit of 50MB").name = "FileSizeError" ∧
    (FileSizeError "File size exceeds the maximum limit of 50MB").statusCode = some 413 ∧
    (FileSizeError "File size exceeds the maximum limit of 50MB").field = none :=
  validateUploadedFile_oversize defaultConfig (storedRequest 52428801) (storedClip 52428801)
    rfl (by decide)

/-- C4: for every configuration and every request whose stored file has a
filename whose extension, lower-cased, is in the extension allow-list, a MIME
type in the MIME allow-list and a size of at most the configured maximum,
`validateUploadedFile` calls `next()` without an error. -/
theorem validateUploadedFile_passes (config : Config) (req : Req) (file : UploadedFile)
    (hfile : req.file = some file)
    (hext : toLowerCase (Path.extname file.originalname) ∈ config.allowedExtensions)
    (hmime : file.mimetype ∈ config.allowedMimeTypes)
    (hsize : file.size ≤ config.maxFileSize) :
    UploadMiddleware.validateUploadedFile config req = none := by
  simp [UploadMiddleware.validateUploadedFile, hfile, FileUtils.isValidFileSize, hsize,
    FileUtils.isValidFileExtension, hext, FileUtils.isValidMimeType, hmime]

/-- A stored `Clip.MOV` of exactly the maximum size passes. -/
theorem validateUploadedFile_passes_witness :
    UploadMiddleware.validateUploadedFile defaultConfig
      { storedRequest 52428800 with
        file := some { storedClip 52428800 with
          originalname := "Clip.MOV", mimetype := "video/quicktime" } } = none :=
  validateUploadedFile_passes defaultConfig _
    { storedClip 52428800 with originalname := "Clip.MOV", mimetype := "video/quicktime" }
    rfl (by decide) (by decide) (by decide)

/-! ## The route `POST /flip-video` -/

theorem formatErrorResponse_run (w : World) (error : JsError) (req : Req) (t : Trace) :
    ∃ body, ErrorHandler.formatErrorResponse w error req t =
        (.ok body, t ++ [Event.dateNow (w.now t)]) ∧
      body.statusCode = (match error.statusCode with
        | some code => if code ≠ 0 then code else 500
        | none => 500) ∧
      body.message = (if error.message ≠ "" then error.message
        else "An unexpected error occurred") := by
  unfold ErrorHandler.formatErrorResponse
  simp only [Eff.run_bind, Eff.run_observe, Eff.run_pure]
  exact ⟨_, rfl, rfl, rfl⟩

/-- The global error handler reads the clock and makes two calls on the
response, `status` and `json`; with `res.send` not replaced nothing else happens. -/
theorem globalErrorHandler_run (w : World) (error : JsError) (req : Req) (res : Res)
    (hhook : res.cleanupHook = false) (t : Trace) :
    ∃ body code, ErrorHandler.globalErrorHandler w error req res t =
      (.ok (Flow.responded, req, { res with statusCode := code }),
        t ++ [Event.dateNow (w.now t), Event.status code,
          Event.json (ResponseBody.error body)]) ∧
      code = (match error.statusCode with
        | some code => if code ≠ 0 then code else 500
        | none => 500) ∧
      body.statusCode = code ∧
      body.message = (if error.message ≠ "" then error.message
        else "An unexpected error occurred") := by
  obtain ⟨body, hbody, hstatus, hmsg⟩ := formatErrorResponse_run w error req t
  refine ⟨body, _, ?_, rfl, hstatus, hmsg⟩
  unfold ErrorHandler.globalErrorHandler ErrorHandler.resJson
  simp only [Eff.run_bind, hbody, Eff.run_emit, hhook]
  cases req.file <;> simp

/-- An upload in the field `video` with an allowed extension and a MIME type
outside the allow-list is answered by `handleMulterErrors` with status 500 and
the message `File upload failed`; the trace holds the clock reading and the two response
calls only. -/
theorem postFlipVideo_mime_rejected (w : World) (config : Config) (req : Req) (part : IncomingFile)
    (hupload : req.upload = some part) (hfield : part.fieldname = "video")
    (hext : FileUtils.isValidFileExtension config part.originalname = true)
    (hmime : FileUtils.isValidMimeType config part.mimetype = false) (t : Trace) :
    ∃ body, VideoRoutes.postFlipVideo w config req t =
      (.ok (Flow.responded, req, { statusCode := 500, cleanupHook := false }),
        t ++ [Event.dateNow (w.now t), Event.status 500,
          Event.json (ResponseBody.error body)]) ∧
      body.statusCode = 500 ∧ body.message = "File upload failed" := by
  obtain ⟨body, code, hrun, hcode, hstatus, hmsg⟩ := globalErrorHandler_run w
    (ErrorHandler.createFileProcessingError "File upload failed"
      (some (JsError.error "Invalid MIME type. Only video files are allowed"))) req {} rfl t
  have hcode500 : code = 500 := by
    rw [hcode]; rfl
  subst hcode500
  have hnocode : (JsError.error "Invalid MIME type. Only video files are allowed").code = none :=
    rfl
  refine ⟨body, ?_, hstatus, ?_⟩
  · simp [VideoRoutes.postFlipVideo, VideoRoutes.serve, VideoRoutes.flipVideoRoute, dispatch,
      UploadMiddleware.upload, hupload, hfield, UploadMiddleware.fileFilter, hext, hmime,
      ErrorHandler.multerErrorHandler, hnocode, hrun]
  · rw [hmsg]; rfl

/-- C2 (code defect): the upload of `notes.mp4` with MIME type `text/plain` in
the field `video` is rejected because of its MIME type, and no transform runs,
but the response has status 500 (`File upload failed`), not 400. -/
theorem postFlipVideo_renamed_text_is_500 :
    VideoRoutes.postFlipVideo calmWorld defaultConfig renamedTextRequest [] =
      (.ok (Flow.responded, renamedTextRequest, { statusCode := 500, cleanupHook := false }),
        [Event.dateNow 1000, Event.status 500,
         Event.json (ResponseBody.error
           { message := "File upload failed", statusCode := 500, timestamp := 1000,
             path := "/flip-video", method := "POST", stack := none, originalError := none,
             ffmpegError := none })]) := by
  rfl

/-- When `validateUploadedFile` rejects a request, the rest of the route is
skipped and the global error handler answers: the trace holds the clock reading and the two
response calls only, in particular no access check and no `unlink`. -/
theorem afterUpload_rejected (w : World) (config : Config) (req : Req) (e : JsError)
    (hreject : UploadMiddleware.validateUploadedFile config req = some e) (t : Trace) :
    ∃ body code, VideoRoutes.serve w (VideoRoutes.afterUpload w config) req {} t =
      (.ok (Flow.responded, req, { statusCode := code, cleanupHook := false }),
        t ++ [Event.dateNow (w.now t), Event.status code,
          Event.json (ResponseBody.error body)]) := by
  obtain ⟨body, code, hrun, _⟩ := globalErrorHandler_run w e req {} rfl t
  refine ⟨body, code, ?_⟩
  simp [VideoRoutes.serve, VideoRoutes.afterUpload, dispatch, hreject, hrun]

/-- The layers after the upload, entered with a stored file one byte over the
limit (a request the upload layer itself never hands on): it is rejected by
`validateUploadedFile` with status 413, and the trace holds the clock reading
and the two response calls only, without a deletion of the stored file
`temp/temp_900_a1b2c3d4e5f6g.mp4`. -/
theorem afterUpload_oversize_leaves_file :
    VideoRoutes.serve calmWorld (VideoRoutes.afterUpload calmWorld defaultConfig)
        (storedRequest 52428801) {} [] =
      (.ok (Flow.responded, storedRequest 52428801, { statusCode := 413, cleanupHook := false }),
        [Event.dateNow 1000, Event.status 413,
         Event.json (ResponseBody.error
           { message := "File size exceeds the maximum limit of 50MB", statusCode := 413,
             timestamp := 1000, path := "/flip-video", method := "POST", stack := none,
             originalError := none, ffmpegError := none })]) := by
  rfl

/-! ## The pure predicates of `fileUtils.js` -/

/-- C13: for every filename, `isValidFileExtension` (default configuration)
returns true if and only if the extension of the filename, lower-cased, is one
of `.mp4`, `.mov`, `.avi`; `video.MOV` is accepted, `video.txt` and the
extension-less `video` are rejected. -/
theorem isValidFileExtension_iff (filename : String) :
    (FileUtils.isValidFileExtension defaultConfig filename = true ↔
      toLowerCase (Path.extname filename) = ".mp4" ∨
      toLowerCase (Path.extname filename) = ".mov" ∨
      toLowerCase (Path.extname filename) = ".avi") ∧
    FileUtils.isValidFileExtension defaultConfig "video.MOV" = true ∧
    FileUtils.isValidFileExtension defaultConfig "video.txt" = false ∧
    FileUtils.isValidFileExtension defaultConfig "video" = false := by
  refine ⟨?_, by decide, by decide, by decide⟩
  simp [FileUtils.isValidFileExtension, defaultConfig]

/-- C14: for every configuration and every size in bytes, `isValidFileSize` is
true if and only if the size is at most the configured maximum file size; the
default maximum is 52428800 bytes, a size equal to it and the size 0 are
accepted, one byte more is rejected. -/
theorem isValidFileSize_iff (config : Config) (size : Nat) :
    (FileUtils.isValidFileSize config size = true ↔ size ≤ config.maxFileSize) ∧
    defaultConfig.maxFileSize = 52428800 ∧
    FileUtils.isValidFileSize defaultConfig 52428800 = true ∧
    FileUtils.isValidFileSize defaultConfig 0 = true ∧
    FileUtils.isValidFileSize defaultConfig 52428801 = false := by
  refine ⟨?_, rfl, by decide, by decide, by decide⟩
  simp [FileUtils.isValidFileSize]

/-! ## The error taxonomy -/

/-- C15: for every message and payload, a `ValidationError` has status 400, a
`FileSizeError` 413, a `FileProcessingError` 500 and an `FFmpegError` 500; and
the four factory functions return the error of their kind (property `name`)
with the given message, the given field (`createValidationError`) and the
given wrapped cause (`originalError` of `createFileProcessingError`,
`ffmpegError` of `createFFmpegError`). -/
theorem error_kinds (message : String) (field : Option String) (cause : Option JsError) :
    ((ValidationError message field).statusCode = some 400 ∧
     (FileSizeError message).statusCode = some 413 ∧
     (FileProcessingError message cause).statusCode = some 500 ∧
     (FFmpegError message cause).statusCode = some 500) ∧
    (ErrorHandler.createValidationError message field = ValidationError message field ∧
     (ErrorHandler.createValidationError message field).name = "ValidationError" ∧
     (ErrorHandler.createValidationError message field).message = message ∧
     (ErrorHandler.createValidationError message field).field = field) ∧
    (ErrorHandler.createFileSizeError message = FileSizeError message ∧
     (ErrorHandler.createFileSizeError message).name = "FileSizeError" ∧
     (ErrorHandler.createFileSizeError message).message = message) ∧
    (ErrorHandler.createFileProcessingError message cause = FileProcessingError message cause ∧
     (ErrorHandler.createFileProcessingError message cause).name = "FileProcessingError" ∧
     (ErrorHandler.createFileProcessingError message cause).message = message ∧
     (ErrorHandler.createFileProcessingError message cause).originalError = cause) ∧
    (ErrorHandler.createFFmpegError message cause = FFmpegError message cause ∧
     (ErrorHandler.createFFmpegError message cause).name = "FFmpegError" ∧
     (ErrorHandler.createFFmpegError message cause).message = message ∧
     (ErrorHandler.createFFmpegError message cause).ffmpegError = cause) :=
  ⟨⟨rfl, rfl, rfl, rfl⟩, ⟨rfl, rfl, rfl, rfl⟩, ⟨rfl, rfl, rfl⟩, ⟨rfl, rfl, rfl, rfl⟩,
    ⟨rfl, rfl, rfl, rfl⟩⟩

/-! ## Temporary filenames -/

theorem toDigitsCore_append (fuel : Nat) : ∀ (n : Nat) (ds : List Char),
    Nat.toDigitsCore 10 fuel n ds = Nat.toDigitsCore 10 fuel n [] ++ ds := by
  induction fuel with
  | zero => intro n ds; simp [Nat.toDigitsCore]
  | succ fuel ih =>
    intro n ds
    simp only [Nat.toDigitsCore]
    split
    · simp
    · rw [ih (n / 10) (Nat.digitChar (n % 10) :: ds), ih (n / 10) [Nat.digitChar (n % 10)]]
      simp

theorem digitChar_isDigit (k : Nat) (hk : k < 10) :
    (Nat.digitChar k).isDigit = true ∧ digitValue (Nat.digitChar k) = k := by
  interval_cases k <;> decide

theorem decimalValue_snoc (ds : List Char) (c : Char) :
    decimalValue (ds ++ [c]) = decimalValue ds * 10 + digitValue c := by
  simp [decimalValue]

/-- With enough fuel the digits of `n` are decimal digits that denote `n`. -/
theorem toDigitsCore_spec (fuel : Nat) : ∀ n : Nat, n < fuel →
    (∀ c ∈ Nat.toDigitsCore 10 fuel n [], c.isDigit = true) ∧
    decimalValue (Nat.toDigitsCore 10 fuel n []) = n ∧
    Nat.toDigitsCore 10 fuel n [] ≠ [] := by
  induction fuel with
  | zero => intro n hn; omega
  | succ fuel ih =>
    intro n hn
    have hd := digitChar_isDigit (n % 10) (Nat.mod_lt _ (by decide))
    simp only [Nat.toDigitsCore]
    split
    · rename_i hzero
      have hsmall : n % 10 = n := by omega
      refine ⟨by simpa using hd.1, ?_, by simp⟩
      simp only [decimalValue, List.foldl, hd.2]
      omega
    · rename_i hpos
      rw [toDigitsCore_append]
      obtain ⟨hall, hval, _⟩ := ih (n / 10) (by omega)
      refine ⟨?_, ?_, by simp⟩
      · intro c hc
        rcases List.mem_append.mp hc with h | h
        · exact hall c h
        · simp at h; rw [h]; exact hd.1
      · rw [decimalValue_snoc, hval, hd.2]
        omega

theorem repr_spec (n : Nat) :
    (∀ c ∈ (Nat.repr n).data, c.isDigit = true) ∧ decimalValue (Nat.repr n).data = n ∧
    (Nat.repr n).data ≠ [] := by
  have h := toDigitsCore_spec (n + 1) n (by omega)
  simpa [Nat.repr, Nat.toDigits, List.asString] using h

/-- The rendering of an integer: digits, after a minus sign when it is negative. -/
theorem int_toString_data (z : Int) :
    (∃ n : Nat, z = Int.ofNat n ∧ (toString z).data = (Nat.repr n).data) ∨
    (∃ n : Nat, z = Int.negSucc n ∧ (toString z).data = '-' :: (Nat.repr (n + 1)).data) := by
  cases z with
  | ofNat n => exact Or.inl ⟨n, rfl, rfl⟩
  | negSucc n => exact Or.inr ⟨n, rfl, rfl⟩

theorem int_toString_no_underscore (z : Int) : '_' ∉ (toString z).data := by
  intro hmem
  rcases int_toString_data z with ⟨n, _, hdata⟩ | ⟨n, _, hdata⟩
  · rw [hdata] at hmem
    exact absurd ((repr_spec n).1 _ hmem) (by decide)
  · rw [hdata] at hmem
    rcases List.mem_cons.mp hmem with h | h
    · exact absurd h (by decide)
    · exact absurd ((repr_spec (n + 1)).1 _ h) (by decide)

theorem repr_data_injective (a b : Nat) (h : (Nat.repr a).data = (Nat.repr b).data) : a = b := by
  have ha := (repr_spec a).2.1
  have hb := (repr_spec b).2.1
  rw [h] at ha
  omega

theorem int_toString_injective (a b : Int) (h : (toString a).data = (toString b).data) :
    a = b := by
  rcases int_toString_data a with ⟨n, hn, hdn⟩ | ⟨n, hn, hdn⟩ <;>
    rcases int_toString_data b with ⟨m, hm, hdm⟩ | ⟨m, hm, hdm⟩
  · rw [hdn, hdm] at h
    rw [hn, hm, repr_data_injective n m h]
  · rw [hdn, hdm] at h
    have hmem : '-' ∈ (Nat.repr n).data := by rw [h]; exact List.mem_cons_self _ _
    exact absurd ((repr_spec n).1 _ hmem) (by decide)
  · rw [hdn, hdm] at h
    have hmem : '-' ∈ (Nat.repr m).data := by rw [← h]; exact List.mem_cons_self _ _
    exact absurd ((repr_spec m).1 _ hmem) (by decide)
  · rw [hdn, hdm] at h
    have h2 := repr_data_injective (n + 1) (m + 1) (List.cons.inj h).2
    rw [hn, hm]
    congr 1
    omega

/-- Two lists that agree after being cut at their first `sep` agree part by part. -/
theorem split_at_first (sep : Char) : ∀ (a b x y : List Char), sep ∉ a → sep ∉ b →
    a ++ sep :: x = b ++ sep :: y → a = b ∧ x = y := by
  intro a
  induction a with
  | nil =>
    intro b x y _ hb h
    cases b with
    | nil => simpa using h
    | cons c b =>
      simp at h
      exact absurd (h.1 ▸ List.mem_cons_self _ _) hb
  | cons c a ih =>
    intro b x y ha hb h
    cases b with
    | nil =>
      simp at h
      exact absurd (h.1 ▸ List.mem_cons_self _ _) ha
    | cons d b =>
      simp at h
      obtain ⟨hcd, hrest⟩ := h
      obtain ⟨hab, hxy⟩ := ih b x y (fun hm => ha (List.mem_cons_of_mem _ hm))
        (fun hm => hb (List.mem_cons_of_mem _ hm)) hrest
      exact ⟨by rw [hcd, hab], hxy⟩

theorem tempFilename_data (timestamp : Int) (random originalName : String) :
    (FileUtils.tempFilename timestamp random originalName).data =
      "temp_".data ++ ((toString timestamp).data ++ '_' :: (random.data ++
        (Path.extname originalName).data)) := by
  simp [FileUtils.tempFilename, String.data_append]

/-- For one original filename, equal names come from equal timestamps and equal tokens. -/
theorem tempFilename_injective (originalName : String) (ts1 ts2 : Int) (tok1 tok2 : String)
    (h : FileUtils.tempFilename ts1 tok1 originalName =
      FileUtils.tempFilename ts2 tok2 originalName) : ts1 = ts2 ∧ tok1 = tok2 := by
  have hdata := congrArg String.data h
  rw [tempFilename_data, tempFilename_data] at hdata
  have hcut := split_at_first '_' _ _ _ _ (int_toString_no_underscore ts1)
    (int_toString_no_underscore ts2) (List.append_cancel_left hdata)
  refine ⟨int_toString_injective _ _ hcut.1, ?_⟩
  have htok := List.append_cancel_right hcut.2
  exact String.ext htok

theorem generateTempFilename_run (w : World) (originalName : String) (t : Trace) :
    FileUtils.generateTempFilename w originalName t =
      (.ok (FileUtils.tempFilename (w.now t) (w.randomToken (t ++ [Event.dateNow (w.now t)]))
        originalName),
       t ++ [Event.dateNow (w.now t),
         Event.random (w.randomToken (t ++ [Event.dateNow (w.now t)]))]) := by
  simp [FileUtils.generateTempFilename]

/-- C11: for every original filename and whatever timestamp `Date.now()` and
random token the world gives, `generateTempFilename` returns `temp_`, the
timestamp in decimal, `_`, the token and the extension `path.extname` finds
in the original filename (for a timestamp `n ≥ 0` the numeral consists of
decimal digits and denotes `n`); the extension keeps its case and is empty
when the name has none, and for `video.mov` the name ends in `.mov`. -/
theorem generateTempFilename_format (w : World) (originalName : String) (t : Trace) :
    FileUtils.generateTempFilename w originalName t =
      (.ok ("temp_" ++ toString (w.now t) ++ "_" ++
          w.randomToken (t ++ [Event.dateNow (w.now t)]) ++ Path.extname originalName),
       t ++ [Event.dateNow (w.now t),
         Event.random (w.randomToken (t ++ [Event.dateNow (w.now t)]))]) ∧
    (∀ n : Nat, (∀ c ∈ (toString (Int.ofNat n)).data, c.isDigit = true) ∧
      decimalValue (toString (Int.ofNat n)).data = n) ∧
    (∀ (timestamp : Int) (random : String),
      FileUtils.tempFilename timestamp random "video.mov" =
        "temp_" ++ toString timestamp ++ "_" ++ random ++ ".mov") ∧
    Path.extname "Clip.MOV" = ".MOV" ∧ Path.extname "video" = "" := by
  refine ⟨?_, ?_, ?_, by decide, by decide⟩
  · rw [generateTempFilename_run]; rfl
  · intro n
    exact ⟨(repr_spec n).1, (repr_spec n).2.1⟩
  · intro timestamp random
    have hext : Path.extname "video.mov" = ".mov" := by decide
    simp [FileUtils.tempFilename, hext]

/-- C12: for every original filename, two runs of `generateTempFilename` (in
any two worlds, after any two histories) return the same name only if they
drew the same timestamp and the same token; this holds for all token strings,
in particular for the base-36 tokens over `0-9a-z`. -/
theorem generateTempFilename_injective (w1 w2 : World) (originalName : String) (t1 t2 : Trace)
    (hsame : (FileUtils.generateTempFilename w1 originalName t1).1 =
      (FileUtils.generateTempFilename w2 originalName t2).1) :
    w1.now t1 = w2.now t2 ∧
    w1.randomToken (t1 ++ [Event.dateNow (w1.now t1)]) =
      w2.randomToken (t2 ++ [Event.dateNow (w2.now t2)]) := by
  rw [generateTempFilename_run, generateTempFilename_run] at hsame
  exact tempFilename_injective originalName _ _ _ _ (Except.ok.inj hsame)

/-- Two requests handled after different histories in a world whose clock and
token source stand still: the names coincide, and so do timestamp and token. -/
theorem generateTempFilename_injective_witness :
    calmWorld.now [] = calmWorld.now [Event.warn "later"] ∧
    calmWorld.randomToken ([] ++ [Event.dateNow (calmWorld.now [])]) =
      calmWorld.randomToken ([Event.warn "later"] ++
        [Event.dateNow (calmWorld.now [Event.warn "later"])]) :=
  generateTempFilename_injective calmWorld calmWorld "video.mp4" [] [Event.warn "later"] rfl

/-! ## The error body -/

/-- C16 (as stated) fails: for an error whose `statusCode` is present and 0, the
status code of the body is not the status code of the error. -/
theorem formatErrorResponse_zero_status :
    ¬ ∃ body, (ErrorHandler.formatErrorResponse calmWorld zeroStatusError
        (storedRequest 100) []).1 = .ok body ∧
      body.statusCode = statedStatusCode zeroStatusError := by
  rintro ⟨body, hbody, hstatus⟩
  have hrun : (ErrorHandler.formatErrorResponse calmWorld zeroStatusError
      (storedRequest 100) []).1 = .ok
        { message := "connection closed", statusCode := 500, timestamp := 1000,
          path := "/flip-video", method := "POST", stack := none, originalError := none,
          ffmpegError := none } := rfl
  rw [hrun] at hbody
  cases hbody
  simp [statedStatusCode, zeroStatusError, JsError.statusCode] at hstatus

/-- C16 (amended): for every error and request, `formatErrorResponse` returns
an error object with `message` the message of the error (`An unexpected error
occurred` when it is empty), `statusCode` the status code of the error (500
when it is absent or 0), `timestamp` the clock reading, `path` and `method`
those of the request; and in production mode (in any mode but `development`)
the fields `stack`, `originalError` and `ffmpegError` are absent. -/
theorem formatErrorResponse_fields (w : World) (error : JsError) (req : Req) (t : Trace) :
    ∃ body, ErrorHandler.formatErrorResponse w error req t =
        (.ok body, t ++ [Event.dateNow (w.now t)]) ∧
      body.message = (if error.message ≠ "" then error.message
        else "An unexpected error occurred") ∧
      body.statusCode = (match error.statusCode with
        | some code => if code ≠ 0 then code else 500
        | none => 500) ∧
      body.timestamp = w.now t ∧ body.path = req.path ∧ body.method = req.method ∧
      (w.nodeEnv ≠ some "development" →
        body.stack = none ∧ body.originalError = none ∧ body.ffmpegError = none) := by
  unfold ErrorHandler.formatErrorResponse
  simp only [Eff.run_bind, Eff.run_observe, Eff.run_pure]
  refine ⟨_, rfl, rfl, rfl, rfl, rfl, rfl, ?_⟩
  intro hmode
  simp [hmode]

/-- In production a `FileProcessingError` that wraps a cause is reported with
its five fields only. -/
theorem formatErrorResponse_fields_witness :
    ∃ body, ErrorHandler.formatErrorResponse calmWorld
        (FileProcessingError "Video processing failed"
          (some (FFmpegError "Video processing timeout" none))) (storedRequest 100) [] =
        (.ok body, [] ++ [Event.dateNow 1000]) ∧
      body.message = "Video processing failed" ∧ body.statusCode = 500 ∧
      body.timestamp = 1000 ∧ body.path = "/flip-video" ∧ body.method = "POST" ∧
      (calmWorld.nodeEnv ≠ some "development" →
        body.stack = none ∧ body.originalError = none ∧ body.ffmpegError = none) :=
  formatErrorResponse_fields calmWorld
    (FileProcessingError "Video processing failed"
      (some (FFmpegError "Video processing timeout" none))) (storedRequest 100) []

/-! ## The race in `flipVideoHorizontally` -/

theorem Race.handle_settled (race : Race) (result : Except JsError Unit)
    (h : race.outcome = some result) (occurrence : Occurrence) :
    (race.handle occurrence).outcome = some result := by
  cases occurrence <;> simp [Race.handle, Race.settle, h]

theorem Race.foldl_settled (occurrences : List Occurrence) :
    ∀ (race : Race) (result : Except JsError Unit), race.outcome = some result →
      (occurrences.foldl Race.handle race).outcome = some result := by
  induction occurrences with
  | nil => intro race result h; exact h
  | cons occurrence rest ih =>
    intro race result h
    exact ih _ result (Race.handle_settled race result h occurrence)

theorem Race.foldl_signals (occurrences : List Occurrence) :
    ∀ (race : Race) (signal : String), signal ∈ race.signals →
      signal ∈ (occurrences.foldl Race.handle race).signals := by
  induction occurrences with
  | nil => intro race signal h; exact h
  | cons occurrence rest ih =>
    intro race signal h
    refine ih _ signal ?_
    cases occurrence
    · simp only [Race.handle, Race.settle]; split <;> exact h
    · simp only [Race.handle, Race.settle]; split <;> exact h
    · simp only [Race.handle, Race.settle]; split <;> simp [h]

/-- C20: the promise of `flipVideoHorizontally` is settled by the first
occurrence among command end, command error and deadline, whatever follows.
When the deadline comes first, the command is sent `SIGKILL` and the outcome
is the rejection `Video processing timeout`, also when the command ends
afterwards; when the command ends first the outcome is success, also when the
timer fires afterwards; when the command fails first the outcome is the
rejection `Video processing failed`. The result of `flipVideoHorizontally` is
the outcome of this race on the events the command emits before the deadline
followed by the deadline, and it records the kill exactly when there is no
such event. -/
theorem flipVideoHorizontally_race (w : World) (config : Config) (inputPath outputPath : String)
    (t : Trace) (later : List Occurrence) (err : JsError) :
    ((Race.run (Occurrence.deadline :: later)).outcome =
        some (.error (FFmpegError "Video processing timeout" none)) ∧
      "SIGKILL" ∈ (Race.run (Occurrence.deadline :: later)).signals) ∧
    (Race.run (Occurrence.commandEnd :: later)).outcome = some (.ok ()) ∧
    (Race.run (Occurrence.commandError err :: later)).outcome =
      some (.error (FFmpegError "Video processing failed" (some err))) ∧
    (Race.run (timeline (w.ffmpegEvents t inputPath outputPath config.processingTimeout))).outcome =
      some (VideoProcessor.flipVideoHorizontally w config inputPath outputPath t).1 ∧
    (VideoProcessor.flipVideoHorizontally w config inputPath outputPath t).2 =
      t ++ Event.ffmpegCommand inputPath outputPath ::
        (if (w.ffmpegEvents t inputPath outputPath config.processingTimeout).isEmpty
          then [Event.ffmpegKill "SIGKILL"] else []) := by
  refine ⟨⟨?_, ?_⟩, ?_, ?_, ?_, ?_⟩
  · exact Race.foldl_settled later _ _ rfl
  · exact Race.foldl_signals later _ _ (by simp [Race.handle, Race.settle, Race.start])
  · exact Race.foldl_settled later _ _ rfl
  · exact Race.foldl_settled later _ _ rfl
  · unfold VideoProcessor.flipVideoHorizontally timeline
    cases hsig : w.ffmpegEvents t inputPath outputPath config.processingTimeout with
    | nil => rfl
    | cons signal rest =>
      cases signal with
      | finished =>
        simp only [Race.run, List.map_cons, List.cons_append, List.foldl_cons]
        exact Race.foldl_settled _ _ _ rfl
      | failed e =>
        simp only [Race.run, List.map_cons, List.cons_append, List.foldl_cons]
        exact Race.foldl_settled _ _ _ rfl
  · unfold VideoProcessor.flipVideoHorizontally
    cases hsig : w.ffmpegEvents t inputPath outputPath config.processingTimeout with
    | nil => simp
    | cons signal rest => cases signal <;> simp

/-! ## The policies of `processVideo` -/

theorem includesChars_start (sub post : List Char) :
    includesChars sub (sub ++ post) = true := by
  cases sub with
  | nil => cases post <;> simp [includesChars]
  | cons c cs =>
    have hstart : (c :: cs).isPrefixOf (c :: (cs ++ post)) = true :=
      List.isPrefixOf_iff_prefix.mpr (List.prefix_append (c :: cs) post)
    simp only [List.cons_append, includesChars, List.append_eq, hstart, Bool.true_or]

theorem includesChars_append (sub post : List Char) :
    ∀ pre : List Char, includesChars sub (pre ++ (sub ++ post)) = true := by
  intro pre
  induction pre with
  | nil => exact includesChars_start sub post
  | cons c pre ih =>
    simp only [List.cons_append, includesChars, List.append_eq, ih, Bool.or_true]

/-- The message of the duration-limit error contains `duration exceeds`. -/
theorem durationMessage_includes (limit : String) :
    includes ("Video duration exceeds maximum limit of " ++ limit ++ " seconds")
      "duration exceeds" = true := by
  have hdata : ("Video duration exceeds maximum limit of " ++ limit ++ " seconds").data =
      "Video ".data ++ ("duration exceeds".data ++
        (" maximum limit of ".data ++ limit.data ++ " seconds".data)) := by
    simp [String.data_append]
  unfold includes
  rw [hdata]
  exact includesChars_append _ _ _

theorem flipVideoHorizontally_run (w : World) (config : Config) (inputPath outputPath : String)
    (t : Trace) :
    VideoProcessor.flipVideoHorizontally w config inputPath outputPath t =
      match w.ffmpegEvents t inputPath outputPath config.processingTimeout with
      | FfmpegSignal.finished :: _ => (.ok (), t ++ [Event.ffmpegCommand inputPath outputPath])
      | FfmpegSignal.failed err :: _ =>
        (.error (FFmpegError "Video processing failed" (some err)),
          t ++ [Event.ffmpegCommand inputPath outputPath])
      | [] =>
        (.error (FFmpegError "Video processing timeout" none),
          t ++ [Event.ffmpegCommand inputPath outputPath, Event.ffmpegKill "SIGKILL"]) := by
  unfold VideoProcessor.flipVideoHorizontally
  cases w.ffmpegEvents t inputPath outputPath config.processingTimeout with
  | nil => simp
  | cons signal rest => cases signal <;> rfl

/-- After a probe whose duration is not within the limit, `processVideo` throws
the duration-limit error; all it does after the probe is the deletion run on
the output path. -/
theorem processVideo_rejected (w : World) (config : Config) (startTime : Int)
    (inputPath outputPath : String) (t : Trace) (metadata : Metadata)
    (hprobe : w.ffprobe t inputPath = .ok metadata)
    (hlong : VideoProcessor.validateVideoDuration config metadata = false) :
    VideoProcessor.processVideo w config startTime inputPath outputPath t =
      (.error (JsError.error ("Video duration exceeds maximum limit of " ++
          toString config.maxDuration ++ " seconds")),
        (FileUtils.safeDeleteFile w outputPath
          (t ++ [Event.ffprobe inputPath (.ok metadata)])).2) := by
  unfold VideoProcessor.processVideo VideoProcessor.getVideoMetadata
  simp only [Eff.run_tryCatch, Eff.run_bind, Eff.run_request, Eff.run_throw, hprobe, hlong,
    Bool.not_false, if_true]
  rw [safeDeleteFile_run]

/-- After a probe whose duration is within the limit, `processVideo` records the
resolution warning on a mismatch, builds the transform command, and its result
is what the transform and the `stat` of the output give. -/
theorem processVideo_probed (w : World) (config : Config) (startTime : Int)
    (inputPath outputPath : String) (t : Trace) (metadata : Metadata)
    (hprobe : w.ffprobe t inputPath = .ok metadata)
    (hshort : VideoProcessor.validateVideoDuration config metadata = true) (t1 : Trace)
    (ht1 : t1 = t ++ Event.ffprobe inputPath (.ok metadata) ::
      (if VideoProcessor.validateVideoResolution config metadata then []
       else [Event.warn
        "Video resolution may not be optimal for TikTok format (720×1280 portrait)"])) :
    VideoProcessor.processVideo w config startTime inputPath outputPath t =
      match w.ffmpegEvents t1 inputPath outputPath config.processingTimeout with
      | FfmpegSignal.finished :: _ =>
        (match w.stat (t1 ++ [Event.ffmpegCommand inputPath outputPath]) outputPath with
          | .ok stats =>
            (.ok { success := true, inputMetadata := metadata,
                   outputFileInfo := { size := stats.size, created := stats.birthtime,
                                       modified := stats.mtime, isFile := stats.isFile },
                   processingTime := w.now (t1 ++ [Event.ffmpegCommand inputPath outputPath,
                     Event.stat outputPath (.ok stats)]) - startTime },
              t1 ++ [Event.ffmpegCommand inputPath outputPath, Event.stat outputPath (.ok stats),
                Event.dateNow (w.now (t1 ++ [Event.ffmpegCommand inputPath outputPath,
                  Event.stat outputPath (.ok stats)]))])
          | .error e =>
            (.error e, (FileUtils.safeDeleteFile w outputPath
              (t1 ++ [Event.ffmpegCommand inputPath outputPath,
                Event.stat outputPath (.error e)])).2))
      | FfmpegSignal.failed err :: _ =>
        (.error (FFmpegError "Video processing failed" (some err)),
          (FileUtils.safeDeleteFile w outputPath
            (t1 ++ [Event.ffmpegCommand inputPath outputPath])).2)
      | [] =>
        (.error (FFmpegError "Video processing timeout" none),
          (FileUtils.safeDeleteFile w outputPath
            (t1 ++ [Event.ffmpegCommand inputPath outputPath, Event.ffmpegKill "SIGKILL"])).2) := by
  subst ht1
  unfold VideoProcessor.processVideo VideoProcessor.getVideoMetadata FileUtils.getFileInfo
  simp only [Eff.run_tryCatch, Eff.run_bind, Eff.run_request, Eff.run_throw, Eff.run_pure,
    Eff.run_emit, Eff.run_observe, hprobe, hshort, Bool.not_true, Bool.false_eq_true, if_false]
  by_cases hres : VideoProcessor.validateVideoResolution config metadata = true
  · simp only [hres, Bool.not_true, Bool.false_eq_true, if_false, if_true, Eff.run_pure,
      Eff.run_bind, List.append_nil, flipVideoHorizontally_run]
    generalize w.ffmpegEvents _ inputPath outputPath config.processingTimeout = signals
    rcases signals with _ | ⟨signal, rest⟩
    · simp [safeDeleteFile_run]
    · cases signal with
      | failed err => simp [safeDeleteFile_run]
      | finished =>
        simp only [Eff.run_request]
        generalize w.stat _ outputPath = answer
        cases answer with
        | error e => simp [safeDeleteFile_run]
        | ok stats => simp
  · simp only [hres, Bool.not_false, if_false, if_true, Eff.run_pure, Eff.run_emit,
      Eff.run_bind, flipVideoHorizontally_run, List.append_assoc, List.singleton_append,
      List.cons_append, List.nil_append, Bool.false_eq_true]
    generalize w.ffmpegEvents _ inputPath outputPath config.processingTimeout = signals
    rcases signals with _ | ⟨signal, rest⟩
    · simp [safeDeleteFile_run]
    · cases signal with
      | failed err => simp [safeDeleteFile_run]
      | finished =>
        simp only [Eff.run_request]
        generalize w.stat _ outputPath = answer
        cases answer with
        | error e => simp [safeDeleteFile_run]
        | ok stats => simp

theorem validateVideoDuration_iff (config : Config) (metadata : Metadata) :
    VideoProcessor.validateVideoDuration config metadata = true ↔
      ∃ duration, metadata.duration = some duration ∧ duration ≤ config.maxDuration := by
  unfold VideoProcessor.validateVideoDuration
  cases metadata.duration with
  | none => simp
  | some duration => simp

theorem noCommand_not_mem (t : Trace) (h : noCommand t = true) (input output : String) :
    Event.ffmpegCommand input output ∉ t := by
  intro hmem
  simp only [noCommand, List.all_eq_true] at h
  simpa using h _ hmem

/-- Past its checks `processVideo` builds the transform command at once, and
its result is that of the transform and the `stat`. -/
theorem processVideo_past_checks (w : World) (config : Config) (startTime : Int)
    (inputPath outputPath : String) (t : Trace) (metadata : Metadata)
    (hprobe : w.ffprobe t inputPath = .ok metadata)
    (hshort : VideoProcessor.validateVideoDuration config metadata = true) :
    (∃ rest, (VideoProcessor.processVideo w config startTime inputPath outputPath t).2 =
      tracePastChecks config inputPath metadata t ++
        Event.ffmpegCommand inputPath outputPath :: rest) ∧
    (VideoProcessor.processVideo w config startTime inputPath outputPath t).1 =
      outcomePastChecks w config startTime inputPath outputPath metadata
        (tracePastChecks config inputPath metadata t) := by
  rw [processVideo_probed w config startTime inputPath outputPath t metadata hprobe hshort
    (tracePastChecks config inputPath metadata t) rfl]
  unfold outcomePastChecks
  generalize tracePastChecks config inputPath metadata t = t1
  rcases w.ffmpegEvents t1 inputPath outputPath config.processingTimeout with _ | ⟨signal, rest⟩
  · obtain ⟨run, hrun, _⟩ := safeDeleteFile_deletionRun w outputPath
      (t1 ++ [Event.ffmpegCommand inputPath outputPath, Event.ffmpegKill "SIGKILL"])
    exact ⟨⟨Event.ffmpegKill "SIGKILL" :: run, by simp [hrun]⟩, rfl⟩
  · cases signal with
    | failed err =>
      obtain ⟨run, hrun, _⟩ := safeDeleteFile_deletionRun w outputPath
        (t1 ++ [Event.ffmpegCommand inputPath outputPath])
      exact ⟨⟨run, by simp [hrun]⟩, rfl⟩
    | finished =>
      simp only
      cases hstat : w.stat (t1 ++ [Event.ffmpegCommand inputPath outputPath]) outputPath with
      | error e =>
        obtain ⟨run, hrun, _⟩ := safeDeleteFile_deletionRun w outputPath
          (t1 ++ [Event.ffmpegCommand inputPath outputPath, Event.stat outputPath (.error e)])
        exact ⟨⟨Event.stat outputPath (.error e) :: run, by simp [hrun]⟩, rfl⟩
      | ok stats => exact ⟨⟨_, by simp; rfl⟩, rfl⟩

/-- C17: for every metadata the probe returns, `processVideo` builds the
transform command if and only if `metadata.format.duration` is a number at
most the configured maximum; otherwise it makes no transform command at all
and throws an error whose message contains `duration exceeds`. The default
maximum is 10 seconds: a duration of exactly 10 passes, anything above fails. -/
theorem processVideo_duration_policy (w : World) (config : Config) (startTime : Int)
    (inputPath outputPath : String) (t : Trace) (metadata : Metadata)
    (hprobe : w.ffprobe t inputPath = .ok metadata) :
    (∃ new, (VideoProcessor.processVideo w config startTime inputPath outputPath t).2 = t ++ new ∧
      (Event.ffmpegCommand inputPath outputPath ∈ new ↔
        ∃ duration, metadata.duration = some duration ∧ duration ≤ config.maxDuration) ∧
      ((¬ ∃ duration, metadata.duration = some duration ∧ duration ≤ config.maxDuration) →
        noCommand new = true ∧
        ∃ e, (VideoProcessor.processVideo w config startTime inputPath outputPath t).1 = .error e ∧
          includes e.message "duration exceeds" = true)) ∧
    defaultConfig.maxDuration = 10 ∧
    (∀ duration : ℚ, VideoProcessor.validateVideoDuration defaultConfig
      { duration := some duration, streams := metadata.streams } = true ↔ duration ≤ 10) := by
  refine ⟨?_, rfl, ?_⟩
  · by_cases hshort : VideoProcessor.validateVideoDuration config metadata = true
    · have hwithin := (validateVideoDuration_iff config metadata).mp hshort
      obtain ⟨⟨rest, hrest⟩, _⟩ := processVideo_past_checks w config startTime inputPath
        outputPath t metadata hprobe hshort
      refine ⟨_, by rw [hrest, tracePastChecks, List.append_assoc], ?_, fun hnot => absurd hwithin hnot⟩
      exact ⟨fun _ => hwithin, fun _ => by simp⟩
    · have hlong : VideoProcessor.validateVideoDuration config metadata = false := by
        simpa using hshort
      have hnot : ¬ ∃ duration, metadata.duration = some duration ∧
          duration ≤ config.maxDuration :=
        fun h => hshort ((validateVideoDuration_iff config metadata).mpr h)
      obtain ⟨run, hrun, hdel⟩ := safeDeleteFile_deletionRun w outputPath
        (t ++ [Event.ffprobe inputPath (.ok metadata)])
      have hquiet := isDeletionRun_quiet _ _ hdel
      simp only [quiet, Bool.and_eq_true] at hquiet
      have hnew : noCommand (Event.ffprobe inputPath (.ok metadata) :: run) = true := by
        have := noCommand_append [Event.ffprobe inputPath (.ok metadata)] run
        simp only [List.singleton_append] at this
        rw [this, hquiet.1]
        rfl
      rw [processVideo_rejected w config startTime inputPath outputPath t metadata hprobe hlong]
      refine ⟨Event.ffprobe inputPath (.ok metadata) :: run, by simp [hrun], ?_, fun _ => ⟨hnew, ?_⟩⟩
      · exact ⟨fun hmem => absurd hmem (noCommand_not_mem _ hnew _ _), fun h => absurd h hnot⟩
      · exact ⟨_, rfl, durationMessage_includes _⟩
  · intro duration
    simp [VideoProcessor.validateVideoDuration, defaultConfig]

/-- A probe reporting 15 seconds: no transform command, and the error of the
duration limit. -/
theorem processVideo_duration_policy_witness :
    (∃ new, (VideoProcessor.processVideo longVideoWorld defaultConfig 1000 "temp/in.mp4"
        "temp/out.mp4" []).2 = [] ++ new ∧
      (Event.ffmpegCommand "temp/in.mp4" "temp/out.mp4" ∈ new ↔
        ∃ duration, (some (15 : ℚ)) = some duration ∧ duration ≤ defaultConfig.maxDuration) ∧
      ((¬ ∃ duration, (some (15 : ℚ)) = some duration ∧ duration ≤ defaultConfig.maxDuration) →
        noCommand new = true ∧
        ∃ e, (VideoProcessor.processVideo longVideoWorld defaultConfig 1000 "temp/in.mp4"
            "temp/out.mp4" []).1 = .error e ∧
          includes e.message "duration exceeds" = true)) ∧
    defaultConfig.maxDuration = 10 ∧
    (∀ duration : ℚ, VideoProcessor.validateVideoDuration defaultConfig
      { duration := some duration, streams := [⟨"video", some 720, some 1280⟩] } = true ↔
        duration ≤ 10) :=
  processVideo_duration_policy longVideoWorld defaultConfig 1000 "temp/in.mp4" "temp/out.mp4" []
    { duration := some 15, streams := [⟨"video", some 720, some 1280⟩] } rfl

theorem dropWarnings_tracePastChecks (config : Config) (inputPath : String)
    (metadata : Metadata) (t extra : Trace) :
    dropWarnings (tracePastChecks config inputPath metadata t ++ extra) =
      dropWarnings (t ++ Event.ffprobe inputPath (.ok metadata) :: extra) := by
  unfold tracePastChecks
  split <;> simp [dropWarnings, List.filter_cons]

theorem outcomePastChecks_congr (w : World) (hw : IgnoresWarnings w) (config config2 : Config)
    (htimeout : config2.processingTimeout = config.processingTimeout) (startTime : Int)
    (inputPath outputPath : String) (metadata : Metadata) (t : Trace) :
    outcomePastChecks w config2 startTime inputPath outputPath metadata
        (tracePastChecks config2 inputPath metadata t) =
      outcomePastChecks w config startTime inputPath outputPath metadata
        (tracePastChecks config inputPath metadata t) := by
  have hsame : ∀ extra : Trace,
      dropWarnings (tracePastChecks config2 inputPath metadata t ++ extra) =
        dropWarnings (tracePastChecks config inputPath metadata t ++ extra) := fun extra => by
    rw [dropWarnings_tracePastChecks, dropWarnings_tracePastChecks]
  have hcommand := (hw _ _ (by simpa using hsame [])).1
  have hstat := (hw _ _ (hsame [Event.ffmpegCommand inputPath outputPath])).2.1
  have hnow := fun stats : Stats => (hw _ _ (hsame [Event.ffmpegCommand inputPath outputPath,
    Event.stat outputPath (.ok stats)])).2.2
  unfold outcomePastChecks
  simp only [hcommand, hstat, hnow, htimeout]

/-- C19: the resolution check of `processVideo` is advisory. Once the probe
has answered and the duration is within the limit, the transform command is
built right after the check whether `validateVideoResolution` returns true or
false (a false verdict only records a warning first), the result is what the
transform and the `stat` of the output give, and where the environment does
not react to console warnings the result is the same for every target
resolution, that is for either verdict. -/
theorem processVideo_resolution_advisory (w : World) (config : Config) (startTime : Int)
    (inputPath outputPath : String) (t : Trace) (metadata : Metadata)
    (hprobe : w.ffprobe t inputPath = .ok metadata)
    (hshort : VideoProcessor.validateVideoDuration config metadata = true) :
    (∃ rest, (VideoProcessor.processVideo w config startTime inputPath outputPath t).2 =
      t ++ Event.ffprobe inputPath (.ok metadata) ::
        ((if VideoProcessor.validateVideoResolution config metadata then []
          else [Event.warn
            "Video resolution may not be optimal for TikTok format (720×1280 portrait)"]) ++
        Event.ffmpegCommand inputPath outputPath :: rest)) ∧
    (VideoProcessor.processVideo w config startTime inputPath outputPath t).1 =
      outcomePastChecks w config startTime inputPath outputPath metadata
        (tracePastChecks config inputPath metadata t) ∧
    (IgnoresWarnings w → ∀ width height : Int,
      (VideoProcessor.processVideo w { config with targetWidth := width, targetHeight := height }
          startTime inputPath outputPath t).1 =
        (VideoProcessor.processVideo w config startTime inputPath outputPath t).1) := by
  obtain ⟨⟨rest, hrest⟩, hresult⟩ := processVideo_past_checks w config startTime inputPath
    outputPath t metadata hprobe hshort
  refine ⟨⟨rest, by rw [hrest, tracePastChecks]; simp⟩, hresult, fun hw width height => ?_⟩
  rw [hresult, (processVideo_past_checks w { config with targetWidth := width, targetHeight := height }
    startTime inputPath outputPath t metadata hprobe hshort).2]
  exact outcomePastChecks_congr w hw config
    { config with targetWidth := width, targetHeight := height } rfl startTime inputPath
    outputPath metadata t

/-- A 1920 by 1080 landscape video fails the resolution check and is
processed all the same, with the warning recorded before the command. -/
theorem processVideo_resolution_advisory_witness :
    VideoProcessor.validateVideoResolution defaultConfig
      { duration := some 3, streams := [⟨"video", some 1920, some 1080⟩] } = false ∧
    IgnoresWarnings landscapeWorld ∧
    (∃ rest, (VideoProcessor.processVideo landscapeWorld defaultConfig 1000 "temp/in.mp4"
        "temp/out.mp4" []).2 =
      [] ++ Event.ffprobe "temp/in.mp4"
          (.ok { duration := some 3, streams := [⟨"video", some 1920, some 1080⟩] }) ::
        ((if VideoProcessor.validateVideoResolution defaultConfig
            { duration := some 3, streams := [⟨"video", some 1920, some 1080⟩] } then []
          else [Event.warn
            "Video resolution may not be optimal for TikTok format (720×1280 portrait)"]) ++
        Event.ffmpegCommand "temp/in.mp4" "temp/out.mp4" :: rest)) ∧
    (VideoProcessor.processVideo landscapeWorld defaultConfig 1000 "temp/in.mp4"
        "temp/out.mp4" []).1 =
      outcomePastChecks landscapeWorld defaultConfig 1000 "temp/in.mp4" "temp/out.mp4"
        { duration := some 3, streams := [⟨"video", some 1920, some 1080⟩] }
        (tracePastChecks defaultConfig "temp/in.mp4"
          { duration := some 3, streams := [⟨"video", some 1920, some 1080⟩] } []) ∧
    (IgnoresWarnings landscapeWorld → ∀ width height : Int,
      (VideoProcessor.processVideo landscapeWorld
          { defaultConfig with targetWidth := width, targetHeight := height }
          1000 "temp/in.mp4" "temp/out.mp4" []).1 =
        (VideoProcessor.processVideo landscapeWorld defaultConfig 1000 "temp/in.mp4"
          "temp/out.mp4" []).1) :=
  ⟨by decide, fun _ _ _ => ⟨rfl, rfl, rfl⟩,
    processVideo_resolution_advisory landscapeWorld defaultConfig 1000 "temp/in.mp4"
      "temp/out.mp4" [] { duration := some 3, streams := [⟨"video", some 1920, some 1080⟩] } rfl
      (by decide)⟩

/-- The `catch` block of `flipVideo` forwards one error, chosen by the message
and the name of the caught one. -/
theorem flipVideoCatch_result (w : World) (file : UploadedFile) (outputPath : Option String)
    (error : JsError) (t : Trace) :
    (VideoController.flipVideoCatch w file outputPath error t).1 =
      .ok (Flow.next (some
        (if includes error.message "duration exceeds" then
          ErrorHandler.createValidationError error.message (some "video")
        else if error.name = "FFmpegError" then
          ErrorHandler.createFileProcessingError "Video processing failed" (some error)
        else ErrorHandler.createFileProcessingError "Failed to process video" (some error)))) := by
  obtain ⟨c, hc, _⟩ := cleanupFiles_run w file.path outputPath (Path.join_ne_empty _ _) t
  unfold VideoController.flipVideoCatch
  simp only [Eff.run_bind, hc]
  split <;> [skip; split] <;> simp [*]

/-- The classification by message, in a world whose module has a truthy
`ffmpeg.path`: with the directory of `oddDirConfig` refused by `mkdir`,
`flipVideo` forwards the `mkdir` error as a `ValidationError` of status 400
although the video was never probed (the trace holds no `ffprobe`). -/
theorem flipVideo_refused_mkdir_is_validation :
    VideoController.flipVideo lockedWorld oddDirConfig oddDirClip [] =
      (.ok (Flow.next (some (ValidationError
          "EACCES: permission denied, mkdir '/srv/duration exceeds'" (some "video")))),
        [Event.getAvailableCodecs none, Event.dateNow 1000, Event.dateNow 1000,
          Event.random "k3j9x0q1z7a2b",
          Event.access "/srv/duration exceeds" (some enoent),
          Event.mkdir "/srv/duration exceeds" true (some (JsError.withCode
            "EACCES: permission denied, mkdir '/srv/duration exceeds'" "EACCES")),
          Event.access "/srv/duration exceeds/temp_1000_k3j9x0q1z7a2b.mp4" (some enoent),
          Event.access "/srv/duration exceeds/temp_900_a1b2c3d4e5f6g.mp4" (some enoent)]) :=
  rfl

/-- The four failures of the pipeline, end to end: a failed probe, a failed
transform, a transform past its deadline and an unreachable tool each make
`flipVideo` forward a `FileProcessingError` that wraps the error thrown. -/
theorem flipVideo_failures_forwarded :
    (VideoController.flipVideo probeFailWorld defaultConfig (storedClip 100) []).1 =
      .ok (Flow.next (some (FileProcessingError "Video processing failed"
        (some (FFmpegError "Failed to get video metadata"
          (some (JsError.error "ffprobe exited with code 1"))))))) ∧
    (VideoController.flipVideo transformFailWorld defaultConfig (storedClip 100) []).1 =
      .ok (Flow.next (some (FileProcessingError "Video processing failed"
        (some (FFmpegError "Video processing failed"
          (some (JsError.error "ffmpeg exited with code 1"))))))) ∧
    (VideoController.flipVideo stalledWorld defaultConfig (storedClip 100) []).1 =
      .ok (Flow.next (some (FileProcessingError "Video processing failed"
        (some (FFmpegError "Video processing timeout" none))))) ∧
    (VideoController.flipVideo noToolWorld defaultConfig (storedClip 100) []).1 =
      .ok (Flow.next (some (FileProcessingError "Failed to process video"
        (some (JsError.error "FFmpeg is not available on the system"))))) ∧
    (VideoController.flipVideo longVideoWorld defaultConfig (storedClip 100) []).1 =
      .ok (Flow.next (some (ValidationError
        "Video duration exceeds maximum limit of 10 seconds" (some "video")))) :=
  ⟨rfl, rfl, rfl, rfl, rfl⟩

theorem getVideoMetadata_failure (w : World) (inputPath : String) (t : Trace) (err : JsError)
    (hprobe : w.ffprobe t inputPath = .error err) :
    VideoProcessor.getVideoMetadata w inputPath t =
      (.error (FFmpegError "Failed to get video metadata" (some err)),
        t ++ [Event.ffprobe inputPath (.error err)]) := by
  unfold VideoProcessor.getVideoMetadata
  simp [Eff.run_tryCatch, Eff.run_request, hprobe]

theorem flipVideoSend_result (w : World) (file : UploadedFile) (result : FileResult)
    (t : Trace) (flow : Flow)
    (hrun : (VideoController.flipVideoSend w file result t).1 = .ok flow) :
    flow = Flow.responded := by
  unfold VideoController.flipVideoSend VideoController.setHeader VideoController.sendFile at hrun
  simp only [Eff.run_bind, Eff.attempt] at hrun
  repeat' split at hrun
  all_goals first
    | (cases hrun; done)
    | (cases hrun; rfl)

/-! ## The health endpoint -/

theorem Eff.run_read {α : Type} (f : Trace → α) (t : Trace) :
    Eff.read f t = (.ok (f t), t) := rfl

/-- The answer of `checkFFmpegAvailability`: the codec query succeeded and
`ffmpeg.path` is truthy. -/
theorem checkFFmpegAvailability_result (w : World) (t : Trace) :
    VideoProcessor.checkFFmpegAvailability w t =
      (.ok ((w.availableCodecs t).isNone && truthy w.ffmpegPath),
        t ++ [Event.getAvailableCodecs (w.availableCodecs t)]) := by
  unfold VideoProcessor.checkFFmpegAvailability VideoProcessor.getFFmpegPath
  simp only [Eff.run_tryCatch, Eff.run_bind, Eff.attempt]
  cases w.availableCodecs t with
  | none => simp
  | some e => simp

theorem healthCheck_run (w : World) (req : Req) (res : Res) (t : Trace) :
    VideoController.healthCheck w req res t =
      (.ok Flow.responded,
        t ++ [Event.getAvailableCodecs (w.availableCodecs t),
          Event.dateNow (w.now (t ++ [Event.getAvailableCodecs (w.availableCodecs t)])),
          Event.status 200,
          Event.json (ResponseBody.health
            { status := "ok"
              timestamp := w.now (t ++ [Event.getAvailableCodecs (w.availableCodecs t)])
              ffmpeg := if (w.availableCodecs t).isNone && truthy w.ffmpegPath
                then "available" else "unavailable"
              uptime := w.uptime (t ++ [Event.getAvailableCodecs (w.availableCodecs t),
                Event.dateNow (w.now (t ++ [Event.getAvailableCodecs (w.availableCodecs t)]))])
              memory := w.memoryUsage (t ++ [Event.getAvailableCodecs (w.availableCodecs t),
                Event.dateNow
                  (w.now (t ++ [Event.getAvailableCodecs (w.availableCodecs t)]))]) })]) := by
  unfold VideoController.healthCheck ErrorHandler.resJson
  simp only [Eff.run_tryCatch, Eff.run_bind, checkFFmpegAvailability_result, Eff.run_observe,
    Eff.run_read, Eff.run_emit, Eff.run_pure]
  cases req.file <;> simp

/-- C21: for every outcome of the codec query `healthCheck` responds with
status 200 and a body whose `status` is `ok`, with the fields `timestamp`,
`ffmpeg`, `uptime` and `memory`; a failed query gives `unavailable` and never
a 500. The `ffmpeg` field is `available` exactly when the query succeeds and
`ffmpeg.path` is truthy: where the query succeeds and the module has no
property `path`, a reachable tool is reported as `unavailable`. -/
theorem healthCheck_reports (w : World) (req : Req) (res : Res) (t : Trace) :
    (∃ body, VideoController.healthCheck w req res t =
        (.ok Flow.responded,
          t ++ [Event.getAvailableCodecs (w.availableCodecs t),
            Event.dateNow (w.now (t ++ [Event.getAvailableCodecs (w.availableCodecs t)])),
            Event.status 200, Event.json (ResponseBody.health body)]) ∧
      body.status = "ok" ∧
      body.timestamp = w.now (t ++ [Event.getAvailableCodecs (w.availableCodecs t)]) ∧
      body.uptime = w.uptime (t ++ [Event.getAvailableCodecs (w.availableCodecs t),
        Event.dateNow (w.now (t ++ [Event.getAvailableCodecs (w.availableCodecs t)]))]) ∧
      body.memory = w.memoryUsage (t ++ [Event.getAvailableCodecs (w.availableCodecs t),
        Event.dateNow (w.now (t ++ [Event.getAvailableCodecs (w.availableCodecs t)]))]) ∧
      (body.ffmpeg = "available" ∨ body.ffmpeg = "unavailable") ∧
      (body.ffmpeg = "available" ↔
        w.availableCodecs t = none ∧ truthy w.ffmpegPath = true) ∧
      (w.availableCodecs t ≠ none → body.ffmpeg = "unavailable")) ∧
    pathlessWorld.availableCodecs [] = none ∧
    VideoController.healthCheck pathlessWorld healthRequest {} [] =
      (.ok Flow.responded,
        [Event.getAvailableCodecs none, Event.dateNow 1000, Event.status 200,
          Event.json (ResponseBody.health
            { status := "ok", timestamp := 1000, ffmpeg := "unavailable", uptime := 42,
              memory := { rss := 50000000, heapTotal := 20000000, heapUsed := 10000000 } })]) := by
  refine ⟨⟨_, healthCheck_run w req res t, rfl, rfl, rfl, rfl, ?_, ?_, ?_⟩, rfl, rfl⟩
  · dsimp only
    split <;> simp
  · dsimp only
    cases w.availableCodecs t <;> cases truthy w.ffmpegPath <;> simp
  · dsimp only
    cases w.availableCodecs t <;> simp

/-! ## Generated names hold no path separator -/

theorem Path.extStep_stop (chars : List Char) (i : Nat) (s : Path.ExtState) :
    (Path.extStep chars i s).stop =
      if s.broke = true ∨ chars.getD i ' ' = '/' then s.stop
      else if s.stop = none then some (i + 1) else s.stop := by
  unfold Path.extStep
  split_ifs <;> simp_all <;> split_ifs <;> try simp_all

theorem Path.extStep_startDot (chars : List Char) (i : Nat) (s : Path.ExtState) :
    (Path.extStep chars i s).startDot =
      if s.broke = true ∨ chars.getD i ' ' = '/' then s.startDot
      else if chars.getD i ' ' = '.' ∧ s.startDot = none then some i else s.startDot := by
  unfold Path.extStep
  split_ifs <;> simp_all <;> split_ifs <;> try simp_all

theorem Path.extStep_matchedSlash (chars : List Char) (i : Nat) (s : Path.ExtState) :
    (Path.extStep chars i s).matchedSlash =
      if s.broke = true ∨ chars.getD i ' ' = '/' then s.matchedSlash
      else if s.stop = none then false else s.matchedSlash := by
  unfold Path.extStep
  split_ifs <;> simp_all <;> split_ifs <;> try simp_all

theorem Path.extStep_broke (chars : List Char) (i : Nat) (s : Path.ExtState)
    (h : (Path.extStep chars i s).broke = false) : s.broke = false := by
  unfold Path.extStep at h
  split_ifs at h <;> simp_all

theorem Path.extStep_broke_slash (chars : List Char) (i : Nat) (s : Path.ExtState)
    (hslash : chars.getD i ' ' = '/') (h : (Path.extStep chars i s).broke = false) :
    s.matchedSlash = true := by
  unfold Path.extStep at h
  split_ifs at h <;> simp_all

theorem Path.extStep_invariant (chars : List Char) (i : Nat) (hi : i < chars.length)
    (s : Path.ExtState) (h : Path.ScanInvariant chars (i + 1) s) :
    Path.ScanInvariant chars i (Path.extStep chars i s) := by
  obtain ⟨h1, h2, h3⟩ := h
  have hstep : ∀ e, (∀ j, i + 1 ≤ j → j < e → chars.getD j ' ' ≠ '/') →
      chars.getD i ' ' ≠ '/' → ∀ j, i ≤ j → j < e → chars.getD j ' ' ≠ '/' := by
    intro e hrest hhere j hij hje
    rcases Nat.eq_or_lt_of_le hij with heq | hlt
    · rw [← heq]; exact hhere
    · exact hrest j hlt hje
  have hbroke := Path.extStep_broke chars i s
  unfold Path.ScanInvariant
  rw [Path.extStep_stop, Path.extStep_startDot, Path.extStep_matchedSlash]
  by_cases hkeep : s.broke = true ∨ chars.getD i ' ' = '/'
  · simp only [hkeep, if_true]
    refine ⟨h1, fun e he => ⟨(h2 e he).1, (h2 e he).2.1, fun hnew j hij hje => ?_⟩, h3⟩
    have hnb := hbroke hnew
    rcases hkeep with hb | hslash
    · simp [hnb] at hb
    · have := Path.extStep_broke_slash chars i s hslash hnew
      simp [(h2 e he).1] at this
  · have hc : chars.getD i ' ' ≠ '/' := fun hslash => hkeep (Or.inr hslash)
    have hnb : s.broke = false := by
      cases hb : s.broke with
      | false => rfl
      | true => exact absurd (Or.inl hb) hkeep
    simp only [hkeep, if_false]
    cases hs : s.stop with
    | none =>
      obtain ⟨hd, _⟩ := h1 hs
      have hone : ∀ j, i ≤ j → j < i + 1 → chars.getD j ' ' ≠ '/' := fun j hij hje => by
        have : j = i := by omega
        rw [this]; exact hc
      simp only [if_true, hd, and_true]
      refine ⟨by simp, fun e he => ?_, fun d e hd2 he => ?_⟩
      · simp only [Option.some.injEq] at he
        subst he
        exact ⟨trivial, hi, fun _ => hone⟩
      · simp only [Option.some.injEq] at he
        subst he
        split_ifs at hd2
        simp only [Option.some.injEq] at hd2
        subst hd2
        exact hone
    | some e0 =>
      obtain ⟨hm, hlen, hreg⟩ := h2 e0 hs
      have hregion := hstep e0 (hreg hnb) hc
      simp only [Option.some_ne_none, if_false]
      refine ⟨by simp, fun e he => ?_, fun d e hd2 he => ?_⟩
      · simp only [Option.some.injEq] at he
        subst he
        exact ⟨hm, hlen, fun _ => hregion⟩
      · simp only [Option.some.injEq] at he
        subst he
        split_ifs at hd2
        · simp only [Option.some.injEq] at hd2
          subst hd2
          exact hregion
        · exact h3 d e0 hd2 hs

theorem Path.extScan_invariant (chars : List Char) :
    ∀ (n : Nat) (s : Path.ExtState), n ≤ chars.length → Path.ScanInvariant chars n s →
      Path.ScanInvariant chars 0 (Path.extScan chars n s) := by
  intro n
  induction n with
  | zero => intro s _ h; exact h
  | succ i ih =>
    intro s hn h
    exact ih _ (by omega) (Path.extStep_invariant chars i (by omega) s h)

/-- The extension that `path.extname` returns holds no slash. -/
theorem Path.extnameChars_no_slash (chars : List Char) : '/' ∉ Path.extnameChars chars := by
  have hstart : Path.ScanInvariant chars chars.length {} :=
    ⟨fun _ => ⟨rfl, rfl⟩, fun e he => (by cases he), fun d e hd => (by cases hd)⟩
  have hinv := Path.extScan_invariant chars chars.length {} (le_refl _) hstart
  obtain ⟨_, h2, h3⟩ := hinv
  unfold Path.extnameChars
  simp only
  split
  · rename_i startDot stop hd hs
    split
    · simp
    · intro hmem
      obtain ⟨k, hk, hget⟩ := List.mem_iff_getElem.mp hmem
      simp only [List.length_drop, List.length_take] at hk
      have hreg := h3 startDot stop hd hs (startDot + k) (by omega) (by omega)
      apply hreg
      simp only [List.getElem_drop, List.getElem_take] at hget
      rw [List.getD_eq_getElem?_getD, List.getElem?_eq_getElem (by omega)]
      simpa using hget
  · simp

theorem Path.splitSlash_ne_nil (p : List Char) : Path.splitSlash p ≠ [] := by
  cases p with
  | nil => simp [Path.splitSlash]
  | cons c cs =>
    unfold Path.splitSlash
    split
    · simp
    · split <;> simp

theorem Path.splitSlash_no_slash (b : List Char) (hb : '/' ∉ b) : Path.splitSlash b = [b] := by
  induction b with
  | nil => rfl
  | cons c cs ih =>
    have hc : c ≠ '/' := fun h => hb (by simp [h])
    have hcs : '/' ∉ cs := fun h => hb (by simp [h])
    simp [Path.splitSlash, ih hcs, hc]

theorem Path.splitSlash_append (a b : List Char) (hb : '/' ∉ b) :
    Path.splitSlash (a ++ '/' :: b) = Path.splitSlash a ++ [b] := by
  induction a with
  | nil => simp [Path.splitSlash, Path.splitSlash_no_slash b hb]
  | cons c cs ih =>
    rw [List.cons_append]
    unfold Path.splitSlash
    rw [ih]
    rcases hsplit : Path.splitSlash cs with _ | ⟨seg, rest⟩
    · exact absurd hsplit (Path.splitSlash_ne_nil cs)
    · simp only [List.cons_append]
      split <;> simp

theorem Path.normalizeSegments_snoc (allowAboveRoot : Bool) (b : List Char) (hne : b ≠ [])
    (hdot : b ≠ ['.']) (hdots : b ≠ ['.', '.']) :
    ∀ (segs acc : List (List Char)),
      Path.normalizeSegments allowAboveRoot acc (segs ++ [b]) =
        b :: Path.normalizeSegments allowAboveRoot acc segs := by
  intro segs
  induction segs with
  | nil =>
    intro acc
    simp [Path.normalizeSegments, hne, hdot, hdots]
  | cons seg rest ih =>
    intro acc
    rw [List.cons_append]
    unfold Path.normalizeSegments
    simp only [ih]
    by_cases h1 : seg = [] ∨ seg = ['.']
    · simp only [h1, if_true]
    · simp only [h1, if_false]
      by_cases h2 : seg = ['.', '.']
      · simp only [h2, if_true]
        cases acc with
        | nil => rfl
        | cons top below => simp only; split_ifs <;> rfl
      · simp only [h2, if_false]

theorem Path.joinSlash_snoc (b : List Char) :
    ∀ segs : List (List Char), segs ≠ [] →
      Path.joinSlash (segs ++ [b]) = Path.joinSlash segs ++ '/' :: b := by
  intro segs
  induction segs with
  | nil => intro h; exact absurd rfl h
  | cons seg rest ih =>
    intro _
    cases rest with
    | nil => simp [Path.joinSlash]
    | cons seg2 rest2 =>
      have := ih (by simp)
      simp only [List.cons_append] at this ⊢
      simp [Path.joinSlash, this]

theorem Path.joinSlash_snoc_ne_nil (b : List Char) (hb : b ≠ []) (segs : List (List Char)) :
    Path.joinSlash (segs ++ [b]) ≠ [] := by
  cases segs with
  | nil => simpa [Path.joinSlash] using hb
  | cons seg rest =>
    rw [Path.joinSlash_snoc b (seg :: rest) (by simp)]
    simp

theorem Path.getLast?_ne_slash (b : List Char) (hb : '/' ∉ b) : b.getLast? ≠ some '/' := by
  intro h
  exact hb (List.mem_of_getLast?_eq_some h)

theorem Path.head?_ne_slash (b : List Char) (hb : '/' ∉ b) : b.head? ≠ some '/' := by
  intro h
  exact hb (List.mem_of_mem_head? h)

theorem Path.normalizeChars_plain (a b : List Char) (ha : a ≠ []) (hslash : '/' ∉ b)
    (hne : b ≠ []) (hdot : b ≠ ['.']) (hdots : b ≠ ['.', '.']) :
    Path.normalizeChars (a ++ '/' :: b) =
      (if a.head? = some '/' then ['/'] else []) ++
        Path.joinSlash ((Path.normalizeSegments (!decide (a.head? = some '/')) []
          (Path.splitSlash a)).reverse ++ [b]) := by
  have hlast := Path.getLast?_ne_slash b hslash
  have hp : a ++ '/' :: b ≠ [] := by simp
  have hbody := Path.joinSlash_snoc_ne_nil b hne
    (Path.normalizeSegments (!decide (a.head? = some '/')) [] (Path.splitSlash a)).reverse
  have hheadp : (a ++ '/' :: b).head? = a.head? := by
    cases a with
    | nil => exact absurd rfl ha
    | cons c cs => rfl
  have hlastp : (a ++ '/' :: b).getLast? = b.getLast? := by
    rw [List.getLast?_append, List.getLast?_cons]
    cases hn : b.getLast? with
    | none => exact absurd (List.getLast?_eq_none_iff.mp hn) hne
    | some c => simp
  unfold Path.normalizeChars
  rw [if_neg hp]
  simp only [hheadp, hlastp, Path.splitSlash_append _ _ hslash,
    Path.normalizeSegments_snoc _ _ hne hdot hdots, List.reverse_cons]
  rw [if_neg hbody]
  simp only [hlast, if_false]
  split_ifs <;> simp

/-- Joining a directory with a plain name (no slash, not empty, not `.` or
`..`) appends the name as one segment to the segments of the directory. -/
theorem Path.join_plain (dir name : String) (hslash : '/' ∉ name.data) (hne : name.data ≠ [])
    (hdot : name.data ≠ ['.']) (hdots : name.data ≠ ['.', '.']) :
    (Path.join dir name).data =
      (if dir.data.head? = some '/' then ['/'] else []) ++
        Path.joinSlash (Path.directorySegments dir ++ [name.data]) := by
  have hlast := Path.getLast?_ne_slash name.data hslash
  have hhead := Path.head?_ne_slash name.data hslash
  unfold Path.join Path.directorySegments
  by_cases hdir : dir.data = []
  · simp [hdir, hne, Path.normalizeChars, Path.joinSlash, Path.splitSlash,
      Path.splitSlash_no_slash _ hslash, Path.normalizeSegments, hdot, hdots, hlast, hhead]
  · have hparts : [dir.data, name.data].filter (fun s => decide (s ≠ [])) =
        [dir.data, name.data] := by
      simp [List.filter, hdir, hne]
    simp only [hparts, List.cons_ne_nil, if_false, Path.joinSlash]
    exact Path.normalizeChars_plain dir.data name.data hdir hslash hne hdot hdots

theorem int_toString_no_slash (z : Int) : '/' ∉ (toString z).data := by
  intro hmem
  rcases int_toString_data z with ⟨n, _, hdata⟩ | ⟨n, _, hdata⟩
  · rw [hdata] at hmem
    have := (repr_spec n).1 _ hmem
    simp at this
  · rw [hdata] at hmem
    rcases List.mem_cons.mp hmem with h | h
    · cases h
    · have := (repr_spec (n + 1)).1 _ h
      simp at this

theorem isBase36_no_slash (token : String) (h : isBase36 token = true) : '/' ∉ token.data := by
  intro hmem
  simp only [isBase36, List.all_eq_true] at h
  have := h _ hmem
  simp at this

/-- A generated name holds no slash and is a plain segment. -/
theorem tempFilename_plain (timestamp : Int) (random originalName : String)
    (h : isBase36 random = true) :
    '/' ∉ (FileUtils.tempFilename timestamp random originalName).data ∧
    (FileUtils.tempFilename timestamp random originalName).data ≠ [] ∧
    (FileUtils.tempFilename timestamp random originalName).data ≠ ['.'] ∧
    (FileUtils.tempFilename timestamp random originalName).data ≠ ['.', '.'] := by
  rw [tempFilename_data]
  refine ⟨?_, by simp, by simp, by simp⟩
  intro hmem
  simp only [List.mem_append, List.mem_cons] at hmem
  rcases hmem with h1 | h2 | h3 | h4 | h5
  · simp at h1
  · exact int_toString_no_slash _ h2
  · cases h3
  · exact isBase36_no_slash _ h h4
  · exact Path.extnameChars_no_slash _ h5

/-- C22: for every original filename (also one with `/` or `..` segments),
every timestamp and every base-36 token, `generateTempFilename` returns a name
without the separator `/`, and `getTempFilePath` of that name is the
normalised temp directory followed by the name as its one last segment: the
file lies directly inside the configured temp directory. -/
theorem generateTempFilename_no_separator (w : World) (config : Config) (originalName : String)
    (t : Trace) (htoken : isBase36 (w.randomToken (t ++ [Event.dateNow (w.now t)])) = true) :
    (∃ name, (FileUtils.generateTempFilename w originalName t).1 = .ok name ∧
      '/' ∉ name.data ∧
      (FileUtils.getTempFilePath config name).data =
        (if config.tempDir.data.head? = some '/' then ['/'] else []) ++
          Path.joinSlash (Path.directorySegments config.tempDir ++ [name.data])) ∧
    Path.directorySegments defaultConfig.tempDir = ["temp".data] ∧
    FileUtils.tempFilename 1000 "k3j9x0q1z7a2b" "../../etc/clip.mp4" =
      "temp_1000_k3j9x0q1z7a2b.mp4" ∧
    FileUtils.tempFilename 1000 "k3j9x0q1z7a2b" "clip.mp4/../../x" =
      "temp_1000_k3j9x0q1z7a2b" ∧
    FileUtils.getTempFilePath defaultConfig
        (FileUtils.tempFilename 1000 "k3j9x0q1z7a2b" "../../etc/clip.mp4") =
      "temp/temp_1000_k3j9x0q1z7a2b.mp4" := by
  refine ⟨⟨_, congrArg Prod.fst (generateTempFilename_run w originalName t), ?_, ?_⟩,
    by decide, by decide, by decide, by decide⟩
  · exact (tempFilename_plain _ _ originalName htoken).1
  · obtain ⟨h1, h2, h3, h4⟩ := tempFilename_plain (w.now t)
      (w.randomToken (t ++ [Event.dateNow (w.now t)])) originalName htoken
    exact Path.join_plain config.tempDir _ h1 h2 h3 h4

/-- An upload named `../../etc/clip.mp4` in the calm world. -/
theorem generateTempFilename_no_separator_witness :
    isBase36 (calmWorld.randomToken ([] ++ [Event.dateNow (calmWorld.now [])])) = true ∧
    ∃ name, (FileUtils.generateTempFilename calmWorld "../../etc/clip.mp4" []).1 = .ok name ∧
      '/' ∉ name.data ∧
      (FileUtils.getTempFilePath defaultConfig name).data =
        (if defaultConfig.tempDir.data.head? = some '/' then ['/'] else []) ++
          Path.joinSlash (Path.directorySegments defaultConfig.tempDir ++ [name.data]) :=
  ⟨by decide,
    (generateTempFilename_no_separator calmWorld defaultConfig "../../etc/clip.mp4" []
      (by decide)).1⟩

/-! ## The errors `flipVideo` forwards, by cause -/

theorem flipVideoCatch_forwards (w : World) (file : UploadedFile) (outputPath : Option String)
    (error : JsError) (t : Trace) :
    (VideoController.flipVideoCatch w file outputPath error t).1 =
      .ok (Flow.next (some (VideoController.forwardedError error))) :=
  flipVideoCatch_result w file outputPath error t

/-- When the probe fails, `processVideo` throws the probe error wrapped in an
`FFmpegError`. -/
theorem processVideo_probe_failed (w : World) (config : Config) (startTime : Int)
    (inputPath outputPath : String) (t : Trace) (err : JsError)
    (hprobe : w.ffprobe t inputPath = .error err) :
    (VideoProcessor.processVideo w config startTime inputPath outputPath t).1 =
      .error (FFmpegError "Failed to get video metadata" (some err)) := by
  unfold VideoProcessor.processVideo VideoProcessor.getVideoMetadata
  simp only [Eff.run_tryCatch, Eff.run_bind, Eff.run_request, Eff.run_throw, hprobe]
  rw [safeDeleteFile_run]

/-- The result of `processVideoFile` is the error of `ensureTempDir`, or the
error or the result of `processVideo` on the generated output path. -/
theorem processVideoFile_result (w : World) (config : Config) (file : UploadedFile) (t : Trace) :
    (VideoProcessor.processVideoFile w config file.path file.originalname (checkedTrace w t)).1 =
      match FileUtils.ensureTempDir w config (entryTrace w t) with
      | (.error e, _) => .error e
      | (.ok _, t1) =>
        match (VideoProcessor.processVideo w config (startTimeAt w t) file.path
            (outputPathAt w config file t) t1).1 with
        | .error e => .error e
        | .ok result =>
          .ok { result := result, outputPath := outputPathAt w config file t,
                outputFilename := FileUtils.tempFilename
                  (w.now (checkedTrace w t ++ [Event.dateNow (startTimeAt w t)]))
                  (w.randomToken (stampedTrace w t)) file.originalname } := by
  unfold VideoProcessor.processVideoFile
  simp only [Eff.run_bind, Eff.run_observe, generateTempFilename_run, Eff.run_tryCatch,
    Eff.run_pure, Eff.run_throw]
  have hstamp : checkedTrace w t ++ [Event.dateNow (w.now (checkedTrace w t))] ++
      [Event.dateNow (w.now (checkedTrace w t ++ [Event.dateNow (w.now (checkedTrace w t))]))] =
      stampedTrace w t := by
    simp [stampedTrace, startTimeAt]
  rw [hstamp]
  have hentry : checkedTrace w t ++ [Event.dateNow (w.now (checkedTrace w t))] ++
      [Event.dateNow (w.now (checkedTrace w t ++ [Event.dateNow (w.now (checkedTrace w t))])),
        Event.random (w.randomToken (stampedTrace w t))] = entryTrace w t := by
    simp [entryTrace, stampedTrace, startTimeAt]
  rw [hentry]
  have hout : FileUtils.getTempFilePath config (FileUtils.tempFilename
      (w.now (checkedTrace w t ++ [Event.dateNow (w.now (checkedTrace w t))]))
      (w.randomToken (stampedTrace w t)) file.originalname) = outputPathAt w config file t := rfl
  rw [hout]
  have hstart : w.now (checkedTrace w t) = startTimeAt w t := rfl
  rw [hstart]
  rcases FileUtils.ensureTempDir w config (entryTrace w t) with ⟨r, t1⟩
  cases r with
  | error e => simp [safeDeleteFile_run]
  | ok u =>
    simp only
    rcases VideoProcessor.processVideo w config (startTimeAt w t) file.path
      (outputPathAt w config file t) t1 with ⟨r2, t2⟩
    cases r2 with
    | error e => simp [safeDeleteFile_run]
    | ok result => rfl

/-- The result of `flipVideo`: the response, or the forwarding of the error
thrown by the availability check, by `processVideoFile` or while sending. -/
theorem flipVideo_result (w : World) (config : Config) (file : UploadedFile) (t : Trace) :
    (VideoController.flipVideo w config file t).1 =
      if ((w.availableCodecs t).isNone && truthy w.ffmpegPath) = false then
        .ok (Flow.next (some (VideoController.forwardedError
          (JsError.error "FFmpeg is not available on the system"))))
      else
        match (VideoProcessor.processVideoFile w config file.path file.originalname
            (checkedTrace w t)).1 with
        | .error e => .ok (Flow.next (some (VideoController.forwardedError e)))
        | .ok result =>
          match (VideoController.flipVideoSend w file result
            (VideoProcessor.processVideoFile w config file.path file.originalname
              (checkedTrace w t)).2).1 with
          | .error e => .ok (Flow.next (some (VideoController.forwardedError e)))
          | .ok _ => .ok Flow.responded := by
  unfold VideoController.flipVideo VideoController.flipVideoProcess
  simp only [Eff.run_bind, checkFFmpegAvailability_result, Eff.run_throw, Eff.run_pure]
  cases havailable : ((w.availableCodecs t).isNone && truthy w.ffmpegPath) with
  | false =>
    simp only [Bool.not_false, if_true, Eff.run_throw]
    exact flipVideoCatch_forwards w file none _ _
  | true =>
    simp only [Bool.not_true, Bool.false_eq_true, if_false, Eff.run_pure, Eff.run_bind]
    have hchecked : t ++ [Event.getAvailableCodecs (w.availableCodecs t)] = checkedTrace w t :=
      rfl
    rw [hchecked]
    rcases VideoProcessor.processVideoFile w config file.path file.originalname
      (checkedTrace w t) with ⟨r, t1⟩
    cases r with
    | error e => exact flipVideoCatch_forwards w file none e t1
    | ok result =>
      simp only [Eff.run_tryCatch]
      rcases hsend : VideoController.flipVideoSend w file result t1 with ⟨r2, t2⟩
      cases r2 with
      | error e => exact flipVideoCatch_forwards w file _ e t2
      | ok flow =>
        have hflow := flipVideoSend_result w file result t1 flow (by rw [hsend])
        simp [hflow]

/-- An error whose message does not contain `duration exceeds` is forwarded as
a `FileProcessingError` of status 500 that wraps it. -/
theorem forwardedError_plain (error : JsError)
    (hplain : includes error.message "duration exceeds" = false) :
    VideoController.forwardedError error =
      FileProcessingError
        (if error.name = "FFmpegError" then "Video processing failed"
         else "Failed to process video") (some error) := by
  unfold VideoController.forwardedError
  rw [if_neg (by simp [hplain])]
  split <;> rfl

/-- The error `flipVideo` forwards is of one of the two kinds. -/
theorem forwardedError_kind (error : JsError) :
    ((VideoController.forwardedError error).name = "ValidationError" ∧
      (VideoController.forwardedError error).statusCode = some 400 ∧
      (VideoController.forwardedError error).field = some "video") ∨
    ((VideoController.forwardedError error).name = "FileProcessingError" ∧
      (VideoController.forwardedError error).statusCode = some 500 ∧
      (VideoController.forwardedError error).originalError = some error) := by
  unfold VideoController.forwardedError
  split
  · exact Or.inl ⟨rfl, rfl, rfl⟩
  · split <;> exact Or.inr ⟨rfl, rfl, rfl⟩

/-- What `flipVideo` forwards when `processVideoFile` throws. -/
theorem flipVideo_of_processing_error (w : World) (config : Config) (file : UploadedFile)
    (t : Trace) (havailable : ((w.availableCodecs t).isNone && truthy w.ffmpegPath) = true)
    (e : JsError)
    (hthrown : (VideoProcessor.processVideoFile w config file.path file.originalname
      (checkedTrace w t)).1 = .error e) :
    (VideoController.flipVideo w config file t).1 =
      .ok (Flow.next (some (VideoController.forwardedError e))) := by
  rw [flipVideo_result, hthrown]
  simp [havailable]

/-- What `processVideoFile` throws when `processVideo` throws. -/
theorem processVideoFile_of_error (w : World) (config : Config) (file : UploadedFile)
    (t tdir : Trace) (hdir : FileUtils.ensureTempDir w config (entryTrace w t) = (.ok (), tdir))
    (e : JsError)
    (hthrown : (VideoProcessor.processVideo w config (startTimeAt w t) file.path
      (outputPathAt w config file t) tdir).1 = .error e) :
    (VideoProcessor.processVideoFile w config file.path file.originalname
      (checkedTrace w t)).1 = .error e := by
  rw [processVideoFile_result, hdir]
  simp only [hthrown]

/-- C18: `flipVideo` never throws, and whenever it does not respond itself it
forwards exactly one error, a `ValidationError` (status 400, field `video`) or
a `FileProcessingError` (status 500) wrapping the caught error. By cause, for
every world, file and trace: an unreachable tool (the codec query fails, or
`ffmpeg.path` is falsy as with the module as published) is forwarded as a
`FileProcessingError`; with the tool reachable and the temp directory ready, a
probe failure, a transform failure and a transform timeout are each forwarded
as a `FileProcessingError` wrapping the `FFmpegError` thrown, and a duration
outside the limit as the `ValidationError`; every other caught error (of
`mkdir`, `stat`, the headers or the send) is forwarded by `forwardedError`,
which gives a `FileProcessingError` wrapping it unless its message contains
`duration exceeds`. -/
theorem flipVideo_forwards_taxonomy (w : World) (config : Config) (file : UploadedFile)
    (t : Trace) :
    ((VideoController.flipVideo w config file t).1 = .ok Flow.responded ∨
      ∃ caught, (VideoController.flipVideo w config file t).1 =
          .ok (Flow.next (some (VideoController.forwardedError caught))) ∧
        (((VideoController.forwardedError caught).name = "ValidationError" ∧
            (VideoController.forwardedError caught).statusCode = some 400 ∧
            (VideoController.forwardedError caught).field = some "video") ∨
          ((VideoController.forwardedError caught).name = "FileProcessingError" ∧
            (VideoController.forwardedError caught).statusCode = some 500 ∧
            (VideoController.forwardedError caught).originalError = some caught))) ∧
    (((w.availableCodecs t).isNone && truthy w.ffmpegPath) = false →
      (VideoController.flipVideo w config file t).1 =
        .ok (Flow.next (some (FileProcessingError "Failed to process video"
          (some (JsError.error "FFmpeg is not available on the system")))))) ∧
    (((w.availableCodecs t).isNone && truthy w.ffmpegPath) = true →
      (∀ e tfail, FileUtils.ensureTempDir w config (entryTrace w t) = (.error e, tfail) →
        (VideoController.flipVideo w config file t).1 =
          .ok (Flow.next (some (VideoController.forwardedError e)))) ∧
      (∀ tdir, FileUtils.ensureTempDir w config (entryTrace w t) = (.ok (), tdir) →
        (∀ err, w.ffprobe tdir file.path = .error err →
          (VideoController.flipVideo w config file t).1 =
            .ok (Flow.next (some (FileProcessingError "Video processing failed"
              (some (FFmpegError "Failed to get video metadata" (some err))))))) ∧
        (∀ metadata, w.ffprobe tdir file.path = .ok metadata →
          (VideoProcessor.validateVideoDuration config metadata = false →
            (VideoController.flipVideo w config file t).1 =
              .ok (Flow.next (some (ValidationError
                ("Video duration exceeds maximum limit of " ++ toString config.maxDuration ++
                  " seconds") (some "video"))))) ∧
          (VideoProcessor.validateVideoDuration config metadata = true →
            (∀ err rest,
              w.ffmpegEvents (tracePastChecks config file.path metadata tdir) file.path
                (outputPathAt w config file t) config.processingTimeout =
                  FfmpegSignal.failed err :: rest →
              (VideoController.flipVideo w config file t).1 =
                .ok (Flow.next (some (FileProcessingError "Video processing failed"
                  (some (FFmpegError "Video processing failed" (some err))))))) ∧
            (w.ffmpegEvents (tracePastChecks config file.path metadata tdir) file.path
                (outputPathAt w config file t) config.processingTimeout = [] →
              (VideoController.flipVideo w config file t).1 =
                .ok (Flow.next (some (FileProcessingError "Video processing failed"
                  (some (FFmpegError "Video processing timeout" none)))))) ∧
            (∀ rest e,
              w.ffmpegEvents (tracePastChecks config file.path metadata tdir) file.path
                (outputPathAt w config file t) config.processingTimeout =
                  FfmpegSignal.finished :: rest →
              w.stat (tracePastChecks config file.path metadata tdir ++
                [Event.ffmpegCommand file.path (outputPathAt w config file t)])
                (outputPathAt w config file t) = .error e →
              (VideoController.flipVideo w config file t).1 =
                .ok (Flow.next (some (VideoController.forwardedError e)))))))) ∧
    (∀ e, includes e.message "duration exceeds" = false →
      VideoController.forwardedError e =
        FileProcessingError
          (if e.name = "FFmpegError" then "Video processing failed"
           else "Failed to process video") (some e)) := by
  refine ⟨?_, fun hno => ?_, fun hyes => ⟨fun e tfail hdir => ?_, fun tdir hdir =>
    ⟨fun err hprobe => ?_, fun metadata hprobe => ⟨fun hlong => ?_, fun hshort =>
      ⟨fun err rest hfailed => ?_, fun hstalled => ?_, fun rest e hfinished hstat => ?_⟩⟩⟩⟩,
    forwardedError_plain⟩
  · rw [flipVideo_result]
    split
    · exact Or.inr ⟨_, rfl, forwardedError_kind _⟩
    · split
      · exact Or.inr ⟨_, rfl, forwardedError_kind _⟩
      · split
        · exact Or.inr ⟨_, rfl, forwardedError_kind _⟩
        · exact Or.inl rfl
  · rw [flipVideo_result, if_pos hno]
    rfl
  · refine flipVideo_of_processing_error w config file t hyes e ?_
    rw [processVideoFile_result, hdir]
  · rw [flipVideo_of_processing_error w config file t hyes _
      (processVideoFile_of_error w config file t tdir hdir _
        (processVideo_probe_failed w config _ _ _ tdir err hprobe))]
    rfl
  · have hthrown := congrArg Prod.fst (processVideo_rejected w config (startTimeAt w t)
      file.path (outputPathAt w config file t) tdir metadata hprobe hlong)
    rw [flipVideo_of_processing_error w config file t hyes _
      (processVideoFile_of_error w config file t tdir hdir _ hthrown)]
    unfold VideoController.forwardedError
    have hphrase : includes (JsError.error ("Video duration exceeds maximum limit of " ++
        toString config.maxDuration ++ " seconds")).message "duration exceeds" = true :=
      durationMessage_includes _
    rw [if_pos hphrase]
    rfl
  · have hout := (processVideo_past_checks w config (startTimeAt w t) file.path
      (outputPathAt w config file t) tdir metadata hprobe hshort).2
    rw [outcomePastChecks, hfailed] at hout
    rw [flipVideo_of_processing_error w config file t hyes _
      (processVideoFile_of_error w config file t tdir hdir _ hout)]
    rfl
  · have hout := (processVideo_past_checks w config (startTimeAt w t) file.path
      (outputPathAt w config file t) tdir metadata hprobe hshort).2
    rw [outcomePastChecks, hstalled] at hout
    rw [flipVideo_of_processing_error w config file t hyes _
      (processVideoFile_of_error w config file t tdir hdir _ hout)]
    rfl
  · have hout := (processVideo_past_checks w config (startTimeAt w t) file.path
      (outputPathAt w config file t) tdir metadata hprobe hshort).2
    rw [outcomePastChecks, hfinished] at hout
    simp only [hstat] at hout
    exact flipVideo_of_processing_error w config file t hyes _
      (processVideoFile_of_error w config file t tdir hdir _ hout)

/-! ## The stored file on the route `POST /flip-video` -/

/-- The upload layer calls `next` and never throws; it leaves the request as it is, or it calls `next()`
with a stored file that passes every check of `validateUploadedFile`. -/
theorem upload_run (w : World) (config : Config) (req : Req) (res : Res) (t : Trace) :
    ∃ err req1 pre, UploadMiddleware.upload w config req res t =
        (.ok (Flow.next err, req1, res), t ++ pre) ∧
      (req1 = req ∨
        (err = none ∧ ∃ file, req1 = { req with file := some file } ∧
          UploadMiddleware.validateUploadedFile config req1 = none)) := by
  unfold UploadMiddleware.upload
  cases hupload : req.upload with
  | none => exact ⟨none, req, [], by simp, Or.inl rfl⟩
  | some part =>
    simp only
    by_cases hfield : part.fieldname = "video"
    · simp only [hfield, ne_eq, not_true_eq_false, if_false]
      cases hext : FileUtils.isValidFileExtension config part.originalname with
      | false =>
        refine ⟨some (JsError.error
          "Invalid file format. Only MP4, MOV, and AVI files are allowed"), req, [], ?_,
          Or.inl rfl⟩
        simp [UploadMiddleware.fileFilter, hfield, hext]
      | true =>
        cases hmime : FileUtils.isValidMimeType config part.mimetype with
        | false =>
          refine ⟨some (JsError.error "Invalid MIME type. Only video files are allowed"), req,
            [], ?_, Or.inl rfl⟩
          simp [UploadMiddleware.fileFilter, hfield, hext, hmime]
        | true =>
          have hfilter : UploadMiddleware.fileFilter config part = .ok true := by
            simp [UploadMiddleware.fileFilter, hfield, hext, hmime]
          simp only [hfilter, Eff.run_tryCatch, Eff.run_bind, generateTempFilename_run]
          rcases hdir : FileUtils.ensureTempDir w config t with ⟨r, t1⟩
          have hext1 : ∃ pre, t1 = t ++ pre := by
            have hrun := ensureTempDir_run w config t
            rw [hdir] at hrun
            split at hrun
            · exact ⟨_, (Prod.mk.inj hrun).2⟩
            · exact ⟨_, (Prod.mk.inj hrun).2⟩
          obtain ⟨pre, rfl⟩ := hext1
          cases r with
          | error e => exact ⟨some e, req, pre, by simp, Or.inl rfl⟩
          | ok u =>
            simp only
            by_cases hsize : part.size > config.maxFileSize
            · refine ⟨some (UploadMiddleware.multerError "File too large" "LIMIT_FILE_SIZE"
                (some part.fieldname)), req,
                pre ++ [Event.dateNow (w.now (t ++ pre)),
                  Event.random (w.randomToken (t ++ pre ++ [Event.dateNow (w.now (t ++ pre))]))], ?_, Or.inl rfl⟩
              simp [hsize, hfield]
            · refine ⟨none,
                ({ req with
                    file := some ({ fieldname := part.fieldname, originalname := part.originalname,
                                    mimetype := part.mimetype, destination := config.tempDir,
                                    filename := FileUtils.tempFilename (w.now (t ++ pre))
                                      (w.randomToken (t ++ pre ++ [Event.dateNow (w.now (t ++ pre))]))
                                      part.originalname,
                                    size := part.size } : UploadedFile) } : Req),
                pre ++ [Event.dateNow (w.now (t ++ pre)),
                  Event.random (w.randomToken (t ++ pre ++ [Event.dateNow (w.now (t ++ pre))]))], ?_, Or.inr ⟨rfl, _, by rw [hupload], ?_⟩⟩
              · simp [hsize, hupload, hfield]
              · have hle : part.size ≤ config.maxFileSize := by omega
                simp [UploadMiddleware.validateUploadedFile, FileUtils.isValidFileSize, hle,
                  hext, hmime]
    · simp only [ne_eq, hfield, not_false_eq_true, if_true]
      exact ⟨some (UploadMiddleware.multerError "Unexpected field" "LIMIT_UNEXPECTED_FILE"
        (some part.fieldname)), req, [], by simp, Or.inl rfl⟩

/-- The global error handler, whatever the state of `res.send`: it reads the
clock, sets the status and sends the body; with a stored file, `res.send`
replaced by `cleanupOnError` and a status of at least 400, a deletion run on
the stored file stands between the two. -/
theorem globalErrorHandler_cleanup (w : World) (error : JsError) (req : Req) (res : Res)
    (t : Trace) :
    ∃ code cleanup body, ErrorHandler.globalErrorHandler w error req res t =
      (.ok (Flow.responded, req, { res with statusCode := code }),
        t ++ [Event.dateNow (w.now t), Event.status code] ++ cleanup ++ [Event.json body]) ∧
      (∀ file, req.file = some file → res.cleanupHook = true → 400 ≤ code →
        isDeletionRun file.path cleanup = true) := by
  obtain ⟨body, hbody, _, _⟩ := formatErrorResponse_run w error req t
  unfold ErrorHandler.globalErrorHandler ErrorHandler.resJson
  simp only [Eff.run_bind, hbody, Eff.run_emit]
  generalize (match error.statusCode with
    | some code => if code ≠ 0 then code else 500
    | none => 500) = code
  cases hfile : req.file with
  | none =>
    exact ⟨code, [], ResponseBody.error body, by simp, fun file h => by cases h⟩
  | some file =>
    simp only
    by_cases hcond : (res.cleanupHook && decide (code ≥ 400)) = true
    · obtain ⟨run, hrun, hdel⟩ := safeDeleteFile_deletionRun w file.path
        (t ++ [Event.dateNow (w.now t), Event.status code])
      refine ⟨code, run, ResponseBody.error body, ?_, fun file2 h _ _ => ?_⟩
      · simp [hcond, Eff.run_tryCatch, hrun]
      · cases h
        exact hdel
    · refine ⟨code, [], ResponseBody.error body, by simp [hcond],
        fun file2 _ hhook hcode => ?_⟩
      simp [hhook] at hcond
      omega

/-- The controller extends the trace and hands over in one of two ways: it
has responded, or it calls `next` with the forwarded error. -/
theorem flipVideo_run (w : World) (config : Config) (file : UploadedFile) (t : Trace) :
    ∃ new, (VideoController.flipVideo w config file t =
        (.ok Flow.responded, t ++ new) ∨
      ∃ caught, VideoController.flipVideo w config file t =
        (.ok (Flow.next (some (VideoController.forwardedError caught))), t ++ new)) := by
  have hnew : ∃ new, (VideoController.flipVideo w config file t).2 = t ++ new := by
    obtain ⟨out, a, c0, _, _, hproc⟩ := flipVideoProcess_run w config file t
    unfold VideoController.flipVideo
    rcases hrun : VideoController.flipVideoProcess w config file t with ⟨r, t1⟩
    rw [hrun] at hproc
    cases r with
    | error e =>
      simp only at hproc ⊢
      obtain ⟨c, hc, _⟩ := flipVideoCatch_run w file none e t1
      exact ⟨a ++ c0 ++ c, by rw [hc, hproc.1]; simp⟩
    | ok result =>
      simp only at hproc ⊢
      obtain ⟨h, c, hc, _⟩ := flipVideoSend_run w file result t1
      exact ⟨a ++ h ++ c, by rw [hc, hproc.1]; simp⟩
  obtain ⟨new, hnew⟩ := hnew
  refine ⟨new, ?_⟩
  have hresult := flipVideo_result w config file t
  rcases hfv : VideoController.flipVideo w config file t with ⟨r, t1⟩
  rw [hfv] at hnew hresult
  simp only at hnew hresult
  subst hnew
  split at hresult
  · exact Or.inr ⟨_, by rw [hresult]⟩
  · split at hresult
    · exact Or.inr ⟨_, by rw [hresult]⟩
    · split at hresult
      · exact Or.inr ⟨_, by rw [hresult]⟩
      · exact Or.inl (by rw [hresult])

/-- Whatever `handleMulterErrors` is given, it responds and leaves the request
as it is. -/
theorem multerErrorHandler_run (w : World) (error : JsError) (req : Req) (res : Res)
    (t : Trace) :
    ∃ res1 t1, ErrorHandler.multerErrorHandler w error req res t =
      (.ok (Flow.responded, req, res1), t1) := by
  unfold ErrorHandler.multerErrorHandler
  split
  · obtain ⟨code, cleanup, body, hrun, _⟩ := globalErrorHandler_cleanup w
      (ErrorHandler.createFileSizeError "File size exceeds the maximum limit of 50MB") req res t
    exact ⟨_, _, hrun⟩
  · split
    · obtain ⟨code, cleanup, body, hrun, _⟩ := globalErrorHandler_cleanup w
        (ErrorHandler.createValidationError "Unexpected file field" (some "video")) req res t
      exact ⟨_, _, hrun⟩
    · obtain ⟨code, cleanup, body, hrun, _⟩ := globalErrorHandler_cleanup w
        (ErrorHandler.createFileProcessingError "File upload failed" (some error)) req res t
      exact ⟨_, _, hrun⟩

/-- C5: on the chain of `POST /flip-video`, for every request that arrives
without `req.file`: a file the upload layer stored passes every re-check of
`validateUploadedFile` (the upload layer applied the same checks), so that
`validateUploadedFile` rejects only a request without a stored file; and
whenever the chain answers with an error status a request whose file was
stored, a deletion of that file is attempted as part of producing the
response: the wrapper that `cleanupOnError` put around `res.send` starts it
when the body is sent. -/
theorem postFlipVideo_stored_file_cleanup (w : World) (config : Config) (req : Req)
    (t : Trace) (hfresh : req.file = none) :
    (∀ err req1 res1 t1 file,
      UploadMiddleware.upload w config req {} t = (.ok (Flow.next err, req1, res1), t1) →
      req1.file = some file →
      err = none ∧ UploadMiddleware.validateUploadedFile config req1 = none) ∧
    (∀ flow req1 res1 t1 file,
      VideoRoutes.postFlipVideo w config req t = (.ok (flow, req1, res1), t1) →
      req1.file = some file → 400 ≤ res1.statusCode →
      ∃ before run body, t1 = t ++ before ++ run ++ [Event.json body] ∧
        isDeletionRun file.path run = true) := by
  obtain ⟨err0, req0, pre, hupload, hcases⟩ := upload_run w config req {} t
  constructor
  · intro err req1 res1 t1 file hrun hfile
    rw [hupload] at hrun
    simp only [Prod.mk.injEq, Except.ok.injEq, Flow.next.injEq] at hrun
    obtain ⟨⟨herr, hreq, _⟩, _⟩ := hrun
    subst herr hreq
    rcases hcases with hsame | ⟨hnone, file0, _, hvalid⟩
    · rw [hsame, hfresh] at hfile
      cases hfile
    · exact ⟨hnone, hvalid⟩
  · intro flow req1 res1 t1 file hrun hfile hstatus
    unfold VideoRoutes.postFlipVideo VideoRoutes.serve VideoRoutes.flipVideoRoute
      VideoRoutes.afterUpload at hrun
    simp only [List.cons_append, List.nil_append, dispatch, hupload, List.append_eq] at hrun
    rcases hcases with hsame | ⟨hnone, file0, hstored, hvalid⟩
    · subst hsame
      exfalso
      cases err0 with
      | some e =>
        obtain ⟨res2, t2, hmulter⟩ := multerErrorHandler_run w e req0 {} (t ++ pre)
        simp only [dispatch, hmulter] at hrun
        simp only [Prod.mk.injEq, Except.ok.injEq] at hrun
        obtain ⟨⟨_, hreq, _⟩, _⟩ := hrun
        rw [← hreq, hfresh] at hfile
        cases hfile
      | none =>
        have hreject : UploadMiddleware.validateUploadedFile config req0 =
            some (ErrorHandler.createValidationError "No video file uploaded" (some "video")) := by
          simp [UploadMiddleware.validateUploadedFile, hfresh]
        obtain ⟨code, cleanup, body, hglobal, _⟩ := globalErrorHandler_cleanup w
          (ErrorHandler.createValidationError "No video file uploaded" (some "video")) req0 {}
          (t ++ pre)
        simp only [dispatch, Eff.run_pure, hreject, hglobal] at hrun
        simp only [Prod.mk.injEq, Except.ok.injEq] at hrun
        obtain ⟨⟨_, hreq, _⟩, _⟩ := hrun
        rw [← hreq, hfresh] at hfile
        cases hfile
    · subst hnone
      have hfile0 : req0.file = some file0 := by rw [hstored]
      simp only [dispatch, Eff.run_pure, hvalid, UploadMiddleware.cleanupOnError,
        VideoRoutes.flipVideoLayer, hfile0] at hrun
      obtain ⟨new, hresponded | ⟨caught, hforwarded⟩⟩ := flipVideo_run w config file0 (t ++ pre)
      · simp only [Eff.run_bind, hresponded, Eff.run_pure] at hrun
        simp only [Prod.mk.injEq, Except.ok.injEq] at hrun
        obtain ⟨⟨_, _, hres⟩, _⟩ := hrun
        rw [← hres] at hstatus
        simp at hstatus
      · obtain ⟨code, cleanup, body, hglobal, hdeletion⟩ := globalErrorHandler_cleanup w
          (VideoController.forwardedError caught) req0 { statusCode := 200, cleanupHook := true }
          (t ++ pre ++ new)
        simp only [Eff.run_bind, hforwarded, Eff.run_pure, dispatch, hglobal] at hrun
        simp only [Prod.mk.injEq, Except.ok.injEq] at hrun
        obtain ⟨⟨_, hreq, hres⟩, htrace⟩ := hrun
        subst hreq hres
        rw [hfile0] at hfile
        cases hfile
        refine ⟨pre ++ new ++ [Event.dateNow (w.now (t ++ pre ++ new)), Event.status code],
          cleanup, body, ?_, hdeletion file hfile0 rfl hstatus⟩
        rw [← htrace]
        simp

/-- The upload of a 15 second clip: the file is stored, the duration limit
rejects it with status 400, and the stored file is deleted before the body is
sent. -/
theorem postFlipVideo_stored_file_cleanup_witness :
    clipUploadRequest.file = none ∧
    VideoRoutes.postFlipVideo longVideoWorld defaultConfig clipUploadRequest [] =
      (.ok (Flow.responded,
          { clipUploadRequest with
            file := some { fieldname := "video", originalname := "clip.mp4",
                           mimetype := "video/mp4", destination := "./temp",
                           filename := "temp_1000_k3j9x0q1z7a2b.mp4", size := 2048 } },
          { statusCode := 400, cleanupHook := true }),
        [Event.access "./temp" none, Event.dateNow 1000, Event.random "k3j9x0q1z7a2b",
          Event.getAvailableCodecs none, Event.dateNow 1000, Event.dateNow 1000,
          Event.random "k3j9x0q1z7a2b", Event.access "./temp" none,
          Event.ffprobe "temp/temp_1000_k3j9x0q1z7a2b.mp4"
            (.ok { duration := some 15, streams := [⟨"video", some 720, some 1280⟩] }),
          Event.access "temp/temp_1000_k3j9x0q1z7a2b.mp4" none,
          Event.unlink "temp/temp_1000_k3j9x0q1z7a2b.mp4" none,
          Event.access "temp/temp_1000_k3j9x0q1z7a2b.mp4" none,
          Event.unlink "temp/temp_1000_k3j9x0q1z7a2b.mp4" none,
          Event.access "temp/temp_1000_k3j9x0q1z7a2b.mp4" none,
          Event.unlink "temp/temp_1000_k3j9x0q1z7a2b.mp4" none,
          Event.dateNow 1000, Event.status 400,
          Event.access "temp/temp_1000_k3j9x0q1z7a2b.mp4" none,
          Event.unlink "temp/temp_1000_k3j9x0q1z7a2b.mp4" none,
          Event.json (ResponseBody.error
            { message := "Video duration exceeds maximum limit of 10 seconds", statusCode := 400,
              timestamp := 1000, path := "/flip-video", method := "POST", stack := none,
              originalError := none, ffmpegError := none })]) ∧
    ((∀ err req1 res1 t1 file,
      UploadMiddleware.upload longVideoWorld defaultConfig clipUploadRequest {} [] =
        (.ok (Flow.next err, req1, res1), t1) →
      req1.file = some file →
      err = none ∧ UploadMiddleware.validateUploadedFile defaultConfig req1 = none) ∧
    (∀ flow req1 res1 t1 file,
      VideoRoutes.postFlipVideo longVideoWorld defaultConfig clipUploadRequest [] =
        (.ok (flow, req1, res1), t1) →
      req1.file = some file → 400 ≤ res1.statusCode →
      ∃ before run body, t1 = [] ++ before ++ run ++ [Event.json body] ∧
        isDeletionRun file.path run = true)) :=
  ⟨rfl, rfl, postFlipVideo_stored_file_cleanup longVideoWorld defaultConfig clipUploadRequest []
    rfl⟩

end FlipApi
